import Mathlib

/-!
# DwiSlpy: type-and-return checker and IR translation

A shallow embedding of `dwislpy-check.cc` and `dwislpy-inst.cc` (with the AST
of `dwislpy-ast.hh`) and theorems about the return-behaviour algebra, the
statement checker and the translation into three-address instructions.

Conventions of the embedding.

* A C++ method that mutates its receiver or a reference argument returns the
  new value of what it mutates next to its result: `chck` on an expression
  returns the expression with its type slots as the call leaves them, `chck`
  on a statement returns the statement and the symbol table.
* A method that can `throw` returns `Except DwislpyError _` as its result; the
  mutated state is returned in both cases, since the mutation happens through
  references and survives the exception.
* A `trans` method returns the symbol table and the instruction vector as it
  leaves them, or `none` when `std::get<bool>` in `Ltrl::trans_cndn` throws
  `std::bad_variant_access`; the labels of the global string constants, global
  variables in the source, are an argument.
* The headers `dwislpy-check.hh`, `dwislpy-util.hh` and `dwislpy-inst.hh` are
  not part of the sources at hand; what they declare (`Type`, `Rtns`, `Locn`,
  `DwislpyError`, `SymT`, the instruction classes) is modelled from the
  specification and from the way the sources use it.
-/

namespace Dwislpy

/-! ## Types, values, locations, errors -/

abbrev Name := String

abbrev Labl := String

/-- Modelled from the spec: the variant `Type` of `dwislpy-check.hh`, one of
`IntTy`, `StrTy`, `BoolTy`, `NoneTy`. -/
inductive Ty where
  | IntTy
  | StrTy
  | BoolTy
  | NoneTy
  deriving DecidableEq, Repr

/-- Modelled from the spec: the class `Locn` of `dwislpy-util.hh`, a
(line, column, source file) triple. -/
structure Locn where
  file : String
  line : Nat
  column : Nat
  deriving DecidableEq, Repr

/-- Modelled from the spec: the class `DwislpyError` of `dwislpy-util.hh`.
`mk lo msg` is `DwislpyError {lo, msg}` as the sources throw it.
`RedefinedName name` is the failure of `add_formal` / `add_local` on a name
that is already present; the sources at hand do not show its location or
message. -/
inductive DwislpyError where
  | mk (lo : Locn) (msg : String)
  | RedefinedName (name : Name)
  deriving DecidableEq, Repr

/-- The variant `Valu` of `dwislpy-ast.hh`: `std::variant<int, bool, std::string, none>`. -/
inductive Valu where
  | int (i : Int)
  | bool (b : Bool)
  | string (s : String)
  | none
  deriving DecidableEq, Repr

/-- Modelled from the spec: the variant `Rtns` of `dwislpy-check.hh`. The
sources build it from `Void {}`, `VoidOr {type}` and a bare `Type`; the last
alternative is the one the specification writes `Def(t)`. -/
inductive Rtns where
  | Void
  | VoidOr (type : Ty)
  | Def (type : Ty)
  deriving DecidableEq, Repr

/-! ## `dwislpy-check.cc`, lines 11-61: type predicates -/

def is_int (type : Ty) : Bool :=
  match type with
  | .IntTy => true
  | _ => false

def is_str (type : Ty) : Bool :=
  match type with
  | .StrTy => true
  | _ => false

def is_bool (type : Ty) : Bool :=
  match type with
  | .BoolTy => true
  | _ => false

def is_None (type : Ty) : Bool :=
  match type with
  | .NoneTy => true
  | _ => false

/-- The source's `operator==(Type, Type)`. -/
def Ty.op_eq (type1 type2 : Ty) : Bool :=
  if is_int type1 && is_int type2 then true
  else if is_str type1 && is_str type2 then true
  else if is_bool type1 && is_bool type2 then true
  else if is_None type1 && is_None type2 then true
  else false

/-- The source's `operator!=(Type, Type)`. -/
def Ty.op_ne (type1 type2 : Ty) : Bool :=
  !(Ty.op_eq type1 type2)

def type_name (type : Ty) : String :=
  if is_int type then "int"
  else if is_str type then "str"
  else if is_bool type then "bool"
  else if is_None type then "None"
  else "wtf"

/-! ## `dwislpy-check.cc`, lines 95-155: the return-behaviour algebra -/

def type_of (rtns : Rtns) : Ty :=
  match rtns with
  | .VoidOr type => type
  | .Def type => type
  | .Void => .NoneTy

def void_of (rtns : Rtns) : Rtns :=
  match rtns with
  | .Def rtns_ty => .VoidOr rtns_ty
  | _ => rtns

/-- The test `std::holds_alternative<Void>(rtns)`. -/
def Rtns.holds_Void (rtns : Rtns) : Bool :=
  match rtns with
  | .Void => true
  | _ => false

/-- The test `std::holds_alternative<VoidOr>(rtns)`. -/
def Rtns.holds_VoidOr (rtns : Rtns) : Bool :=
  match rtns with
  | .VoidOr _ => true
  | _ => false

def rtns_seq (rtns1 rtns2 : Rtns) (lo : Locn) : Except DwislpyError Rtns :=
  if rtns1.holds_Void then .ok rtns2
  else if rtns1.holds_VoidOr then
    let rtns_ty1 := type_of rtns1
    if rtns2.holds_Void then .ok rtns1
    else
      let rtns_ty2 := type_of rtns2
      if Ty.op_eq rtns_ty1 rtns_ty2 then .ok rtns2
      else
        .error (.mk lo ("Type mismatch. Statement return is"
          ++ " not compatible with what's expected."))
  else .error (.mk lo "Statement not reachable because of prior return.")

def rtns_sum (rtns1 rtns2 : Rtns) (lo : Locn) : Except DwislpyError Rtns :=
  if rtns1.holds_Void then .ok (void_of rtns2)
  else if rtns2.holds_Void then .ok (void_of rtns1)
  else
    let rtns_ty1 := type_of rtns1
    let rtns_ty2 := type_of rtns2
    if Ty.op_eq rtns_ty1 rtns_ty2 then
      if rtns1.holds_VoidOr || rtns2.holds_VoidOr then .ok (.VoidOr rtns_ty1)
      else .ok (.Def rtns_ty1)
    else .error (.mk lo "Type mismatch. Incompatible return types.")

/-! ## The symbol table -/

/-- Modelled from the spec: the kind of a symbol-table entry. -/
inductive SymKind where
  | Local
  | Formal
  | Temp
  deriving DecidableEq, Repr

/-- Modelled from the spec: `SymInfo`, the kind, the declared type and the
ordinal slot index of an entry. -/
structure SymInfo where
  kind : SymKind
  type : Ty
  slot : Nat
  deriving DecidableEq, Repr

/-- Modelled from the spec: the class `SymT` of `dwislpy-check.hh`: the
insertion-ordered entries (formals, locals, temporaries), the count of
formals, the counter from which fresh temporaries and labels are minted, and
the pool of interned string literals with their labels. The pool of a table
wired to the global table by `set_parent` is the pool of the global table. -/
structure SymT where
  info : List (Name × SymInfo)
  frmls : Nat
  count : Nat := 0
  strgs : List (String × Labl) := []
  prnt : Bool := false
  deriving DecidableEq, Repr

/-- Modelled from the spec: `SymT::get_info`, lookup in this table only; the
null pointer is `none`. -/
def SymT.get_info (symt : SymT) (name : Name) : Option SymInfo :=
  symt.info.lookup name

/-- Modelled from the spec: `SymT::has_info`, whether this table has an entry
for the name. -/
def SymT.has_info (symt : SymT) (name : Name) : Bool :=
  (symt.get_info name).isSome

/-- Modelled from the spec: `SymT::add_locl`, "append; fail with
`RedefinedName` if `name` already present in this table". The new entry takes
the next ordinal slot. -/
def SymT.add_locl (symt : SymT) (name : Name) (type : Ty) : Except DwislpyError SymT :=
  if symt.has_info name then .error (.RedefinedName name)
  else .ok { symt with info := symt.info ++ [(name, ⟨.Local, type, symt.info.length⟩)] }

/-! ## The AST (`dwislpy-ast.hh`) -/

/-- The expression classes of `dwislpy-ast.hh`. Every node carries its
location and its type slot (`Expn::type`), which `chck` fills. -/
inductive Expn where
  | Plus (left rght : Expn) (lo : Locn) (type : Ty)
  | Less (left rght : Expn) (lo : Locn) (type : Ty)
  | And (left rght : Expn) (lo : Locn) (type : Ty)
  | Ltrl (valu : Valu) (lo : Locn) (type : Ty)
  | Lkup (name : Name) (lo : Locn) (type : Ty)
  | Inpt (expn : Expn) (lo : Locn) (type : Ty)
  deriving DecidableEq, Repr

/-- The source's `AST::where()` on an expression node. -/
def Expn.locn : Expn → Locn
  | .Plus _ _ lo _ => lo
  | .Less _ _ lo _ => lo
  | .And _ _ lo _ => lo
  | .Ltrl _ lo _ => lo
  | .Lkup _ lo _ => lo
  | .Inpt _ lo _ => lo

/-- The type slot `Expn::type` of a node. -/
def Expn.type : Expn → Ty
  | .Plus _ _ _ type => type
  | .Less _ _ _ type => type
  | .And _ _ _ type => type
  | .Ltrl _ _ type => type
  | .Lkup _ _ type => type
  | .Inpt _ _ type => type

/-- The statement classes of `dwislpy-ast.hh`. -/
inductive Stmt where
  | Ntro (name : Name) (type : Ty) (expn : Expn) (lo : Locn)
  | Asgn (name : Name) (expn : Expn) (lo : Locn)
  | Prnt (expn : Expn) (lo : Locn)
  | Pass (lo : Locn)
  | PRtn (lo : Locn)
  | FRtn (expn : Expn) (lo : Locn)
  deriving DecidableEq, Repr

/-- The source's `AST::where()` on a statement node. -/
def Stmt.locn : Stmt → Locn
  | .Ntro _ _ _ lo => lo
  | .Asgn _ _ lo => lo
  | .Prnt _ lo => lo
  | .Pass lo => lo
  | .PRtn lo => lo
  | .FRtn _ lo => lo

structure Blck where
  stmts : List Stmt
  locn : Locn
  deriving DecidableEq, Repr

/-- Modelled from the spec: the instruction classes of `dwislpy-inst.hh`, with
the operands the sources construct them with. -/
inductive INST where
  | LBL (labl : Labl)
  | ENTER
  | LEAVE
  | SET (dest : Name) (valu : Int)
  | STL (dest : Name) (strg_lbl : Labl)
  | MOV (dest : Name) (srce : Name)
  | ADD (dest : Name) (srce1 srce2 : Name)
  | BCN (cndn : String) (srce1 srce2 : Name) (then_lbl else_lbl : Labl)
  | BCZ (cndn : String) (srce : Name) (then_lbl else_lbl : Labl)
  | JMP (labl : Labl)
  | PTI (srce : Name)
  | PTS (srce : Name)
  | GTI (dest : Name)
  | RTN (srce : Name)
  | NOP
  deriving DecidableEq, Repr

abbrev INST_vec := List INST

structure Defn where
  name : Name
  symt : SymT
  rety : Ty
  body : Blck
  code : INST_vec
  locn : Locn
  deriving DecidableEq, Repr

/-- The source's `Defs`, an unordered map from names to definitions, as the
list of its entries in iteration order. -/
abbrev Defs := List (Name × Defn)

structure Prgm where
  defs : Defs
  main : Blck
  main_symt : SymT
  main_code : INST_vec
  locn : Locn
  glbl_symt_ptr : Option SymT := none
  deriving DecidableEq, Repr

/-! ## `dwislpy-check.cc`, lines 240-315: checking expressions -/

/-- The virtual method `Expn::chck(defs, symt)`: one case per class
(`Plus::chck`, `Less::chck`, `And::chck`, `Ltrl::chck`, `Lkup::chck`,
`Inpt::chck`). The first component is the node after the call, its type slots
as the call leaves them. -/
def Expn.chck (defs : Defs) (symt : SymT) : Expn → Expn × Except DwislpyError Ty
  | .Plus left rght lo type =>
    match Expn.chck defs symt left with
    | (left1, .error err) => (.Plus left1 rght lo type, .error err)
    | (left1, .ok left_ty) =>
      match Expn.chck defs symt rght with
      | (rght1, .error err) => (.Plus left1 rght1 lo type, .error err)
      | (rght1, .ok rght_ty) =>
        if is_int left_ty && is_int rght_ty then
          (.Plus left1 rght1 lo .IntTy, .ok .IntTy)
        else
          (.Plus left1 rght1 lo type, .error (.mk lo "Wrong operand types for plus."))
  | .Less left rght lo type =>
    match Expn.chck defs symt left with
    | (left1, .error err) => (.Less left1 rght lo type, .error err)
    | (left1, .ok left_ty) =>
      match Expn.chck defs symt rght with
      | (rght1, .error err) => (.Less left1 rght1 lo type, .error err)
      | (rght1, .ok rght_ty) =>
        if Ty.op_eq left_ty rght_ty then
          if is_int left_ty then
            (.Less left1 rght1 lo .BoolTy, .ok .BoolTy)
          else
            (.Less left1 rght1 lo type,
              .error (.mk lo "This version of the language only compares integers."))
        else
          (.Less left1 rght1 lo type,
            .error (.mk lo "Must compare values of the same type."))
  | .And left rght lo type =>
    match Expn.chck defs symt left with
    | (left1, .error err) => (.And left1 rght lo type, .error err)
    | (left1, .ok left_ty) =>
      match Expn.chck defs symt rght with
      | (rght1, .error err) => (.And left1 rght1 lo type, .error err)
      | (rght1, .ok rght_ty) =>
        if is_bool left_ty && is_bool rght_ty then
          (.And left1 rght1 lo .BoolTy, .ok .BoolTy)
        else
          (.And left1 rght1 lo type,
            .error (.mk lo "Logical connective applied to a non-boolean value."))
  | .Ltrl valu lo _ =>
    match valu with
    | .int _ => (.Ltrl valu lo .IntTy, .ok .IntTy)
    | .string _ => (.Ltrl valu lo .StrTy, .ok .StrTy)
    | .bool _ => (.Ltrl valu lo .BoolTy, .ok .BoolTy)
    | .none => (.Ltrl valu lo .NoneTy, .ok .NoneTy)
  | .Lkup name lo type =>
    if h : symt.has_info name then
      let info := (symt.get_info name).get h
      (.Lkup name lo info.type, .ok info.type)
    else
      (.Lkup name lo type, .error (.mk lo "Unknown identifier."))
  | .Inpt expn lo type =>
    match Expn.chck defs symt expn with
    | (expn1, .error err) => (.Inpt expn1 lo type, .error err)
    | (expn1, .ok expn_ty) =>
      if is_str expn_ty then
        (.Inpt expn1 lo .IntTy, .ok .IntTy)
      else
        (.Inpt expn1 lo type, .error (.mk lo "Input prompt is not a string."))

/-! ## `dwislpy-check.cc`, lines 175-238: checking statements

Each `chck` returns the statement and the symbol table as the call leaves
them, and the summary or the error thrown. -/

def Ntro.chck (_expd : Rtns) (defs : Defs) (symt : SymT)
    (name : Name) (type : Ty) (expn : Expn) (lo : Locn) :
    (Stmt × SymT) × Except DwislpyError Rtns :=
  let name_ty := type
  match Expn.chck defs symt expn with
  | (expn1, .error err) => ((.Ntro name type expn1 lo, symt), .error err)
  | (expn1, .ok expn_ty) =>
    if Ty.op_ne name_ty expn_ty then
      ((.Ntro name type expn1 lo, symt),
        .error (.mk lo ("Type mismatch. Expected initialization of type "
          ++ (type_name name_ty ++ " but instead has type ")
          ++ (type_name expn_ty ++ "."))))
    else
      match symt.add_locl name type with
      | .error err => ((.Ntro name type expn1 lo, symt), .error err)
      | .ok symt1 => ((.Ntro name type expn1 lo, symt1), .ok .Void)

def Asgn.chck (_expd : Rtns) (defs : Defs) (symt : SymT)
    (name : Name) (expn : Expn) (lo : Locn) :
    (Stmt × SymT) × Except DwislpyError Rtns :=
  if h : symt.has_info name then
    let name_ty := ((symt.get_info name).get h).type
    match Expn.chck defs symt expn with
    | (expn1, .error err) => ((.Asgn name expn1 lo, symt), .error err)
    | (expn1, .ok expn_ty) =>
      if Ty.op_ne name_ty expn_ty then
        ((.Asgn name expn1 lo, symt),
          .error (.mk expn.locn ("Type mismatch. Expected expression of type "
            ++ (type_name name_ty ++ " but instead has type ")
            ++ (type_name expn_ty ++ "."))))
      else ((.Asgn name expn1 lo, symt), .ok .Void)
  else
    ((.Asgn name expn lo, symt),
      .error (.mk lo ("Variable '" ++ name ++ "' never introduced.")))

def Pass.chck (_expd : Rtns) (_defs : Defs) (symt : SymT) (lo : Locn) :
    (Stmt × SymT) × Except DwislpyError Rtns :=
  ((.Pass lo, symt), .ok .Void)

def Prnt.chck (_expd : Rtns) (defs : Defs) (symt : SymT) (expn : Expn) (lo : Locn) :
    (Stmt × SymT) × Except DwislpyError Rtns :=
  match Expn.chck defs symt expn with
  | (expn1, .error err) => ((.Prnt expn1 lo, symt), .error err)
  | (expn1, .ok _) => ((.Prnt expn1 lo, symt), .ok .Void)

def FRtn.chck (expd : Rtns) (defs : Defs) (symt : SymT) (expn : Expn) (lo : Locn) :
    (Stmt × SymT) × Except DwislpyError Rtns :=
  match Expn.chck defs symt expn with
  | (expn1, .error err) => ((.FRtn expn1 lo, symt), .error err)
  | (expn1, .ok expn_ty) =>
    if expd.holds_Void then
      ((.FRtn expn1 lo, symt), .error (.mk expn.locn "Unexpected return statement."))
    else
      let expd_ty := type_of expd
      if Ty.op_ne expn_ty expd_ty then
        ((.FRtn expn1 lo, symt),
          .error (.mk expn.locn ("Return type mismatch. Expected return of type "
            ++ (type_name expd_ty ++ "."))))
      else ((.FRtn expn1 lo, symt), .ok expd)

def PRtn.chck (expd : Rtns) (_defs : Defs) (symt : SymT) (lo : Locn) :
    (Stmt × SymT) × Except DwislpyError Rtns :=
  if expd.holds_Void then
    ((.PRtn lo, symt), .error (.mk lo "Unexpected return statement."))
  else
    let expd_ty := type_of expd
    if !(is_None expd_ty) then
      ((.PRtn lo, symt), .error (.mk lo "A procedure does not return a value."))
    else ((.PRtn lo, symt), .ok (.Def .NoneTy))

/-- The virtual method `Stmt::chck(expd, defs, symt)`. -/
def Stmt.chck (expd : Rtns) (defs : Defs) (symt : SymT) :
    Stmt → (Stmt × SymT) × Except DwislpyError Rtns
  | .Ntro name type expn lo => Ntro.chck expd defs symt name type expn lo
  | .Asgn name expn lo => Asgn.chck expd defs symt name expn lo
  | .Prnt expn lo => Prnt.chck expd defs symt expn lo
  | .Pass lo => Pass.chck expd defs symt lo
  | .PRtn lo => PRtn.chck expd defs symt lo
  | .FRtn expn lo => FRtn.chck expd defs symt expn lo

/-! ## `dwislpy-check.cc`, lines 75-93 and 157-173: blocks, definitions, programs -/

/-- The loop of `Blck::chck` from a given value of `blck_rtns` over the
statements still to check. It returns the statements and the symbol table as
the loop leaves them. -/
def Blck.chck_loop (expd : Rtns) (defs : Defs) :
    Rtns → SymT → List Stmt → (List Stmt × SymT) × Except DwislpyError Rtns
  | blck_rtns, symt, [] => (([], symt), .ok blck_rtns)
  | blck_rtns, symt, stmt :: rest =>
    match Stmt.chck expd defs symt stmt with
    | ((stmt1, symt1), .error err) => ((stmt1 :: rest, symt1), .error err)
    | ((stmt1, symt1), .ok stmt_rtns) =>
      match rtns_seq blck_rtns stmt_rtns stmt.locn with
      | .error err => ((stmt1 :: rest, symt1), .error err)
      | .ok blck_rtns1 =>
        match Blck.chck_loop expd defs blck_rtns1 symt1 rest with
        | ((rest1, symt2), res) => ((stmt1 :: rest1, symt2), res)

def Blck.chck (expd : Rtns) (defs : Defs) (symt : SymT) (blck : Blck) :
    (Blck × SymT) × Except DwislpyError Rtns :=
  match Blck.chck_loop expd defs .Void symt blck.stmts with
  | ((stmts1, symt1), res) => (({ blck with stmts := stmts1 }, symt1), res)

def Defn.chck (defs : Defs) (defn : Defn) : Defn × Except DwislpyError Unit :=
  match Blck.chck (.Def defn.rety) defs defn.symt defn.body with
  | ((body1, symt1), .error err) =>
    ({ defn with body := body1, symt := symt1 }, .error err)
  | ((body1, symt1), .ok rtns) =>
    if rtns.holds_Void then
      ({ defn with body := body1, symt := symt1 },
        .error (.mk defn.body.locn "Definition body never returns."))
    else if rtns.holds_VoidOr then
      ({ defn with body := body1, symt := symt1 },
        .error (.mk defn.body.locn "Definition body might not return."))
    else ({ defn with body := body1, symt := symt1 }, .ok ())

/-- The loop of `Prgm::chck` over the definitions: `done` are the entries
already checked, the second list the entries still to check; the map handed to
each `Defn::chck` is the whole map in its current state. -/
def Prgm.chck_defs : Defs → Defs → Defs × Except DwislpyError Unit
  | done, [] => (done, .ok ())
  | done, (name, defn) :: rest =>
    match Defn.chck (done ++ (name, defn) :: rest) defn with
    | (defn1, .error err) => (done ++ (name, defn1) :: rest, .error err)
    | (defn1, .ok _) => Prgm.chck_defs (done ++ [(name, defn1)]) rest

/-- The method `Prgm::chck`. Line 81 of `dwislpy-check.cc` constructs the error
"Main script should not return." without throwing it, so that test has no
effect on the outcome. -/
def Prgm.chck (prgm : Prgm) : Prgm × Except DwislpyError Unit :=
  match Prgm.chck_defs [] prgm.defs with
  | (defs1, .error err) => ({ prgm with defs := defs1 }, .error err)
  | (defs1, .ok _) =>
    match Blck.chck .Void defs1 prgm.main_symt prgm.main with
    | ((main1, symt1), .error err) =>
      ({ prgm with defs := defs1, main := main1, main_symt := symt1 }, .error err)
    | ((main1, symt1), .ok _rtns) =>
      ({ prgm with defs := defs1, main := main1, main_symt := symt1 }, .ok ())
/-! ## Minting names in the symbol table -/

/-- Modelled from the spec: the name of the temporary minted at a counter
value, `$t0`, `$t1`, ... -/
def SymT.temp_name (k : Nat) : Name := "$t" ++ toString k

/-- Modelled from the spec: the name of the label minted at a counter value,
`$L0`, `$L1`, ... -/
def SymT.labl_name (k : Nat) : Labl := "$L" ++ toString k

/-- Modelled from the spec: the label of the string literal interned at a
position of the pool, `$S0`, `$S1`, ... -/
def SymT.strg_name (k : Nat) : Labl := "$S" ++ toString k

/-- Modelled from the spec: `SymT::add_temp(type)`, "mint a fresh name, append;
return the name". -/
def SymT.add_temp (symt : SymT) (type : Ty) : Name × SymT :=
  (SymT.temp_name symt.count,
    { symt with
      info := symt.info ++ [(SymT.temp_name symt.count, ⟨.Temp, type, symt.info.length⟩)],
      count := symt.count + 1 })

/-- Modelled from the spec: `SymT::add_labl()`, "mint a fresh label name;
return the name". -/
def SymT.add_labl (symt : SymT) : Labl × SymT :=
  (SymT.labl_name symt.count, { symt with count := symt.count + 1 })

/-- Modelled from the spec: `SymT::add_labl(name)`, the label for a caller's
hint. The back-end is promised `LBL <name>` and `LBL <name>_done` for a
definition, so the label is the hint itself. -/
def SymT.add_labl_hint (symt : SymT) (name : Name) : Labl × SymT :=
  (name, symt)

/-- Modelled from the spec: `SymT::add_strg(s)`, "intern `s`; return the
label": equal content yields the same label, new content a new label. -/
def SymT.add_strg (symt : SymT) (strg : String) : Labl × SymT :=
  match symt.strgs.lookup strg with
  | some labl => (labl, symt)
  | none =>
    (SymT.strg_name symt.strgs.length,
      { symt with strgs := symt.strgs ++ [(strg, SymT.strg_name symt.strgs.length)] })

/-- Modelled from the spec: `SymT::set_parent(global)`, after which the table
shares the string pool of the global table. -/
def SymT.set_parent (symt glbl : SymT) : SymT :=
  { symt with strgs := glbl.strgs, prnt := true }

/-! ## `dwislpy-inst.cc`: translation of expressions

Each method is written once, with the `trans` and `trans_cndn` of the operand
nodes (virtual calls in the source) as arguments; `Expn.trans` and
`Expn.trans_cndn` below dispatch on the class and pass them in. Successive
`push_back` calls are written as one append. -/

/-- The labels of the global string constants, the global variables
`EOLN_STRG_LBL`, ... of `dwislpy-inst.cc`, set by `Prgm::trans`. -/
structure StrgLbls where
  EOLN_STRG_LBL : Labl
  TRUE_STRG_LBL : Labl
  FLSE_STRG_LBL : Labl
  NONE_STRG_LBL : Labl
  INPT_BUFF_LBL : Labl
  deriving DecidableEq, Repr

/-- The type of `trans` on a given node: destination, table, code so far. -/
abbrev TransFn := Name → SymT → INST_vec → Option (SymT × INST_vec)

/-- The type of `trans_cndn` on a given node: the two labels, table, code so
far. -/
abbrev CndnFn := Labl → Labl → SymT → INST_vec → Option (SymT × INST_vec)

def Plus.trans (left_trans rght_trans : TransFn) (left_type rght_type type : Ty)
    (dest : Name) (symt : SymT) (code : INST_vec) : Option (SymT × INST_vec) :=
  if is_int type then
    let srce1 := (symt.add_temp left_type).1
    let symt1 := (symt.add_temp left_type).2
    let srce2 := (symt1.add_temp rght_type).1
    let symt2 := (symt1.add_temp rght_type).2
    match left_trans srce1 symt2 code with
    | none => none
    | some (symt3, code1) =>
      match rght_trans srce2 symt3 code1 with
      | none => none
      | some (symt4, code2) => some (symt4, code2 ++ [.ADD dest srce1 srce2])
  else some (symt, code)

/-- The base method `Expn::trans_cndn`, which does nothing. -/
def Expn.trans_cndn_base (_then_lbl _else_lbl : Labl) (symt : SymT) (code : INST_vec) :
    Option (SymT × INST_vec) :=
  some (symt, code)

def Less.trans_cndn (left_trans rght_trans : TransFn) (left_type rght_type : Ty)
    (then_lbl else_lbl : Labl) (symt : SymT) (code : INST_vec) : Option (SymT × INST_vec) :=
  if is_int left_type && is_int rght_type then
    let srce1 := (symt.add_temp left_type).1
    let symt1 := (symt.add_temp left_type).2
    let srce2 := (symt1.add_temp rght_type).1
    let symt2 := (symt1.add_temp rght_type).2
    match left_trans srce1 symt2 code with
    | none => none
    | some (symt3, code1) =>
      match rght_trans srce2 symt3 code1 with
      | none => none
      | some (symt4, code2) =>
        some (symt4, code2 ++ [.BCN "lt" srce1 srce2 then_lbl else_lbl])
  else some (symt, code)

/-- The method `Less::trans`; `self_cndn` is `trans_cndn` of the same node. -/
def Less.trans (self_cndn : CndnFn) (dest : Name) (symt : SymT) (code : INST_vec) :
    Option (SymT × INST_vec) :=
  let true_lbl := symt.add_labl.1
  let symt1 := symt.add_labl.2
  let flse_lbl := symt1.add_labl.1
  let symt2 := symt1.add_labl.2
  let done_lbl := symt2.add_labl.1
  let symt3 := symt2.add_labl.2
  match self_cndn true_lbl flse_lbl symt3 code with
  | none => none
  | some (symt4, code1) =>
    some (symt4, code1 ++ [.LBL true_lbl, .SET dest 1, .JMP done_lbl,
      .LBL flse_lbl, .SET dest 0, .LBL done_lbl])

def And.trans_cndn (left_cndn rght_cndn : CndnFn)
    (then_lbl else_lbl : Labl) (symt : SymT) (code : INST_vec) : Option (SymT × INST_vec) :=
  let cont_lbl := symt.add_labl.1
  let symt1 := symt.add_labl.2
  match left_cndn cont_lbl else_lbl symt1 code with
  | none => none
  | some (symt2, code1) => rght_cndn then_lbl else_lbl symt2 (code1 ++ [.LBL cont_lbl])

/-- The method `And::trans`; `self_cndn` is `trans_cndn` of the same node. -/
def And.trans (self_cndn : CndnFn) (dest : Name) (symt : SymT) (code : INST_vec) :
    Option (SymT × INST_vec) :=
  let true_lbl := symt.add_labl.1
  let symt1 := symt.add_labl.2
  let flse_lbl := symt1.add_labl.1
  let symt2 := symt1.add_labl.2
  let done_lbl := symt2.add_labl.1
  let symt3 := symt2.add_labl.2
  match self_cndn true_lbl flse_lbl symt3 code with
  | none => none
  | some (symt4, code1) =>
    some (symt4, code1 ++ [.LBL true_lbl, .SET dest 1, .JMP done_lbl,
      .LBL flse_lbl, .SET dest 0, .LBL done_lbl])

/-- The method `Ltrl::trans`: four tests on the variant, one after the other;
exactly one of them holds. -/
def Ltrl.trans (valu : Valu) (dest : Name) (symt : SymT) (code : INST_vec) :
    Option (SymT × INST_vec) :=
  match valu with
  | .int ival => some (symt, code ++ [.SET dest ival])
  | .string sval =>
    let strg_lbl := (symt.add_strg sval).1
    let symt1 := (symt.add_strg sval).2
    some (symt1, code ++ [.STL dest strg_lbl])
  | .bool bval =>
    if bval then some (symt, code ++ [.SET dest 1])
    else some (symt, code ++ [.SET dest 0])
  | .none => some (symt, code ++ [.SET dest 0])

/-- The method `Ltrl::trans_cndn`: `std::get<bool>(valu)` throws when the
value is not a boolean. -/
def Ltrl.trans_cndn (valu : Valu) (then_lbl else_lbl : Labl) (symt : SymT)
    (code : INST_vec) : Option (SymT × INST_vec) :=
  match valu with
  | .bool bval =>
    if bval then some (symt, code ++ [.JMP then_lbl])
    else some (symt, code ++ [.JMP else_lbl])
  | _ => none

def Lkup.trans (name : Name) (dest : Name) (symt : SymT) (code : INST_vec) :
    Option (SymT × INST_vec) :=
  some (symt, code ++ [.MOV dest name])

def Lkup.trans_cndn (name : Name) (then_lbl else_lbl : Labl) (symt : SymT)
    (code : INST_vec) : Option (SymT × INST_vec) :=
  some (symt, code ++ [.BCZ "gtz" name then_lbl else_lbl])

def Inpt.trans (expn_trans : TransFn) (dest : Name) (symt : SymT) (code : INST_vec) :
    Option (SymT × INST_vec) :=
  let strg := (symt.add_temp .StrTy).1
  let symt1 := (symt.add_temp .StrTy).2
  match expn_trans strg symt1 code with
  | none => none
  | some (symt2, code1) => some (symt2, code1 ++ [.PTS strg, .GTI dest])

mutual

/-- The virtual method `Expn::trans(dest, symt, code)`. -/
def Expn.trans : Expn → TransFn
  | .Plus left rght _ type =>
    Plus.trans left.trans rght.trans left.type rght.type type
  | .Less left rght _ _ =>
    Less.trans (Less.trans_cndn left.trans rght.trans left.type rght.type)
  | .And left rght _ _ =>
    And.trans (And.trans_cndn left.trans_cndn rght.trans_cndn)
  | .Ltrl valu _ _ => Ltrl.trans valu
  | .Lkup name _ _ => Lkup.trans name
  | .Inpt expn _ _ => Inpt.trans expn.trans

/-- The virtual method `Expn::trans_cndn(then_lbl, else_lbl, symt, code)`;
the classes `Plus` and `Inpt` do not override the base method. -/
def Expn.trans_cndn : Expn → CndnFn
  | .Plus _ _ _ _ => Expn.trans_cndn_base
  | .Less left rght _ _ => Less.trans_cndn left.trans rght.trans left.type rght.type
  | .And left rght _ _ => And.trans_cndn left.trans_cndn rght.trans_cndn
  | .Ltrl valu _ _ => Ltrl.trans_cndn valu
  | .Lkup name _ _ => Lkup.trans_cndn name
  | .Inpt _ _ _ => Expn.trans_cndn_base

end

/-! ## `dwislpy-inst.cc`: translation of statements, blocks, definitions, programs -/

def Ntro.trans (_exit : Labl) (symt : SymT) (code : INST_vec) (name : Name) (expn : Expn) :
    Option (SymT × INST_vec) :=
  expn.trans name symt code

def Asgn.trans (_exit : Labl) (symt : SymT) (code : INST_vec) (name : Name) (expn : Expn) :
    Option (SymT × INST_vec) :=
  expn.trans name symt code

def FRtn.trans (exit : Labl) (symt : SymT) (code : INST_vec) (expn : Expn) :
    Option (SymT × INST_vec) :=
  let temp := (symt.add_temp expn.type).1
  let symt1 := (symt.add_temp expn.type).2
  match expn.trans temp symt1 code with
  | none => none
  | some (symt2, code1) => some (symt2, code1 ++ [.RTN temp, .JMP exit])

def PRtn.trans (exit : Labl) (symt : SymT) (code : INST_vec) : Option (SymT × INST_vec) :=
  let temp := (symt.add_temp .NoneTy).1
  let symt1 := (symt.add_temp .NoneTy).2
  some (symt1, code ++ [.SET temp 0, .RTN temp, .JMP exit])

def Pass.trans (_exit : Labl) (symt : SymT) (code : INST_vec) : Option (SymT × INST_vec) :=
  some (symt, code ++ [.NOP])

/-- The first part of `Prnt::trans`, lines 141-173: four tests on the type slot
of the expression, one after the other; exactly one of them holds. -/
def Prnt.trans_valu (glbls : StrgLbls) (symt : SymT) (code : INST_vec) (expn : Expn) :
    Option (SymT × INST_vec) :=
  match expn.type with
  | .IntTy =>
    let temp := (symt.add_temp .IntTy).1
    let symt1 := (symt.add_temp .IntTy).2
    match expn.trans temp symt1 code with
    | none => none
    | some (symt2, code1) => some (symt2, code1 ++ [.PTI temp])
  | .StrTy =>
    let temp := (symt.add_temp .StrTy).1
    let symt1 := (symt.add_temp .StrTy).2
    match expn.trans temp symt1 code with
    | none => none
    | some (symt2, code1) => some (symt2, code1 ++ [.PTS temp])
  | .BoolTy =>
    let true_lbl := symt.add_labl.1
    let symt1 := symt.add_labl.2
    let flse_lbl := symt1.add_labl.1
    let symt2 := symt1.add_labl.2
    let done_lbl := symt2.add_labl.1
    let symt3 := symt2.add_labl.2
    let temp := (symt3.add_temp .BoolTy).1
    let symt4 := (symt3.add_temp .BoolTy).2
    match expn.trans_cndn true_lbl flse_lbl symt4 code with
    | none => none
    | some (symt5, code1) =>
      some (symt5, code1 ++ [.LBL true_lbl, .STL temp glbls.TRUE_STRG_LBL, .JMP done_lbl,
        .LBL flse_lbl, .STL temp glbls.FLSE_STRG_LBL, .LBL done_lbl, .PTS temp])
  | .NoneTy =>
    let dumm := (symt.add_temp .NoneTy).1
    let symt1 := (symt.add_temp .NoneTy).2
    let temp := (symt1.add_temp .StrTy).1
    let symt2 := (symt1.add_temp .StrTy).2
    match expn.trans dumm symt2 code with
    | none => none
    | some (symt3, code1) =>
      some (symt3, code1 ++ [.STL temp glbls.NONE_STRG_LBL, .PTS temp])

def Prnt.trans (glbls : StrgLbls) (_exit : Labl) (symt : SymT) (code : INST_vec)
    (expn : Expn) : Option (SymT × INST_vec) :=
  match Prnt.trans_valu glbls symt code expn with
  | none => none
  | some (symt1, code1) =>
    let eoln := (symt1.add_temp .StrTy).1
    let symt2 := (symt1.add_temp .StrTy).2
    some (symt2, code1 ++ [.STL eoln glbls.EOLN_STRG_LBL, .PTS eoln])

/-- The virtual method `Stmt::trans(exit, symt, code)`. -/
def Stmt.trans (glbls : StrgLbls) : Stmt → Labl → SymT → INST_vec → Option (SymT × INST_vec)
  | .Ntro name _ expn _, exit, symt, code => Ntro.trans exit symt code name expn
  | .Asgn name expn _, exit, symt, code => Asgn.trans exit symt code name expn
  | .Prnt expn _, exit, symt, code => Prnt.trans glbls exit symt code expn
  | .Pass _, exit, symt, code => Pass.trans exit symt code
  | .PRtn _, exit, symt, code => PRtn.trans exit symt code
  | .FRtn expn _, exit, symt, code => FRtn.trans exit symt code expn

/-- The loop of `Blck::trans` over the statements. -/
def Blck.trans_loop (glbls : StrgLbls) (exit : Labl) :
    List Stmt → SymT → INST_vec → Option (SymT × INST_vec)
  | [], symt, code => some (symt, code)
  | stmt :: rest, symt, code =>
    match stmt.trans glbls exit symt code with
    | none => none
    | some (symt1, code1) => Blck.trans_loop glbls exit rest symt1 code1

def Blck.trans (glbls : StrgLbls) (blck : Blck) (exit : Labl) (symt : SymT)
    (code : INST_vec) : Option (SymT × INST_vec) :=
  Blck.trans_loop glbls exit blck.stmts symt code

/-- The method `Defn::trans`: the definition with its table and its code as the
call leaves them. -/
def Defn.trans (glbls : StrgLbls) (defn : Defn) : Option Defn :=
  let def_lbl := (defn.symt.add_labl_hint defn.name).1
  let symt1 := (defn.symt.add_labl_hint defn.name).2
  let ext_lbl := (symt1.add_labl_hint (defn.name ++ "_done")).1
  let symt2 := (symt1.add_labl_hint (defn.name ++ "_done")).2
  match defn.body.trans glbls ext_lbl symt2 (defn.code ++ [.LBL def_lbl, .ENTER]) with
  | none => none
  | some (symt3, code1) =>
    some { defn with symt := symt3, code := code1 ++ [.LBL ext_lbl, .LEAVE] }

/-- The loop of `Prgm::trans` over the definitions. The first argument is the
global table: each definition's table is wired to it, and what the translation
interns into the shared pool is carried back to it. -/
def Prgm.trans_defs (glbls : StrgLbls) : SymT → Defs → Defs → Option (SymT × Defs)
  | glbl, done, [] => some (glbl, done)
  | glbl, done, (name, defn) :: rest =>
    match Defn.trans glbls { defn with symt := defn.symt.set_parent glbl } with
    | none => none
    | some defn1 =>
      Prgm.trans_defs glbls { glbl with strgs := defn1.symt.strgs }
        (done ++ [(name, defn1)]) rest

/-- The labels `Prgm::trans` gives the global string constants, and the global
table after they are interned. -/
def Prgm.trans_glbls : StrgLbls × SymT :=
  let glbl0 : SymT := { info := [], frmls := 0 }
  let r1 := glbl0.add_strg "\n"
  let r2 := r1.2.add_strg "True"
  let r3 := r2.2.add_strg "False"
  let r4 := r3.2.add_strg "None"
  let r5 := r4.2.add_strg
    "12345678901234567890123456789012345678901234567890123456789012345678901234567890"
  ({ EOLN_STRG_LBL := r1.1, TRUE_STRG_LBL := r2.1, FLSE_STRG_LBL := r3.1,
     NONE_STRG_LBL := r4.1, INPT_BUFF_LBL := r5.1 }, r5.2)

/-- The method `Prgm::trans`: the program as the call leaves it, and the
values it gives the global label variables. -/
def Prgm.trans (prgm : Prgm) : Option (Prgm × StrgLbls) :=
  let glbls := Prgm.trans_glbls.1
  match Prgm.trans_defs glbls Prgm.trans_glbls.2 [] prgm.defs with
  | none => none
  | some (glbl1, defs1) =>
    let main_symt1 := prgm.main_symt.set_parent glbl1
    let def_lbl := (main_symt1.add_labl_hint "main").1
    let main_symt2 := (main_symt1.add_labl_hint "main").2
    let ext_lbl := (main_symt2.add_labl_hint "main_done").1
    let main_symt3 := (main_symt2.add_labl_hint "main_done").2
    match prgm.main.trans glbls ext_lbl main_symt3 ([] ++ [.LBL def_lbl, .ENTER]) with
    | none => none
    | some (main_symt4, main_code1) =>
      some ({ prgm with
              defs := defs1, main_symt := main_symt4,
              main_code := main_code1 ++ [.LBL ext_lbl, .LEAVE],
              glbl_symt_ptr := some { glbl1 with strgs := main_symt4.strgs } }, glbls)

/-! ## The specification's `check_block`

The words of the specification for a block, to be compared with `Blck.chck`:
"fold `seq` across statements starting from `Void`". -/

/-- One step of the fold: the state is the statements handled so far, the
symbol table, and the summary so far or the first error. After an error the
remaining statements are passed over untouched. Otherwise the statement is
checked with the same obligation against the table as it stands, and its
summary is combined with the summary so far by `rtns_seq` at its location. -/
def check_block_step (expd : Rtns) (defs : Defs)
    (acc : (List Stmt × SymT) × Except DwislpyError Rtns) (stmt : Stmt) :
    (List Stmt × SymT) × Except DwislpyError Rtns :=
  match acc with
  | ((done, symt), .error err) => ((done ++ [stmt], symt), .error err)
  | ((done, symt), .ok rtns) =>
    match Stmt.chck expd defs symt stmt with
    | ((stmt1, symt1), .error err) => ((done ++ [stmt1], symt1), .error err)
    | ((stmt1, symt1), .ok stmt_rtns) =>
      ((done ++ [stmt1], symt1), rtns_seq rtns stmt_rtns stmt.locn)

/-- The specification's `check_block`: the left fold from `Void`. -/
def check_block (expd : Rtns) (defs : Defs) (symt : SymT) (stmts : List Stmt) :
    (List Stmt × SymT) × Except DwislpyError Rtns :=
  stmts.foldl (check_block_step expd defs) (([], symt), .ok .Void)

/-! ## Auxiliary notions used to state the theorems -/

/-- Whether a result is a thrown error. -/
def failed {α : Type} (res : Except DwislpyError α) : Bool :=
  match res with
  | .error _ => true
  | .ok _ => false

/-- Whether a statement is a return statement, `PRtn` or `FRtn`. -/
def Stmt.is_rtn : Stmt → Bool
  | .PRtn _ => true
  | .FRtn _ _ => true
  | _ => false

/-- Whether a summary is `Def(t)` for some `t`. -/
def Rtns.holds_Def (rtns : Rtns) : Bool :=
  match rtns with
  | .Def _ => true
  | _ => false

/-- The statements checked one after another, each on its own: every
`Stmt::chck` is run against the table the previous one left and none throws.
The result is the list of their summaries and the final table; `none` when
some statement throws. The summaries are not combined. -/
def stmts_chck (expd : Rtns) (defs : Defs) : SymT → List Stmt → Option (List Rtns × SymT)
  | symt, [] => some ([], symt)
  | symt, stmt :: rest =>
    match Stmt.chck expd defs symt stmt with
    | (_, .error _) => none
    | ((_, symt1), .ok stmt_rtns) =>
      match stmts_chck expd defs symt1 rest with
      | none => none
      | some (rtnss, symt2) => some (stmt_rtns :: rtnss, symt2)

/-- The empty symbol table. -/
def SymT.empty : SymT := { info := [], frmls := 0 }

/-- A location used in examples. -/
def Locn.at (line column : Nat) : Locn := { file := "example.py", line := line, column := column }

/-- The specification's rule for the summary of a definition's body: `Void`
is "body never returns", `VoidOr` is "body might not return", `Def` is
accepted; both errors are reported at the location of the body. -/
def body_verdict (lo : Locn) : Rtns → Except DwislpyError Unit
  | .Void => .error (.mk lo "Definition body never returns.")
  | .VoidOr _ => .error (.mk lo "Definition body might not return.")
  | .Def _ => .ok ()

/-! ## Example programs -/

/-- The statement `return 0` on line 1. -/
def ex_return_0 : Stmt := .FRtn (.Ltrl (.int 0) (Locn.at 1 8) .NoneTy) (Locn.at 1 1)

/-- The statement `return 0` on line 1 after its check. -/
def ex_return_0_chckd : Stmt := .FRtn (.Ltrl (.int 0) (Locn.at 1 8) .IntTy) (Locn.at 1 1)

/-- The statement `print(1)` on line 2. -/
def ex_print_1 : Stmt := .Prnt (.Ltrl (.int 1) (Locn.at 2 7) .NoneTy) (Locn.at 2 1)

/-- The definition `def f() -> int:` with the given body. -/
def ex_defn_int (stmts : List Stmt) : Defn :=
  { name := "f", symt := SymT.empty, rety := .IntTy,
    body := { stmts := stmts, locn := Locn.at 1 1 }, code := [], locn := Locn.at 0 1 }

/-- The program without definitions whose main script is the given block. -/
def ex_prgm (stmts : List Stmt) : Prgm :=
  { defs := [], main := { stmts := stmts, locn := Locn.at 1 1 }, main_symt := SymT.empty,
    main_code := [], locn := Locn.at 1 1 }

/-- The literal `1` at line 1, column 8. -/
def ex_ltrl_1 : Expn := .Ltrl (.int 1) (Locn.at 1 8) .NoneTy

/-- The literal `None` at line 1, column 8. -/
def ex_ltrl_None : Expn := .Ltrl .none (Locn.at 1 8) .IntTy

/-- The literal `"a"` at line 1, column 8. -/
def ex_ltrl_a : Expn := .Ltrl (.string "a") (Locn.at 1 8) .IntTy

/-- A translation step only appends to the code it is given: run on `code` it
gives what it gives on the empty vector, with `code` in front. -/
def Appends (f : SymT → INST_vec → Option (SymT × INST_vec)) : Prop :=
  ∀ (symt : SymT) (code : INST_vec),
    f symt code = (f symt []).map (fun r => (r.1, code ++ r.2))

/-- The entry label of a definition, as `Defn::trans` obtains it. -/
def Defn.def_lbl (defn : Defn) : Labl :=
  (defn.symt.add_labl_hint defn.name).1

/-- The exit label of a definition, as `Defn::trans` obtains it. -/
def Defn.ext_lbl (defn : Defn) : Labl :=
  ((defn.symt.add_labl_hint defn.name).2.add_labl_hint (defn.name ++ "_done")).1

/-- The table `Defn::trans` hands to the translation of the body. -/
def Defn.body_symt (defn : Defn) : SymT :=
  ((defn.symt.add_labl_hint defn.name).2.add_labl_hint (defn.name ++ "_done")).2

/-- The table of the main script once `Prgm::trans` has wired it to the global
table `glbl`. -/
def Prgm.main_symt1 (prgm : Prgm) (glbl : SymT) : SymT :=
  prgm.main_symt.set_parent glbl

/-- The entry label of the main script, as `Prgm::trans` obtains it. -/
def Prgm.def_lbl (prgm : Prgm) (glbl : SymT) : Labl :=
  ((prgm.main_symt1 glbl).add_labl_hint "main").1

/-- The exit label of the main script, as `Prgm::trans` obtains it. -/
def Prgm.ext_lbl (prgm : Prgm) (glbl : SymT) : Labl :=
  (((prgm.main_symt1 glbl).add_labl_hint "main").2.add_labl_hint "main_done").1

/-- The table `Prgm::trans` hands to the translation of the main block. -/
def Prgm.body_symt (prgm : Prgm) (glbl : SymT) : SymT :=
  (((prgm.main_symt1 glbl).add_labl_hint "main").2.add_labl_hint "main_done").2

/-- Whether an instruction is an `RTN`. -/
def INST.is_RTN : INST → Bool
  | .RTN _ => true
  | _ => false

/-- Whether every `RTN` of the code is immediately followed by a `JMP` to the
given exit label. -/
def rtns_jump_to (exit : Labl) : INST_vec → Bool
  | [] => true
  | .RTN _ :: rest =>
    (match rest with
      | .JMP labl :: _ => decide (labl = exit)
      | _ => false) && rtns_jump_to exit rest
  | _ :: rest => rtns_jump_to exit rest

/-- A translation step that puts no `RTN` into the code: if the code it is
given has none, the code it leaves has none. -/
def NoRTN (f : SymT → INST_vec → Option (SymT × INST_vec)) : Prop :=
  ∀ (symt : SymT) (code : INST_vec) (r : SymT × INST_vec),
    f symt code = some r → code.all (fun i => !i.is_RTN) = true →
    r.2.all (fun i => !i.is_RTN) = true

/-- A translation step that returns, that is, does not throw, on every table
and code. -/
def Returns (f : SymT → INST_vec → Option (SymT × INST_vec)) : Prop :=
  ∀ (symt : SymT) (code : INST_vec), ∃ r, f symt code = some r

/-- A translation step under which the counter of the table does not decrease
and every `LBL` it adds to the code defines a label minted from a counter value
not below the one it started with. -/
def LabelsFrom (f : SymT → INST_vec → Option (SymT × INST_vec)) : Prop :=
  ∀ (symt : SymT) (code : INST_vec) (r : SymT × INST_vec),
    f symt code = some r →
    symt.count ≤ r.1.count ∧
    ∀ l : Labl, INST.LBL l ∈ r.2 →
      INST.LBL l ∈ code ∨ ∃ k : Nat, symt.count ≤ k ∧ l = SymT.labl_name k

/-- A table in which `x` is already present as a local of type `int`. -/
def ex_symt_x : SymT := { info := [("x", ⟨.Local, .IntTy, 0⟩)], frmls := 0 }

/-- The statement `x : int = 1` on line 1. -/
def ex_ntro_x_1 : Stmt := .Ntro "x" .IntTy (.Ltrl (.int 1) (Locn.at 1 11) .NoneTy) (Locn.at 1 1)

/-- The statement `x : int = 2` on line 2. -/
def ex_ntro_x_2 : Stmt := .Ntro "x" .IntTy (.Ltrl (.int 2) (Locn.at 2 11) .NoneTy) (Locn.at 2 1)

/-- The sub-expressions of an expression, itself first, then those of its
operands from left to right. -/
def Expn.subs : Expn → List Expn
  | .Plus left rght lo type => .Plus left rght lo type :: (left.subs ++ rght.subs)
  | .Less left rght lo type => .Less left rght lo type :: (left.subs ++ rght.subs)
  | .And left rght lo type => .And left rght lo type :: (left.subs ++ rght.subs)
  | .Ltrl valu lo type => [.Ltrl valu lo type]
  | .Lkup name lo type => [.Lkup name lo type]
  | .Inpt expn lo type => .Inpt expn lo type :: expn.subs

/-- The expression with every type slot reset to one value: two expressions
with the same image are the same tree up to their type slots. -/
def Expn.unset : Expn → Expn
  | .Plus left rght lo _ => .Plus left.unset rght.unset lo .NoneTy
  | .Less left rght lo _ => .Less left.unset rght.unset lo .NoneTy
  | .And left rght lo _ => .And left.unset rght.unset lo .NoneTy
  | .Ltrl valu lo _ => .Ltrl valu lo .NoneTy
  | .Lkup name lo _ => .Lkup name lo .NoneTy
  | .Inpt expn lo _ => .Inpt expn.unset lo .NoneTy

/-- The type of a literal value, by the variant it holds. -/
def Valu.type : Valu → Ty
  | .int _ => .IntTy
  | .string _ => .StrTy
  | .bool _ => .BoolTy
  | .none => .NoneTy

/-- The expression `1 and y`: a non-boolean left operand and an unknown name
on the right. -/
def ex_and_1_y : Expn :=
  .And (.Ltrl (.int 1) (Locn.at 1 1) .NoneTy) (.Lkup "y" (Locn.at 1 7) .NoneTy)
    (Locn.at 1 3) .NoneTy

/-- The expression `1 + 2`. -/
def ex_plus_1_2 : Expn :=
  .Plus (.Ltrl (.int 1) (Locn.at 1 7) .NoneTy) (.Ltrl (.int 2) (Locn.at 1 9) .NoneTy)
    (Locn.at 1 8) .NoneTy

/-- The expression `1 + 2` after its check. -/
def ex_plus_1_2_chckd : Expn :=
  .Plus (.Ltrl (.int 1) (Locn.at 1 7) .IntTy) (.Ltrl (.int 2) (Locn.at 1 9) .IntTy)
    (Locn.at 1 8) .IntTy

/-- The expression `input("? ")` with the given slots. -/
def ex_inpt (l1 l2 : Locn) (ty1 ty2 : Ty) : Expn :=
  .Inpt (.Ltrl (.string "? ") l1 ty1) l2 ty2

/-- The statement `print(1 + 2)`, checked. -/
def ex_print_1_2 : Stmt := .Prnt ex_plus_1_2_chckd (Locn.at 1 1)

/-- The definition `def f() -> int: return 0`, checked. -/
def ex_defn_f : Defn := ex_defn_int [ex_return_0_chckd]

/-- The condition `False and b`, checked, for a boolean variable `b`. -/
def ex_and_false_b : Expn :=
  .And (.Ltrl (.bool false) (Locn.at 1 4) .BoolTy) (.Lkup "b" (Locn.at 1 14) .BoolTy)
    (Locn.at 1 10) .BoolTy

/-- The definition `def f() -> int:` with body `print(1 < 2)`, `return 0`, as
parsed. -/
def ex_defn_g0 : Defn :=
  ex_defn_int
    [.Prnt (.Less (.Ltrl (.int 1) (Locn.at 1 7) .NoneTy) (.Ltrl (.int 2) (Locn.at 1 11) .NoneTy)
        (Locn.at 1 9) .NoneTy) (Locn.at 1 1),
     .FRtn (.Ltrl (.int 0) (Locn.at 2 8) .NoneTy) (Locn.at 2 1)]

/-- The definition `def f() -> int:` with body `print(1 < 2)`, `return 0`,
checked. -/
def ex_defn_g : Defn :=
  ex_defn_int
    [.Prnt (.Less (.Ltrl (.int 1) (Locn.at 1 7) .IntTy) (.Ltrl (.int 2) (Locn.at 1 11) .IntTy)
        (Locn.at 1 9) .BoolTy) (Locn.at 1 1),
     .FRtn (.Ltrl (.int 0) (Locn.at 2 8) .IntTy) (Locn.at 2 1)]

/-- The comparison `a < 10`, checked, for an integer variable `a`. -/
def ex_less_a_10 : Expn :=
  .Less (.Lkup "a" (Locn.at 1 7) .IntTy) (.Ltrl (.int 10) (Locn.at 1 9) .IntTy)
    (Locn.at 1 8) .BoolTy

/-- The comparison `b < 20`, checked, for an integer variable `b`. -/
def ex_less_b_20 : Expn :=
  .Less (.Lkup "b" (Locn.at 1 16) .IntTy) (.Ltrl (.int 20) (Locn.at 1 18) .IntTy)
    (Locn.at 1 17) .BoolTy

/-- The statement `print(a < 10 and b < 20)` as parsed. -/
def ex_print_and0 : Stmt :=
  .Prnt (.And
      (.Less (.Lkup "a" (Locn.at 1 7) .NoneTy) (.Ltrl (.int 10) (Locn.at 1 9) .NoneTy)
        (Locn.at 1 8) .NoneTy)
      (.Less (.Lkup "b" (Locn.at 1 16) .NoneTy) (.Ltrl (.int 20) (Locn.at 1 18) .NoneTy)
        (Locn.at 1 17) .NoneTy)
      (Locn.at 1 12) .NoneTy) (Locn.at 1 1)

/-- The condition `a < 10 and b < 20`, checked. -/
def ex_and_a_b : Expn := .And ex_less_a_10 ex_less_b_20 (Locn.at 1 12) .BoolTy

/-- The statement `print(a < 10 and b < 20)`, checked. -/
def ex_print_and : Stmt := .Prnt ex_and_a_b (Locn.at 1 1)

/-- A table with the integer variables `a` and `b`. -/
def ex_symt_a_b : SymT :=
  { info := [("a", ⟨.Local, .IntTy, 0⟩), ("b", ⟨.Local, .IntTy, 1⟩)], frmls := 0 }

/-- The procedure `def p() -> None: pass`. -/
def ex_defn_pass : Defn :=
  { name := "p", symt := SymT.empty, rety := .NoneTy,
    body := { stmts := [.Pass (Locn.at 1 1)], locn := Locn.at 1 1 },
    code := [], locn := Locn.at 0 1 }

/-- The procedure `def p() -> None: pass; return`. -/
def ex_defn_pass_rtn : Defn :=
  { name := "p", symt := SymT.empty, rety := .NoneTy,
    body := { stmts := [.Pass (Locn.at 1 1), .PRtn (Locn.at 2 1)], locn := Locn.at 1 1 },
    code := [], locn := Locn.at 0 1 }

/-- The expressions whose class overrides `trans_cndn` all the way down the
operands translated in condition mode: a boolean literal, a `Lkup`, a `Less`,
or an `And` of such expressions. -/
def Expn.is_cndn : Expn → Bool
  | .Ltrl (.bool _) _ _ => true
  | .Lkup _ _ _ => true
  | .Less _ _ _ _ => true
  | .And left rght _ _ => left.is_cndn && rght.is_cndn
  | _ => false

/-- Whether an instruction is a `JMP`, `BCZ` or `BCN` all of whose targets are
`then_lbl` or `else_lbl`. -/
def INST.branches_to (then_lbl else_lbl : Labl) : INST → Bool
  | .JMP labl => decide (labl = then_lbl ∨ labl = else_lbl)
  | .BCZ _ _ t e =>
    decide (t = then_lbl ∨ t = else_lbl) && decide (e = then_lbl ∨ e = else_lbl)
  | .BCN _ _ _ t e =>
    decide (t = then_lbl ∨ t = else_lbl) && decide (e = then_lbl ∨ e = else_lbl)
  | _ => false

/-- The expression `a < 10 and b < 20` as parsed. -/
def ex_and_a_b0 : Expn :=
  .And
    (.Less (.Lkup "a" (Locn.at 1 7) .NoneTy) (.Ltrl (.int 10) (Locn.at 1 9) .NoneTy)
      (Locn.at 1 8) .NoneTy)
    (.Less (.Lkup "b" (Locn.at 1 16) .NoneTy) (.Ltrl (.int 20) (Locn.at 1 18) .NoneTy)
      (Locn.at 1 17) .NoneTy)
    (Locn.at 1 12) .NoneTy

/-- The labels an instruction jumps to: the target of a `JMP`, the two
targets of a `BCN` or a `BCZ`. -/
def INST.targets : INST → List Labl
  | .JMP labl => [labl]
  | .BCN _ _ _ then_lbl else_lbl => [then_lbl, else_lbl]
  | .BCZ _ _ then_lbl else_lbl => [then_lbl, else_lbl]
  | _ => []

/-- Whether every jump target in `out` is one of the labels `extra` or is
defined by an `LBL` instruction of `out`. -/
def targets_closed (extra : List Labl) (out : INST_vec) : Bool :=
  out.all (fun i => i.targets.all (fun l => decide (l ∈ extra) || decide (INST.LBL l ∈ out)))

/-- Every jump target in `out` is one of the labels `extra` or is defined by
an `LBL` instruction of `ctx`. -/
def Resolves (extra : List Labl) (out ctx : INST_vec) : Prop :=
  ∀ i ∈ out, ∀ l ∈ i.targets, l ∈ extra ∨ INST.LBL l ∈ ctx

/-- A translation step that only appends to the code, and whose output has
every jump target among `extra` or defined in that output. -/
def Closes (extra : List Labl) (f : SymT → INST_vec → Option (SymT × INST_vec)) : Prop :=
  ∀ (symt : SymT) (code : INST_vec) (r : SymT × INST_vec),
    f symt code = some r → ∃ out, r.2 = code ++ out ∧ Resolves extra out out

/-- The expression `q and 1`: an unknown name on the left. -/
def ex_and_q_1 : Expn :=
  .And (.Lkup "q" (Locn.at 1 1) .NoneTy) (.Ltrl (.int 1) (Locn.at 1 7) .NoneTy)
    (Locn.at 1 3) .NoneTy

/-- The expression `q and y`: unknown names on both sides. -/
def ex_and_q_y : Expn :=
  .And (.Lkup "q" (Locn.at 1 1) .NoneTy) (.Lkup "y" (Locn.at 1 7) .NoneTy)
    (Locn.at 1 3) .NoneTy

/-- The statement `return 1 < 2` as parsed. -/
def ex_return_less0 : Stmt :=
  .FRtn (.Less (.Ltrl (.int 1) (Locn.at 1 8) .NoneTy) (.Ltrl (.int 2) (Locn.at 1 12) .NoneTy)
    (Locn.at 1 10) .NoneTy) (Locn.at 1 1)

/-- The statement `return 1 < 2`, checked. -/
def ex_return_less : Stmt :=
  .FRtn (.Less (.Ltrl (.int 1) (Locn.at 1 8) .IntTy) (.Ltrl (.int 2) (Locn.at 1 12) .IntTy)
    (Locn.at 1 10) .BoolTy) (Locn.at 1 1)

/-- The definition `def f() -> bool: return 1 < 2` as parsed. -/
def ex_defn_h0 : Defn :=
  { name := "f", symt := SymT.empty, rety := .BoolTy,
    body := { stmts := [ex_return_less0], locn := Locn.at 1 1 },
    code := [], locn := Locn.at 0 1 }

/-- The definition `def f() -> bool: return 1 < 2`, checked. -/
def ex_defn_h : Defn :=
  { name := "f", symt := SymT.empty, rety := .BoolTy,
    body := { stmts := [ex_return_less], locn := Locn.at 1 1 },
    code := [], locn := Locn.at 0 1 }

/-- The statement `x = 1`. -/
def ex_asgn_x_1 : Stmt := .Asgn "x" (.Ltrl (.int 1) (Locn.at 1 5) .NoneTy) (Locn.at 1 1)

/-- The procedure `def p() -> None: x = 1`, where `x` was never introduced. -/
def ex_defn_asgn : Defn :=
  { name := "p", symt := SymT.empty, rety := .NoneTy,
    body := { stmts := [ex_asgn_x_1], locn := Locn.at 1 1 },
    code := [], locn := Locn.at 0 1 }

/-! # Theorems -/

/-! ## The type predicates and comparisons -/

theorem Ty.op_eq_iff (type1 type2 : Ty) : Ty.op_eq type1 type2 = true ↔ type1 = type2 := by
  cases type1 <;> cases type2 <;> simp [Ty.op_eq, is_int, is_str, is_bool, is_None]

theorem Ty.op_eq_self (type : Ty) : Ty.op_eq type type = true :=
  (Ty.op_eq_iff type type).2 rfl

theorem Ty.op_eq_eq_decide (type1 type2 : Ty) : Ty.op_eq type1 type2 = decide (type1 = type2) := by
  cases type1 <;> cases type2 <;> rfl

theorem Ty.op_eq_false_iff (type1 type2 : Ty) : Ty.op_eq type1 type2 = false ↔ type1 ≠ type2 := by
  simp [Ty.op_eq_eq_decide]

theorem Ty.op_ne_iff (type1 type2 : Ty) : Ty.op_ne type1 type2 = true ↔ type1 ≠ type2 := by
  simp [Ty.op_ne, Ty.op_eq_false_iff]

theorem Ty.op_ne_false_iff (type1 type2 : Ty) : Ty.op_ne type1 type2 = false ↔ type1 = type2 := by
  simp [Ty.op_ne, Ty.op_eq_iff]

theorem is_int_iff (type : Ty) : is_int type = true ↔ type = .IntTy := by
  cases type <;> simp [is_int]

theorem is_str_iff (type : Ty) : is_str type = true ↔ type = .StrTy := by
  cases type <;> simp [is_str]

theorem is_bool_iff (type : Ty) : is_bool type = true ↔ type = .BoolTy := by
  cases type <;> simp [is_bool]

theorem is_None_iff (type : Ty) : is_None type = true ↔ type = .NoneTy := by
  cases type <;> simp [is_None]

/-! ## The return-behaviour algebra -/

/-- C1: `rtns_seq` is the sequence table of the specification. For every
summary `b`, type `t` and location: `seq(Void, b) = b`;
`seq(VoidOr(t), Void) = VoidOr(t)`; `seq(VoidOr(t), b) = b` when `b` is not
`Void` and `type_of(b) = t`; `seq(VoidOr(t), b)` throws the "Statement return
is not compatible with what's expected" type mismatch at the given location
when `b` is not `Void` and `type_of(b) ≠ t`; and `seq(Def(t), b)` throws the
unreachable-statement error at the given location for every `b`, `Void`
included. -/
theorem rtns_seq_table (b : Rtns) (t : Ty) (lo : Locn) :
    rtns_seq .Void b lo = .ok b ∧
    rtns_seq (.VoidOr t) .Void lo = .ok (.VoidOr t) ∧
    (b ≠ .Void → type_of b = t → rtns_seq (.VoidOr t) b lo = .ok b) ∧
    (b ≠ .Void → type_of b ≠ t → rtns_seq (.VoidOr t) b lo = .error (.mk lo
      "Type mismatch. Statement return is not compatible with what's expected.")) ∧
    rtns_seq (.Def t) b lo =
      .error (.mk lo "Statement not reachable because of prior return.") ∧
    rtns_seq (.Def t) .Void lo =
      .error (.mk lo "Statement not reachable because of prior return.") := by
  refine ⟨rfl, rfl, ?_, ?_, rfl, rfl⟩
  · intro hb ht
    cases b with
    | Void => exact absurd rfl hb
    | VoidOr u =>
      have hu : u = t := ht
      simp [rtns_seq, Rtns.holds_Void, Rtns.holds_VoidOr, type_of, hu, Ty.op_eq_self]
    | Def u =>
      have hu : u = t := ht
      simp [rtns_seq, Rtns.holds_Void, Rtns.holds_VoidOr, type_of, hu, Ty.op_eq_self]
  · intro hb ht
    have hs : ("Type mismatch. Statement return is" ++ " not compatible with what's expected.")
        = "Type mismatch. Statement return is not compatible with what's expected." := by
      decide
    cases b with
    | Void => exact absurd rfl hb
    | VoidOr u =>
      have hu : Ty.op_eq t u = false := (Ty.op_eq_false_iff t u).2 (fun h => ht h.symm)
      simp [rtns_seq, Rtns.holds_Void, Rtns.holds_VoidOr, type_of, hu, hs]
    | Def u =>
      have hu : Ty.op_eq t u = false := (Ty.op_eq_false_iff t u).2 (fun h => ht h.symm)
      simp [rtns_seq, Rtns.holds_Void, Rtns.holds_VoidOr, type_of, hu, hs]

/-- The sequence table at concrete summaries: `seq(VoidOr(int), Def(int))`
sharpens to `Def(int)`, and `seq(VoidOr(int), Def(str))` is the type mismatch. -/
theorem rtns_seq_table_witness :
    rtns_seq (.VoidOr .IntTy) (.Def .IntTy) (Locn.at 2 1) = .ok (.Def .IntTy) ∧
    rtns_seq (.VoidOr .IntTy) (.Def .StrTy) (Locn.at 2 1) = .error (.mk (Locn.at 2 1)
      "Type mismatch. Statement return is not compatible with what's expected.") :=
  ⟨(rtns_seq_table (.Def .IntTy) .IntTy (Locn.at 2 1)).2.2.1 (by decide) rfl,
   (rtns_seq_table (.Def .StrTy) .IntTy (Locn.at 2 1)).2.2.2.1 (by decide) (by decide)⟩

/-- C2: `rtns_sum` is the sum table of the specification. If `a` is `Void` the
result is `void_of(b)`, if `b` is `Void` it is `void_of(a)`, where
`void_of(Def(t)) = VoidOr(t)`, `void_of(VoidOr(t)) = VoidOr(t)` and
`void_of(Void) = Void`; if both are not `Void` and have the same type `t` the
result is `Def(t)` when both are `Def` and `VoidOr(t)` otherwise; `rtns_sum`
throws, and then the "Incompatible return types" error at the given location,
exactly when both are not `Void` and their types differ. In particular
`sum(Def(t), Def(t)) = Def(t)` and `sum(Def(t), Void) = VoidOr(t)`. -/
theorem rtns_sum_table (a b : Rtns) (t : Ty) (lo : Locn) :
    rtns_sum .Void b lo = .ok (void_of b) ∧
    rtns_sum a .Void lo = .ok (void_of a) ∧
    void_of (.Def t) = .VoidOr t ∧ void_of (.VoidOr t) = .VoidOr t ∧ void_of .Void = .Void ∧
    (a ≠ .Void → b ≠ .Void → type_of a = type_of b →
      rtns_sum a b lo =
        .ok (if a.holds_Def && b.holds_Def then .Def (type_of a) else .VoidOr (type_of a))) ∧
    (failed (rtns_sum a b lo) = true ↔ a ≠ .Void ∧ b ≠ .Void ∧ type_of a ≠ type_of b) ∧
    (failed (rtns_sum a b lo) = true →
      rtns_sum a b lo = .error (.mk lo "Type mismatch. Incompatible return types.")) ∧
    rtns_sum (.Def t) (.Def t) lo = .ok (.Def t) ∧
    rtns_sum (.Def t) .Void lo = .ok (.VoidOr t) := by
  refine ⟨rfl, ?_, rfl, rfl, rfl, ?_, ?_, ?_, ?_, rfl⟩
  · cases a <;> rfl
  · intro ha hb ht
    cases a <;> cases b <;>
      simp_all [rtns_sum, Rtns.holds_Void, Rtns.holds_VoidOr, Rtns.holds_Def, type_of,
        Ty.op_eq_self]
  · rcases a with _ | u | u <;> rcases b with _ | v | v <;>
      simp [rtns_sum, Rtns.holds_Void, Rtns.holds_VoidOr, type_of, failed, void_of,
        Ty.op_eq_eq_decide] <;>
      by_cases h : u = v <;> simp [h]
  · rcases a with _ | u | u <;> rcases b with _ | v | v <;>
      simp [rtns_sum, Rtns.holds_Void, Rtns.holds_VoidOr, type_of, failed, void_of,
        Ty.op_eq_eq_decide] <;>
      by_cases h : u = v <;> simp [h]
  · simp [rtns_sum, Rtns.holds_Void, Rtns.holds_VoidOr, type_of, Ty.op_eq_self]

/-- The sum table at concrete summaries: `sum(Def(int), VoidOr(int))` is
`VoidOr(int)`, and `sum(Def(int), Def(str))` throws. -/
theorem rtns_sum_table_witness :
    rtns_sum (.Def .IntTy) (.VoidOr .IntTy) (Locn.at 3 1) = .ok (.VoidOr .IntTy) ∧
    rtns_sum (.Def .IntTy) (.Def .StrTy) (Locn.at 3 1) =
      .error (.mk (Locn.at 3 1) "Type mismatch. Incompatible return types.") :=
  ⟨(rtns_sum_table (.Def .IntTy) (.VoidOr .IntTy) .IntTy (Locn.at 3 1)).2.2.2.2.2.1
      (by decide) (by decide) rfl,
   (rtns_sum_table (.Def .IntTy) (.Def .StrTy) .IntTy (Locn.at 3 1)).2.2.2.2.2.2.2.1
      (by decide)⟩
/-! ## Blocks -/

theorem check_block_foldl_error (expd : Rtns) (defs : Defs) (stmts : List Stmt) :
    ∀ (done : List Stmt) (symt : SymT) (err : DwislpyError),
      stmts.foldl (check_block_step expd defs) ((done, symt), .error err)
        = ((done ++ stmts, symt), .error err) := by
  induction stmts with
  | nil => intro done symt err; simp
  | cons stmt rest ih =>
    intro done symt err
    simp [List.foldl, check_block_step, ih]

theorem check_block_foldl_ok (expd : Rtns) (defs : Defs) (stmts : List Stmt) :
    ∀ (done : List Stmt) (symt : SymT) (rtns : Rtns),
      stmts.foldl (check_block_step expd defs) ((done, symt), .ok rtns)
        = ((done ++ (Blck.chck_loop expd defs rtns symt stmts).1.1,
            (Blck.chck_loop expd defs rtns symt stmts).1.2),
           (Blck.chck_loop expd defs rtns symt stmts).2) := by
  induction stmts with
  | nil => intro done symt rtns; simp [Blck.chck_loop]
  | cons stmt rest ih =>
    intro done symt rtns
    rcases h : Stmt.chck expd defs symt stmt with ⟨⟨stmt1, symt1⟩, err | stmt_rtns⟩
    · simp [List.foldl, check_block_step, Blck.chck_loop, h, check_block_foldl_error]
    · rcases hs : rtns_seq rtns stmt_rtns stmt.locn with err | rtns1
      · simp [List.foldl, check_block_step, Blck.chck_loop, h, hs, check_block_foldl_error]
      · simp [List.foldl, check_block_step, Blck.chck_loop, h, hs, ih]

theorem Blck.chck_result (expd : Rtns) (defs : Defs) (symt : SymT) (blck : Blck) :
    (Blck.chck expd defs symt blck).2 = (Blck.chck_loop expd defs .Void symt blck.stmts).2 := by
  simp [Blck.chck]

/-- C3: `Blck::chck` is the left fold of `rtns_seq` over the statements of the
block starting from `Void`: its outcome (the statements and the symbol table
as it leaves them, and the summary or the error) is that of the
specification's `check_block`, in which the statements are checked in order
with the same expected obligation against the table the previous statement
left, their summaries are combined by `rtns_seq` at the statement's location,
and the first error ends the checking; the empty block yields `Void` and
leaves the table as it is. -/
theorem Blck_chck_is_fold (expd : Rtns) (defs : Defs) (symt : SymT) (blck : Blck) :
    Blck.chck expd defs symt blck =
      (({ blck with stmts := (check_block expd defs symt blck.stmts).1.1 },
        (check_block expd defs symt blck.stmts).1.2),
       (check_block expd defs symt blck.stmts).2) ∧
    Blck.chck expd defs symt { blck with stmts := [] } =
      (({ blck with stmts := [] }, symt), .ok .Void) := by
  constructor
  · simp [Blck.chck, check_block, check_block_foldl_ok]
  · simp [Blck.chck, Blck.chck_loop]
/-- The summary of a statement is `Void`, or the expected obligation itself
(`FRtn`), or `Def(NoneTy)` under an obligation of type `NoneTy` (`PRtn`); the
last two only under an obligation other than `Void`. -/
theorem Stmt.chck_rtns (expd : Rtns) (defs : Defs) (symt : SymT) (stmt : Stmt)
    (st : Stmt × SymT) (rtns : Rtns)
    (h : Stmt.chck expd defs symt stmt = (st, .ok rtns)) :
    rtns = .Void ∨ (rtns = expd ∧ expd.holds_Void = false) ∨
      (rtns = .Def .NoneTy ∧ type_of expd = .NoneTy ∧ expd.holds_Void = false) := by
  cases stmt <;>
    simp only [Stmt.chck, Ntro.chck, Asgn.chck, Prnt.chck, Pass.chck, PRtn.chck, FRtn.chck] at h <;>
    (repeat' split at h) <;> simp_all [is_None_iff]
theorem Blck.chck_loop_append_error (expd : Rtns) (defs : Defs) (pre rest : List Stmt) :
    ∀ (a : Rtns) (symt : SymT) (x : List Stmt × SymT) (err : DwislpyError),
      Blck.chck_loop expd defs a symt pre = (x, .error err) →
      (Blck.chck_loop expd defs a symt (pre ++ rest)).2 = .error err := by
  induction pre with
  | nil => intro a symt x err h; simp [Blck.chck_loop] at h
  | cons stmt pre ih =>
    intro a symt x err h
    rcases hs : Stmt.chck expd defs symt stmt with ⟨⟨stmt1, symt1⟩, e | stmt_rtns⟩
    · simp [Blck.chck_loop, hs] at h
      simp [Blck.chck_loop, hs, h.2]
    · rcases hq : rtns_seq a stmt_rtns stmt.locn with e | a1
      · simp [Blck.chck_loop, hs, hq] at h
        simp [Blck.chck_loop, hs, hq, h.2]
      · simp [Blck.chck_loop, hs, hq] at h
        have := ih a1 symt1 (Blck.chck_loop expd defs a1 symt1 pre).1 err
          (by rw [← h.2])
        simp [Blck.chck_loop, hs, hq, this]

theorem Blck.chck_loop_append_ok (expd : Rtns) (defs : Defs) (pre rest : List Stmt) :
    ∀ (a : Rtns) (symt : SymT) (pre1 : List Stmt) (symt1 : SymT) (a1 : Rtns),
      Blck.chck_loop expd defs a symt pre = ((pre1, symt1), .ok a1) →
      (Blck.chck_loop expd defs a symt (pre ++ rest)).2
        = (Blck.chck_loop expd defs a1 symt1 rest).2 := by
  induction pre with
  | nil =>
    intro a symt pre1 symt1 a1 h
    simp [Blck.chck_loop] at h
    obtain ⟨⟨_, h1⟩, h2⟩ := h
    simp [h1, h2]
  | cons stmt pre ih =>
    intro a symt pre1 symt1 a1 h
    rcases hs : Stmt.chck expd defs symt stmt with ⟨⟨stmt1, symtA⟩, e | stmt_rtns⟩
    · simp [Blck.chck_loop, hs] at h
    · rcases hq : rtns_seq a stmt_rtns stmt.locn with e | aA
      · simp [Blck.chck_loop, hs, hq] at h
      · simp [Blck.chck_loop, hs, hq] at h
        obtain ⟨⟨_, h1⟩, h2⟩ := h
        have := ih aA symtA (Blck.chck_loop expd defs aA symtA pre).1.1 symt1 a1
          (by rw [← h1, ← h2])
        simp [Blck.chck_loop, hs, hq, this]

/-- When the statements check one after another on their own, the loop of
`Blck::chck` over them either throws (in `rtns_seq`) or ends with the same
symbol table. -/
theorem Blck.chck_loop_of_stmts_chck (expd : Rtns) (defs : Defs) (pre : List Stmt) :
    ∀ (a : Rtns) (symt : SymT) (outs : List Rtns) (symt1 : SymT),
      stmts_chck expd defs symt pre = some (outs, symt1) →
      failed (Blck.chck_loop expd defs a symt pre).2 = true ∨
        ∃ pre1 a1, Blck.chck_loop expd defs a symt pre = ((pre1, symt1), .ok a1) := by
  induction pre with
  | nil =>
    intro a symt outs symt1 h
    simp [stmts_chck] at h
    right
    exact ⟨[], a, by simp [Blck.chck_loop, h.2]⟩
  | cons stmt pre ih =>
    intro a symt outs symt1 h
    rcases hs : Stmt.chck expd defs symt stmt with ⟨⟨stmt1, symtA⟩, e | stmt_rtns⟩
    · simp [stmts_chck, hs] at h
    · rcases hr : stmts_chck expd defs symtA pre with _ | ⟨outs1, symtB⟩
      · simp [stmts_chck, hs, hr] at h
      · simp [stmts_chck, hs, hr] at h
        rcases hq : rtns_seq a stmt_rtns stmt.locn with e | aA
        · left; simp [Blck.chck_loop, hs, hq, failed]
        · rcases ih aA symtA outs1 symtB hr with hf | ⟨pre1, a1, h1⟩
          · left; simpa [Blck.chck_loop, hs, hq] using hf
          · right
            exact ⟨stmt1 :: pre1, a1, by simp [Blck.chck_loop, hs, hq, h1, h.2]⟩

/-- When the statements check one after another on their own and none of them
yields `Def`, the loop of `Blck::chck` over them does not throw, and the
summary it reaches is `Void` or the expected obligation, a `VoidOr`. -/
theorem Blck.chck_loop_no_Def (expd : Rtns) (defs : Defs) (pre : List Stmt) :
    ∀ (a : Rtns) (symt : SymT) (outs : List Rtns) (symt1 : SymT),
      stmts_chck expd defs symt pre = some (outs, symt1) →
      (∀ o ∈ outs, o.holds_Def = false) →
      (a = .Void ∨ (a = expd ∧ a.holds_VoidOr = true)) →
      ∃ pre1 a1, Blck.chck_loop expd defs a symt pre = ((pre1, symt1), .ok a1) ∧
        (a1 = .Void ∨ (a1 = expd ∧ a1.holds_VoidOr = true)) := by
  induction pre with
  | nil =>
    intro a symt outs symt1 h _ ha
    simp [stmts_chck] at h
    exact ⟨[], a, by simp [Blck.chck_loop, h.2], ha⟩
  | cons stmt pre ih =>
    intro a symt outs symt1 h hd ha
    rcases hs : Stmt.chck expd defs symt stmt with ⟨⟨stmt1, symtA⟩, e | stmt_rtns⟩
    · simp [stmts_chck, hs] at h
    · rcases hr : stmts_chck expd defs symtA pre with _ | ⟨outs1, symtB⟩
      · simp [stmts_chck, hs, hr] at h
      · simp [stmts_chck, hs, hr] at h
        obtain ⟨h1, h2⟩ := h
        subst h1 h2
        have hnd : stmt_rtns.holds_Def = false := hd stmt_rtns (by simp)
        have hd1 : ∀ o ∈ outs1, o.holds_Def = false := fun o ho => hd o (by simp [ho])
        have hq : ∃ aA, rtns_seq a stmt_rtns stmt.locn = .ok aA ∧
            (aA = .Void ∨ (aA = expd ∧ aA.holds_VoidOr = true)) := by
          rcases Stmt.chck_rtns expd defs symt stmt _ _ hs with hv | ⟨he, hne⟩ | ⟨he, _, _⟩
          · subst hv
            rcases ha with ha | ⟨ha, hav⟩
            · subst ha; exact ⟨.Void, rfl, Or.inl rfl⟩
            · refine ⟨a, ?_, Or.inr ⟨ha, hav⟩⟩
              cases a <;> simp_all [rtns_seq, Rtns.holds_Void, Rtns.holds_VoidOr]
          · subst he
            cases stmt_rtns with
            | Void => simp [Rtns.holds_Void] at hne
            | Def u => simp [Rtns.holds_Def] at hnd
            | VoidOr u =>
              refine ⟨.VoidOr u, ?_, Or.inr ⟨rfl, rfl⟩⟩
              rcases ha with ha | ⟨ha, _⟩
              · subst ha; rfl
              · subst ha
                simp [rtns_seq, Rtns.holds_Void, Rtns.holds_VoidOr, type_of, Ty.op_eq_self]
          · subst he; simp [Rtns.holds_Def] at hnd
        obtain ⟨aA, hqa, hinv⟩ := hq
        obtain ⟨pre1, a1, hl, hinv1⟩ := ih aA symtA outs1 symtB hr hd1 hinv
        exact ⟨stmt1 :: pre1, a1, by simp [Blck.chck_loop, hs, hqa, hl], hinv1⟩

theorem rtns_seq_Def_right (a x : Rtns) (t : Ty) (lo : Locn)
    (h : rtns_seq a (.Def t) lo = .ok x) : x = .Def t := by
  cases a with
  | Void => simp [rtns_seq, Rtns.holds_Void] at h; exact h.symm
  | VoidOr u =>
    by_cases hu : Ty.op_eq u t = true
    · simp [rtns_seq, Rtns.holds_Void, Rtns.holds_VoidOr, type_of, hu] at h; exact h.symm
    · simp [rtns_seq, Rtns.holds_Void, Rtns.holds_VoidOr, type_of, hu] at h
  | Def u => simp [rtns_seq, Rtns.holds_Void, Rtns.holds_VoidOr] at h

theorem rtns_seq_Def_left (t : Ty) (b : Rtns) (lo : Locn) :
    rtns_seq (.Def t) b lo =
      .error (.mk lo "Statement not reachable because of prior return.") := rfl

/-- Under an obligation other than `VoidOr`, a return statement that checks
yields `Def`. -/
theorem Stmt.chck_is_rtn (expd : Rtns) (defs : Defs) (symt : SymT) (stmt : Stmt)
    (st : Stmt × SymT) (rtns : Rtns) (hv : expd.holds_VoidOr = false)
    (hr : stmt.is_rtn = true)
    (h : Stmt.chck expd defs symt stmt = (st, .ok rtns)) : rtns.holds_Def = true := by
  rcases Stmt.chck_rtns expd defs symt stmt st rtns h with h1 | ⟨h1, h2⟩ | ⟨h1, _, _⟩
  · subst h1
    cases stmt <;> simp [Stmt.is_rtn] at hr <;>
      simp only [Stmt.chck, PRtn.chck, FRtn.chck] at h <;>
      (repeat' split at h) <;> simp_all [Rtns.holds_Void]
  · subst h1
    cases rtns <;> simp_all [Rtns.holds_Void, Rtns.holds_VoidOr, Rtns.holds_Def]
  · subst h1; rfl

/-- Once a statement has yielded `Def`, the loop of `Blck::chck` fails at the
next statement at the latest. -/
theorem Blck.chck_loop_after_Def (expd : Rtns) (defs : Defs) (a : Rtns) (symt1 symt2 : SymT)
    (r n r1 : Stmt) (post : List Stmt) (t : Ty)
    (hr : Stmt.chck expd defs symt1 r = ((r1, symt2), .ok (.Def t))) :
    failed (Blck.chck_loop expd defs a symt1 (r :: n :: post)).2 = true := by
  rcases hq : rtns_seq a (.Def t) r.locn with e | x
  · simp [Blck.chck_loop, hr, hq, failed]
  · have hx := rtns_seq_Def_right a x t r.locn hq
    subst hx
    rcases hn : Stmt.chck expd defs symt2 n with ⟨⟨n1, symt3⟩, e | b⟩
    · simp [Blck.chck_loop, hr, hq, hn, failed]
    · simp [Blck.chck_loop, hr, hq, hn, failed, rtns_seq_Def_left]

/-- C4: a block in which a return statement is followed by at least one more
statement fails in `Blck::chck`. First, under the obligations the checker
passes (`Void` or `Def(t)`), every block `pre ++ r :: n :: post` whose `r` is
a `PRtn` or an `FRtn` fails. Second, under any obligation, when the statements
`pre` check one after another on their own and the check of `r` yields
`Def(t)`, the block fails; when moreover none of the statements before `r`
yields `Def` (so `r` is the first return) and `n`, the statement right after
`r`, checks without error on its own, the error is the unreachable-statement
error at the location of `n`. -/
theorem Blck_chck_unreachable (expd : Rtns) (defs : Defs) (symt : SymT) (lo : Locn)
    (pre post : List Stmt) (r n : Stmt) :
    (expd.holds_VoidOr = false → r.is_rtn = true →
      failed (Blck.chck expd defs symt { stmts := pre ++ r :: n :: post, locn := lo }).2
        = true) ∧
    (∀ (outs : List Rtns) (symt1 symt2 : SymT) (r1 : Stmt) (t : Ty),
      stmts_chck expd defs symt pre = some (outs, symt1) →
      Stmt.chck expd defs symt1 r = ((r1, symt2), .ok (.Def t)) →
      failed (Blck.chck expd defs symt { stmts := pre ++ r :: n :: post, locn := lo }).2
        = true ∧
      ((∀ o ∈ outs, o.holds_Def = false) →
        failed (Stmt.chck expd defs symt2 n).2 = false →
        (Blck.chck expd defs symt { stmts := pre ++ r :: n :: post, locn := lo }).2 =
          .error (.mk n.locn "Statement not reachable because of prior return."))) := by
  rw [Blck.chck_result]
  simp only []
  constructor
  · intro hv hrt
    rcases hl : Blck.chck_loop expd defs .Void symt pre with ⟨⟨pre1, symt1⟩, e | a1⟩
    · rw [Blck.chck_loop_append_error expd defs pre _ _ _ _ e hl]; rfl
    · rw [Blck.chck_loop_append_ok expd defs pre _ _ _ pre1 symt1 a1 hl]
      rcases hs : Stmt.chck expd defs symt1 r with ⟨⟨r1, symt2⟩, e | x⟩
      · simp [Blck.chck_loop, hs, failed]
      · have hx := Stmt.chck_is_rtn expd defs symt1 r _ x hv hrt hs
        cases x with
        | Void => simp [Rtns.holds_Def] at hx
        | VoidOr u => simp [Rtns.holds_Def] at hx
        | Def u => exact Blck.chck_loop_after_Def expd defs a1 symt1 symt2 r n r1 post u hs
  · intro outs symt1 symt2 r1 t hpre hr
    constructor
    · rcases Blck.chck_loop_of_stmts_chck expd defs pre .Void symt outs symt1 hpre with
        hf | ⟨pre1, a1, h1⟩
      · rcases hl : Blck.chck_loop expd defs .Void symt pre with ⟨x, e | a1⟩
        · rw [Blck.chck_loop_append_error expd defs pre _ _ _ x e hl]; rfl
        · rw [hl] at hf; simp [failed] at hf
      · rw [Blck.chck_loop_append_ok expd defs pre _ _ _ pre1 symt1 a1 h1]
        exact Blck.chck_loop_after_Def expd defs a1 symt1 symt2 r n r1 post t hr
    · intro hd hn
      obtain ⟨pre1, a1, h1, hinv⟩ :=
        Blck.chck_loop_no_Def expd defs pre .Void symt outs symt1 hpre hd (Or.inl rfl)
      rw [Blck.chck_loop_append_ok expd defs pre _ _ _ pre1 symt1 a1 h1]
      have hq : rtns_seq a1 (.Def t) r.locn = .ok (.Def t) := by
        rcases hinv with ha | ⟨ha, hav⟩
        · subst ha; rfl
        · rcases Stmt.chck_rtns expd defs symt1 r _ _ hr with hv | ⟨he, _⟩ | ⟨he, hty, _⟩
          · simp at hv
          · subst ha; rw [← he] at hav; simp [Rtns.holds_VoidOr] at hav
          · subst ha
            cases a1 <;> simp_all [rtns_seq, Rtns.holds_Void, Rtns.holds_VoidOr, type_of,
              Ty.op_eq_self]
      rcases hn1 : Stmt.chck expd defs symt2 n with ⟨⟨n1, symt3⟩, e | b⟩
      · rw [hn1] at hn; simp [failed] at hn
      · simp [Blck.chck_loop, hr, hq, hn1, rtns_seq_Def_left]

/-- The body `return 0; print(1)` of an `int` function fails with the
unreachable-statement error at the location of the `print`. -/
theorem Blck_chck_unreachable_witness :
    failed (Blck.chck (.Def .IntTy) [] SymT.empty
      { stmts := [] ++ ex_return_0 :: ex_print_1 :: [], locn := Locn.at 1 1 }).2 = true ∧
    (Blck.chck (.Def .IntTy) [] SymT.empty
      { stmts := [] ++ ex_return_0 :: ex_print_1 :: [], locn := Locn.at 1 1 }).2 =
        .error (.mk (Locn.at 2 1) "Statement not reachable because of prior return.") :=
  have h := Blck_chck_unreachable (.Def .IntTy) [] SymT.empty (Locn.at 1 1) [] []
    ex_return_0 ex_print_1
  ⟨h.1 rfl rfl,
   (h.2 [] SymT.empty SymT.empty ex_return_0_chckd .IntTy rfl rfl).2 (by simp) rfl⟩

/-! ## Definitions and programs -/

/-- C5: for a definition with declared return type `t`, `Defn::chck` checks the
body with the expected obligation `Def(t)` against the definition's table, and
its outcome is that check followed by the rule on the summary: an error of the
body check is passed on; the summary `Void` is the "Definition body never
returns" error at the body's location; a summary `VoidOr(_)` is the
"Definition body might not return" error at the body's location; a summary
`Def(_)` is success. In all cases the definition keeps the body and the table
as the body check left them. -/
theorem Defn_chck_verdict (defs : Defs) (defn : Defn) (t : Ty) :
    (Defn.chck defs defn).2 =
      (Blck.chck (.Def defn.rety) defs defn.symt defn.body).2
        >>= body_verdict defn.body.locn ∧
    (Defn.chck defs defn).1 =
      { defn with body := (Blck.chck (.Def defn.rety) defs defn.symt defn.body).1.1,
                  symt := (Blck.chck (.Def defn.rety) defs defn.symt defn.body).1.2 } ∧
    body_verdict defn.body.locn .Void =
      .error (.mk defn.body.locn "Definition body never returns.") ∧
    body_verdict defn.body.locn (.VoidOr t) =
      .error (.mk defn.body.locn "Definition body might not return.") ∧
    body_verdict defn.body.locn (.Def t) = .ok () := by
  refine ⟨?_, ?_, rfl, rfl, rfl⟩
  · rcases h : Blck.chck (.Def defn.rety) defs defn.symt defn.body with ⟨⟨body1, symt1⟩, e | r⟩
    · simp [Defn.chck, h, bind, Except.bind]
    · cases r <;>
        simp [Defn.chck, h, bind, Except.bind, body_verdict, Rtns.holds_Void,
          Rtns.holds_VoidOr]
  · rcases h : Blck.chck (.Def defn.rety) defs defn.symt defn.body with ⟨⟨body1, symt1⟩, e | r⟩
    · simp [Defn.chck, h]
    · cases r <;> simp [Defn.chck, h, Rtns.holds_Void, Rtns.holds_VoidOr]

/-- The definitions `def f() -> int: print(1)` and `def f() -> int: return 0`:
the first fails with "Definition body never returns" at the body, the second
checks. -/
theorem Defn_chck_verdict_witness :
    (Defn.chck [] (ex_defn_int [ex_print_1])).2 =
      .error (.mk (Locn.at 1 1) "Definition body never returns.") ∧
    (Defn.chck [] (ex_defn_int [ex_return_0])).2 = .ok () :=
  ⟨(Defn_chck_verdict [] (ex_defn_int [ex_print_1]) .IntTy).1.trans rfl,
   (Defn_chck_verdict [] (ex_defn_int [ex_return_0]) .IntTy).1.trans rfl⟩

/-- Under the obligation `Void` a statement that checks is not a return
statement and yields `Void`. -/
theorem Stmt.chck_Void (defs : Defs) (symt : SymT) (stmt : Stmt)
    (st : Stmt × SymT) (rtns : Rtns)
    (h : Stmt.chck .Void defs symt stmt = (st, .ok rtns)) :
    rtns = .Void ∧ stmt.is_rtn = false := by
  cases stmt <;>
    simp only [Stmt.chck, Ntro.chck, Asgn.chck, Prnt.chck, Pass.chck, PRtn.chck, FRtn.chck] at h <;>
    (repeat' split at h) <;> simp_all [Stmt.is_rtn, Rtns.holds_Void]

theorem Blck.chck_loop_Void (defs : Defs) (stmts : List Stmt) :
    ∀ (symt : SymT) (x : List Stmt × SymT) (rtns : Rtns),
      Blck.chck_loop .Void defs .Void symt stmts = (x, .ok rtns) →
      rtns = .Void ∧ ∀ s ∈ stmts, s.is_rtn = false := by
  induction stmts with
  | nil =>
    intro symt x rtns h
    simp [Blck.chck_loop] at h
    simp [h.2]
  | cons stmt rest ih =>
    intro symt x rtns h
    rcases hs : Stmt.chck .Void defs symt stmt with ⟨⟨stmt1, symt1⟩, e | stmt_rtns⟩
    · simp [Blck.chck_loop, hs] at h
    · obtain ⟨hv, hn⟩ := Stmt.chck_Void defs symt stmt _ _ hs
      subst hv
      have hq : rtns_seq .Void .Void stmt.locn = .ok .Void := rfl
      simp [Blck.chck_loop, hs, hq] at h
      obtain ⟨hr, hrest⟩ := ih symt1 (Blck.chck_loop .Void defs .Void symt1 rest).1 rtns
        (by rw [← h.2])
      exact ⟨hr, by simpa [hn] using hrest⟩

/-- C6: `Prgm::chck` never completes successfully for a program whose main
block has a summary other than `Void`: for a program whose main block contains
a return statement (`PRtn` or `FRtn`) `Prgm::chck` fails with an error, and for
a program on which `Prgm::chck` succeeds the summary of the main block, checked
with the expected obligation `Void` against the main table and the definitions
as their checks left them, is `Void`. -/
theorem Prgm_chck_main_Void (prgm : Prgm) :
    ((∃ s ∈ prgm.main.stmts, s.is_rtn = true) → failed (Prgm.chck prgm).2 = true) ∧
    (failed (Prgm.chck prgm).2 = false →
      (Blck.chck .Void (Prgm.chck_defs [] prgm.defs).1 prgm.main_symt prgm.main).2
        = .ok .Void) := by
  rcases hd : Prgm.chck_defs [] prgm.defs with ⟨defs1, e | u⟩
  · simp [Prgm.chck, hd, failed]
  · rcases hm : Blck.chck .Void defs1 prgm.main_symt prgm.main with ⟨⟨main1, symt1⟩, e | r⟩
    · simp [Prgm.chck, hd, hm, failed]
    · have hl : Blck.chck_loop .Void defs1 .Void prgm.main_symt prgm.main.stmts
          = ((Blck.chck_loop .Void defs1 .Void prgm.main_symt prgm.main.stmts).1, .ok r) := by
        have := Blck.chck_result .Void defs1 prgm.main_symt prgm.main
        rw [hm] at this
        exact Prod.ext rfl this.symm
      obtain ⟨hr, hn⟩ := Blck.chck_loop_Void defs1 prgm.main.stmts _ _ _ hl
      constructor
      · rintro ⟨s, hs, hrt⟩
        rw [hn s hs] at hrt
        exact absurd hrt (by simp)
      · intro _
        simp [hr]

/-- The main script `return 0` makes `Prgm::chck` fail, and for the main script
`print(1)`, on which `Prgm::chck` succeeds, the summary of the main block is
`Void`. -/
theorem Prgm_chck_main_Void_witness :
    failed (Prgm.chck (ex_prgm [ex_return_0])).2 = true ∧
    (Blck.chck .Void (Prgm.chck_defs [] (ex_prgm [ex_print_1]).defs).1
      (ex_prgm [ex_print_1]).main_symt (ex_prgm [ex_print_1]).main).2 = .ok .Void :=
  ⟨(Prgm_chck_main_Void (ex_prgm [ex_return_0])).1 ⟨ex_return_0, by simp [ex_prgm], rfl⟩,
   (Prgm_chck_main_Void (ex_prgm [ex_print_1])).2 rfl⟩
/-! ## Return statements -/

/-- What `FRtn::chck` does once its expression has checked to a type. -/
theorem FRtn.chck_of_chck (expd : Rtns) (defs : Defs) (symt : SymT) (expn : Expn) (lo : Locn)
    (expn1 : Expn) (expn_ty : Ty) (he : Expn.chck defs symt expn = (expn1, .ok expn_ty)) :
    FRtn.chck expd defs symt expn lo =
      ((.FRtn expn1 lo, symt),
        if expd.holds_Void then .error (.mk expn.locn "Unexpected return statement.")
        else if expn_ty ≠ type_of expd then
          .error (.mk expn.locn ("Return type mismatch. Expected return of type "
            ++ (type_name (type_of expd) ++ ".")))
        else .ok expd) := by
  by_cases hv : expd.holds_Void = true
  · simp [FRtn.chck, he, hv]
  · by_cases ht : expn_ty = type_of expd
    · simp [FRtn.chck, he, hv, ht, (Ty.op_ne_false_iff _ _).2]
    · simp [FRtn.chck, he, hv, ht, (Ty.op_ne_iff expn_ty (type_of expd)).2 ht]

/-- What `FRtn::chck` does when its expression does not check. -/
theorem FRtn.chck_of_chck_error (expd : Rtns) (defs : Defs) (symt : SymT) (expn : Expn)
    (lo : Locn) (expn1 : Expn) (err : DwislpyError)
    (he : Expn.chck defs symt expn = (expn1, .error err)) :
    FRtn.chck expd defs symt expn lo = ((.FRtn expn1 lo, symt), .error err) := by
  simp [FRtn.chck, he]

/-- C8, counterexample: `return None` in the body of a definition declared to
return `None` (expected obligation `Def(NoneTy)`) is not rejected: `FRtn::chck`
yields `Def(NoneTy)`. -/
theorem FRtn_chck_None_accepted :
    failed (FRtn.chck (.Def .NoneTy) [] SymT.empty ex_ltrl_None (Locn.at 1 1)).2 = false ∧
    (FRtn.chck (.Def .NoneTy) [] SymT.empty ex_ltrl_None (Locn.at 1 1)).2
      = .ok (.Def .NoneTy) :=
  ⟨rfl, rfl⟩

/-- C8, amended: under the expected obligation `Def(NoneTy)`, `FRtn::chck`
fails exactly when `e` does not check to `NoneTy`. When `e` checks to a type
other than `NoneTy` the error is the return-type mismatch "Expected return of
type None" at the location of `e`; when `e` does not check, the error is that
of `e`; when `e` checks to `NoneTy` the statement is accepted and yields
`Def(NoneTy)`. -/
theorem FRtn_chck_procedure (defs : Defs) (symt : SymT) (expn : Expn) (lo : Locn) :
    (failed (FRtn.chck (.Def .NoneTy) defs symt expn lo).2 = true ↔
      (Expn.chck defs symt expn).2 ≠ .ok .NoneTy) ∧
    ((Expn.chck defs symt expn).2 = .ok .NoneTy →
      (FRtn.chck (.Def .NoneTy) defs symt expn lo).2 = .ok (.Def .NoneTy)) ∧
    (∀ te : Ty, (Expn.chck defs symt expn).2 = .ok te → te ≠ .NoneTy →
      (FRtn.chck (.Def .NoneTy) defs symt expn lo).2 =
        .error (.mk expn.locn "Return type mismatch. Expected return of type None.")) ∧
    (∀ err : DwislpyError, (Expn.chck defs symt expn).2 = .error err →
      (FRtn.chck (.Def .NoneTy) defs symt expn lo).2 = .error err) := by
  have hs : ("Return type mismatch. Expected return of type " ++ (type_name .NoneTy ++ "."))
      = "Return type mismatch. Expected return of type None." := by decide
  rcases he : Expn.chck defs symt expn with ⟨expn1, err | te⟩
  · simp [FRtn.chck_of_chck_error _ _ _ _ _ _ _ he, failed]
  · by_cases ht : te = .NoneTy
    · simp [FRtn.chck_of_chck _ _ _ _ _ _ _ he, Rtns.holds_Void, type_of, ht, failed]
    · simp [FRtn.chck_of_chck _ _ _ _ _ _ _ he, Rtns.holds_Void, type_of, ht, failed, hs]

/-- In a procedure `return 1` is rejected with the return-type mismatch, and
`return None` is accepted. -/
theorem FRtn_chck_procedure_witness :
    (FRtn.chck (.Def .NoneTy) [] SymT.empty ex_ltrl_1 (Locn.at 1 1)).2 =
      .error (.mk (Locn.at 1 8) "Return type mismatch. Expected return of type None.") ∧
    (FRtn.chck (.Def .NoneTy) [] SymT.empty ex_ltrl_None (Locn.at 1 1)).2
      = .ok (.Def .NoneTy) :=
  ⟨(FRtn_chck_procedure [] SymT.empty ex_ltrl_1 (Locn.at 1 1)).2.2.1 .IntTy rfl (by decide),
   (FRtn_chck_procedure [] SymT.empty ex_ltrl_None (Locn.at 1 1)).2.1 rfl⟩

/-- C9: `PRtn::chck` yields `Def(NoneTy)` exactly when the expected obligation
is not `Void` and has type `NoneTy`, and yields nothing else; it throws the
"Unexpected return statement" error at its location when the obligation is
`Void`, and the "A procedure does not return a value" error at its location
when the obligation is not `Void` and has a type other than `NoneTy`; in every
case it leaves the statement and the symbol table as they are. -/
theorem PRtn_chck_table (expd : Rtns) (defs : Defs) (symt : SymT) (lo : Locn) :
    ((PRtn.chck expd defs symt lo).2 = .ok (.Def .NoneTy) ↔
      expd ≠ .Void ∧ type_of expd = .NoneTy) ∧
    (∀ rtns : Rtns, (PRtn.chck expd defs symt lo).2 = .ok rtns → rtns = .Def .NoneTy) ∧
    (expd = .Void →
      (PRtn.chck expd defs symt lo).2 = .error (.mk lo "Unexpected return statement.")) ∧
    (expd ≠ .Void → type_of expd ≠ .NoneTy →
      (PRtn.chck expd defs symt lo).2 =
        .error (.mk lo "A procedure does not return a value.")) ∧
    (PRtn.chck expd defs symt lo).1 = (.PRtn lo, symt) := by
  rcases expd with _ | u | u
  · simp [PRtn.chck, Rtns.holds_Void]
  · cases u <;> simp [PRtn.chck, Rtns.holds_Void, type_of, is_None]
  · cases u <;> simp [PRtn.chck, Rtns.holds_Void, type_of, is_None]

/-- A bare `return` under the obligations `Def(NoneTy)`, `Void` and
`Def(IntTy)`. -/
theorem PRtn_chck_table_witness :
    (PRtn.chck (.Def .NoneTy) [] SymT.empty (Locn.at 1 1)).2 = .ok (.Def .NoneTy) ∧
    (PRtn.chck .Void [] SymT.empty (Locn.at 1 1)).2 =
      .error (.mk (Locn.at 1 1) "Unexpected return statement.") ∧
    (PRtn.chck (.Def .IntTy) [] SymT.empty (Locn.at 1 1)).2 =
      .error (.mk (Locn.at 1 1) "A procedure does not return a value.") :=
  ⟨(PRtn_chck_table (.Def .NoneTy) [] SymT.empty (Locn.at 1 1)).1.2 ⟨by decide, rfl⟩,
   (PRtn_chck_table .Void [] SymT.empty (Locn.at 1 1)).2.2.1 rfl,
   (PRtn_chck_table (.Def .IntTy) [] SymT.empty (Locn.at 1 1)).2.2.2.1 (by decide)
     (by decide)⟩
/-! ## Introductions -/

theorem SymT.lookup_append_new (l : List (Name × SymInfo)) (name : Name) (i : SymInfo)
    (h : l.lookup name = none) : (l ++ [(name, i)]).lookup name = some i := by
  induction l with
  | nil => simp [List.lookup]
  | cons kv rest ih =>
    obtain ⟨k, v⟩ := kv
    by_cases hk : name = k
    · subst hk; simp [List.lookup] at h
    · have hb : (name == k) = false := by simpa using hk
      simp only [List.cons_append, List.lookup, hb] at h ⊢
      exact ih h

/-- The effect of `add_locl` on a table that does not have the name. -/
theorem SymT.add_locl_new (symt : SymT) (name : Name) (type : Ty)
    (h : symt.has_info name = false) :
    ∃ symt1, symt.add_locl name type = .ok symt1 ∧
      symt1.info = symt.info ++ [(name, ⟨.Local, type, symt.info.length⟩)] ∧
      symt1.has_info name = true ∧
      symt1.get_info name = some ⟨.Local, type, symt.info.length⟩ := by
  have hl : symt.info.lookup name = none := by
    simpa [SymT.has_info, SymT.get_info] using h
  refine ⟨{ symt with info := symt.info ++ [(name, ⟨.Local, type, symt.info.length⟩)] },
    by simp [SymT.add_locl, h], rfl, ?_, ?_⟩
  · simp [SymT.has_info, SymT.get_info, SymT.lookup_append_new _ _ _ hl]
  · simp [SymT.get_info, SymT.lookup_append_new _ _ _ hl]

/-- C10: for `Ntro(n, t, e)` whose `e` checks to a type: if that type is the
declared type `t` and `n` is not yet in the table, `Ntro::chck` yields `Void`
and appends `n` to the table as a local of type `t`, so that afterwards
`has_info(n)` holds and `get_info(n)` has type `t`; if the type of `e` differs
from `t`, `Ntro::chck` throws the type-mismatch error at the location of the
`Ntro` and leaves the table as it was, so `n` is not added. -/
theorem Ntro_chck_adds_local (expd : Rtns) (defs : Defs) (symt : SymT) (name : Name)
    (type : Ty) (expn : Expn) (lo : Locn) (expn1 : Expn) (expn_ty : Ty)
    (he : Expn.chck defs symt expn = (expn1, .ok expn_ty)) :
    (expn_ty = type → symt.has_info name = false →
      ∃ symt1, Ntro.chck expd defs symt name type expn lo =
          ((.Ntro name type expn1 lo, symt1), .ok .Void) ∧
        symt1.info = symt.info ++ [(name, ⟨.Local, type, symt.info.length⟩)] ∧
        symt1.has_info name = true ∧
        (symt1.get_info name).map SymInfo.type = some type ∧
        (symt1.get_info name).map SymInfo.kind = some .Local) ∧
    (expn_ty ≠ type →
      Ntro.chck expd defs symt name type expn lo =
        ((.Ntro name type expn1 lo, symt),
          .error (.mk lo ("Type mismatch. Expected initialization of type "
            ++ (type_name type ++ " but instead has type ")
            ++ (type_name expn_ty ++ "."))))) := by
  constructor
  · intro ht hn
    obtain ⟨symt1, ha, hi, hh, hg⟩ := SymT.add_locl_new symt name type hn
    refine ⟨symt1, ?_, hi, hh, by simp [hg], by simp [hg]⟩
    simp [Ntro.chck, he, ht, (Ty.op_ne_false_iff _ _).2, ha]
  · intro ht
    have hne : Ty.op_ne type expn_ty = true := (Ty.op_ne_iff _ _).2 (fun h => ht h.symm)
    simp [Ntro.chck, he, hne]

/-- The introduction `x : int = 1` on the empty table adds `x`, and
`x : int = "a"` throws the type mismatch at the statement and leaves the table
empty. -/
theorem Ntro_chck_adds_local_witness :
    (∃ symt1, Ntro.chck .Void [] SymT.empty "x" .IntTy ex_ltrl_1 (Locn.at 1 1) =
        ((.Ntro "x" .IntTy (.Ltrl (.int 1) (Locn.at 1 8) .IntTy) (Locn.at 1 1), symt1),
          .ok .Void) ∧
      symt1.info = SymT.empty.info ++ [("x", ⟨.Local, .IntTy, SymT.empty.info.length⟩)] ∧
      symt1.has_info "x" = true ∧
      (symt1.get_info "x").map SymInfo.type = some .IntTy ∧
      (symt1.get_info "x").map SymInfo.kind = some .Local) ∧
    Ntro.chck .Void [] SymT.empty "x" .IntTy ex_ltrl_a (Locn.at 1 1) =
      ((.Ntro "x" .IntTy (.Ltrl (.string "a") (Locn.at 1 8) .StrTy) (Locn.at 1 1),
        SymT.empty),
        .error (.mk (Locn.at 1 1) ("Type mismatch. Expected initialization of type "
          ++ (type_name .IntTy ++ " but instead has type ")
          ++ (type_name .StrTy ++ ".")))) :=
  ⟨(Ntro_chck_adds_local .Void [] SymT.empty "x" .IntTy ex_ltrl_1 (Locn.at 1 1)
      (.Ltrl (.int 1) (Locn.at 1 8) .IntTy) .IntTy rfl).1 rfl rfl,
   (Ntro_chck_adds_local .Void [] SymT.empty "x" .IntTy ex_ltrl_a (Locn.at 1 1)
      (.Ltrl (.string "a") (Locn.at 1 8) .StrTy) .StrTy rfl).2 (by decide)⟩
/-- C11, counterexample: on a table in which `x` is already present, the
introduction `x : int = "a"` does not fail with `RedefinedName`: the type of
the initializer is compared first, and the error is the type mismatch at the
statement. -/
theorem Ntro_chck_duplicate_mismatch :
    (Ntro.chck .Void [] ex_symt_x "x" .IntTy ex_ltrl_a (Locn.at 1 1)).2 =
      .error (.mk (Locn.at 1 1)
        "Type mismatch. Expected initialization of type int but instead has type str.") ∧
    (Ntro.chck .Void [] ex_symt_x "x" .IntTy ex_ltrl_a (Locn.at 1 1)).2 ≠
      .error (.RedefinedName "x") := by
  have h : (Ntro.chck .Void [] ex_symt_x "x" .IntTy ex_ltrl_a (Locn.at 1 1)).2 =
      .error (.mk (Locn.at 1 1)
        "Type mismatch. Expected initialization of type int but instead has type str.") := rfl
  exact ⟨h, by rw [h]; simp⟩

/-- The effect of `add_locl` on a table that already has the name. -/
theorem SymT.add_locl_dup (symt : SymT) (name : Name) (type : Ty)
    (h : symt.has_info name = true) :
    symt.add_locl name type = .error (.RedefinedName name) := by
  simp [SymT.add_locl, h]

/-- C11, amended: checking `Ntro(n, t, e)` against a symbol table in which `n`
is already present (whatever its kind) always fails, and it fails with
`RedefinedName` whenever `e` checks to the declared type `t`; otherwise the
error of `e`, or the type mismatch, comes first. In particular checking the
block `x : int = 1 ; x : int = 2` fails with `RedefinedName`, against every
table and under every obligation. -/
theorem Ntro_chck_duplicate (expd : Rtns) (defs : Defs) (symt : SymT) (name : Name)
    (type : Ty) (expn : Expn) (lo : Locn) :
    (symt.has_info name = true →
      failed (Ntro.chck expd defs symt name type expn lo).2 = true ∧
      (∀ expn1 : Expn, Expn.chck defs symt expn = (expn1, .ok type) →
        Ntro.chck expd defs symt name type expn lo =
          ((.Ntro name type expn1 lo, symt), .error (.RedefinedName name)))) ∧
    (Blck.chck expd defs symt { stmts := [ex_ntro_x_1, ex_ntro_x_2], locn := lo }).2 =
      .error (.RedefinedName "x") := by
  constructor
  · intro h
    rcases he : Expn.chck defs symt expn with ⟨expn1, err | expn_ty⟩
    · simp [Ntro.chck, he, failed]
    · by_cases ht : type = expn_ty
      · subst ht
        simp [Ntro.chck, he, (Ty.op_ne_false_iff _ _).2, SymT.add_locl_dup _ _ _ h, failed]
      · have hne : Ty.op_ne type expn_ty = true := (Ty.op_ne_iff _ _).2 ht
        simp [Ntro.chck, he, hne, failed]
        intro h1
        exact absurd h1.symm ht
  · by_cases hx : symt.has_info "x" = true
    · simp [Blck.chck, Blck.chck_loop, Stmt.chck, ex_ntro_x_1, Ntro.chck, Expn.chck,
        Ty.op_ne, Ty.op_eq, is_int, SymT.add_locl_dup _ _ _ hx]
    · have hx1 : symt.has_info "x" = false := by simpa using hx
      obtain ⟨symt1, ha, _, hh, _⟩ := SymT.add_locl_new symt "x" .IntTy hx1
      simp [Blck.chck, Blck.chck_loop, Stmt.chck, ex_ntro_x_1, ex_ntro_x_2, Ntro.chck,
        Expn.chck, Ty.op_ne, Ty.op_eq, is_int, ha, rtns_seq, Rtns.holds_Void,
        SymT.add_locl_dup _ _ _ hh]

/-- On the table that has `x`, the introduction `x : int = 1` fails with
`RedefinedName`. -/
theorem Ntro_chck_duplicate_witness :
    failed (Ntro.chck .Void [] ex_symt_x "x" .IntTy ex_ltrl_1 (Locn.at 1 1)).2 = true ∧
    Ntro.chck .Void [] ex_symt_x "x" .IntTy ex_ltrl_1 (Locn.at 1 1) =
      ((.Ntro "x" .IntTy (.Ltrl (.int 1) (Locn.at 1 8) .IntTy) (Locn.at 1 1), ex_symt_x),
        .error (.RedefinedName "x")) :=
  have h := (Ntro_chck_duplicate .Void [] ex_symt_x "x" .IntTy ex_ltrl_1 (Locn.at 1 1)).1 rfl
  ⟨h.1, h.2 _ rfl⟩
/-! ## Expressions -/

/-- C12: `Less::chck` returns `BoolTy` if and only if both operands check to
`IntTy`, and returns no other type; when both operands check and their types
differ it throws the "Must compare values of the same type" error, and when
they check to the same type other than `IntTy` it throws the "only compares
integers" error, both at the location of the `Less` node. -/
theorem Less_chck_table (defs : Defs) (symt : SymT) (left rght : Expn) (lo : Locn)
    (type : Ty) :
    ((Expn.chck defs symt (.Less left rght lo type)).2 = .ok .BoolTy ↔
      (Expn.chck defs symt left).2 = .ok .IntTy ∧
      (Expn.chck defs symt rght).2 = .ok .IntTy) ∧
    (∀ T : Ty, (Expn.chck defs symt (.Less left rght lo type)).2 = .ok T → T = .BoolTy) ∧
    (∀ tl tr : Ty, (Expn.chck defs symt left).2 = .ok tl →
      (Expn.chck defs symt rght).2 = .ok tr → tl ≠ tr →
      (Expn.chck defs symt (.Less left rght lo type)).2 =
        .error (.mk lo "Must compare values of the same type.")) ∧
    (∀ t : Ty, (Expn.chck defs symt left).2 = .ok t →
      (Expn.chck defs symt rght).2 = .ok t → t ≠ .IntTy →
      (Expn.chck defs symt (.Less left rght lo type)).2 =
        .error (.mk lo "This version of the language only compares integers.")) := by
  rcases hl : Expn.chck defs symt left with ⟨l1, e | tl⟩
  · simp [Expn.chck, hl]
  · rcases hr : Expn.chck defs symt rght with ⟨r1, e | tr⟩
    · simp [Expn.chck, hl, hr]
    · cases tl <;> cases tr <;> simp [Expn.chck, hl, hr, Ty.op_eq, is_int, is_str, is_bool, is_None]

/-- The comparisons `1 < "a"` and `"a" < "a"` are rejected with the two
errors, at the location of the comparison. -/
theorem Less_chck_table_witness :
    (Expn.chck [] SymT.empty (.Less ex_ltrl_1 ex_ltrl_a (Locn.at 1 9) .NoneTy)).2 =
      .error (.mk (Locn.at 1 9) "Must compare values of the same type.") ∧
    (Expn.chck [] SymT.empty (.Less ex_ltrl_a ex_ltrl_a (Locn.at 1 9) .NoneTy)).2 =
      .error (.mk (Locn.at 1 9) "This version of the language only compares integers.") :=
  ⟨(Less_chck_table [] SymT.empty ex_ltrl_1 ex_ltrl_a (Locn.at 1 9) .NoneTy).2.2.1
      .IntTy .StrTy rfl rfl (by decide),
   (Less_chck_table [] SymT.empty ex_ltrl_a ex_ltrl_a (Locn.at 1 9) .NoneTy).2.2.2
      .StrTy rfl rfl (by decide)⟩

/-- C13, counterexample: the operands of `and` are not always both checked.
In `q and 1`, with `q` unknown, the check of the left operand throws and the
right operand is not checked: its type slot is left unset, where its own check
would set `IntTy`. In `q and y`, with both names unknown, the error reported
is the one of `q`; the error of `y` is not reported. -/
theorem And_chck_right_not_checked :
    Expn.chck [] SymT.empty ex_and_q_1 =
      (ex_and_q_1, .error (.mk (Locn.at 1 1) "Unknown identifier.")) ∧
    (Expn.chck [] SymT.empty (.Ltrl (.int 1) (Locn.at 1 7) .NoneTy)).1 =
      .Ltrl (.int 1) (Locn.at 1 7) .IntTy ∧
    (Expn.chck [] SymT.empty (.Lkup "y" (Locn.at 1 7) .NoneTy)).2 =
      .error (.mk (Locn.at 1 7) "Unknown identifier.") ∧
    (Expn.chck [] SymT.empty ex_and_q_y).2 =
      .error (.mk (Locn.at 1 1) "Unknown identifier.") ∧
    (Expn.chck [] SymT.empty ex_and_q_y).2 ≠
      .error (.mk (Locn.at 1 7) "Unknown identifier.") := by
  have h : (Expn.chck [] SymT.empty ex_and_q_y).2 =
      .error (.mk (Locn.at 1 1) "Unknown identifier.") := rfl
  refine ⟨rfl, rfl, rfl, h, ?_⟩
  rw [h]
  simp [Locn.at]

/-- C13, amended: `And::chck` returns `BoolTy` if and only if both operands check to
`BoolTy`, and returns no other type; if both operands check and either has a
type other than `BoolTy` it throws the "Logical connective applied to a
non-boolean value" error at the location of the `And` node. The left operand
is checked first: its error ends the call, the right operand untouched. Once
the left operand has checked, whatever its type, the right operand is checked
too, and an error of the right operand is the error reported, also when the
left operand is not boolean. -/
theorem And_chck_table (defs : Defs) (symt : SymT) (left rght : Expn) (lo : Locn)
    (type : Ty) :
    ((Expn.chck defs symt (.And left rght lo type)).2 = .ok .BoolTy ↔
      (Expn.chck defs symt left).2 = .ok .BoolTy ∧
      (Expn.chck defs symt rght).2 = .ok .BoolTy) ∧
    (∀ T : Ty, (Expn.chck defs symt (.And left rght lo type)).2 = .ok T → T = .BoolTy) ∧
    (∀ tl tr : Ty, (Expn.chck defs symt left).2 = .ok tl →
      (Expn.chck defs symt rght).2 = .ok tr → (tl ≠ .BoolTy ∨ tr ≠ .BoolTy) →
      (Expn.chck defs symt (.And left rght lo type)).2 =
        .error (.mk lo "Logical connective applied to a non-boolean value.")) ∧
    (∀ err : DwislpyError, (Expn.chck defs symt left).2 = .error err →
      Expn.chck defs symt (.And left rght lo type) =
        (.And (Expn.chck defs symt left).1 rght lo type, .error err)) ∧
    (∀ tl : Ty, (Expn.chck defs symt left).2 = .ok tl →
      (∃ type1 : Ty, (Expn.chck defs symt (.And left rght lo type)).1 =
        .And (Expn.chck defs symt left).1 (Expn.chck defs symt rght).1 lo type1) ∧
      (∀ err : DwislpyError, (Expn.chck defs symt rght).2 = .error err →
        (Expn.chck defs symt (.And left rght lo type)).2 = .error err)) := by
  rcases hl : Expn.chck defs symt left with ⟨l1, e | tl⟩
  · simp [Expn.chck, hl]
  · rcases hr : Expn.chck defs symt rght with ⟨r1, e | tr⟩
    · simp [Expn.chck, hl, hr]
    · cases tl <;> cases tr <;> simp [Expn.chck, hl, hr, is_bool]

/-- In `1 and y`, with `y` unknown, the error reported is the "Unknown
identifier" of the right operand although the left operand is not boolean. -/
theorem And_chck_table_witness :
    (Expn.chck [] SymT.empty ex_and_1_y).2 =
      .error (.mk (Locn.at 1 7) "Unknown identifier.") :=
  ((And_chck_table [] SymT.empty (.Ltrl (.int 1) (Locn.at 1 1) .NoneTy)
      (.Lkup "y" (Locn.at 1 7) .NoneTy) (Locn.at 1 3) .NoneTy).2.2.2.2 .IntTy rfl).2
    (.mk (Locn.at 1 7) "Unknown identifier.") rfl

/-- C14: `Inpt::chck` returns `IntTy` when its prompt checks to `StrTy` and
throws the "Input prompt is not a string" error at its location when the
prompt checks to any other type. Consequently, on a table without `n`, the
statement `n : int = input("? ")` checks with summary `Void`, and
`n : str = input("? ")` fails with the type mismatch (expected `str`, has
`int`) at the statement. -/
theorem Inpt_chck_table (defs : Defs) (symt : SymT) (expn : Expn) (lo : Locn) (type : Ty) :
    ((Expn.chck defs symt expn).2 = .ok .StrTy →
      (Expn.chck defs symt (.Inpt expn lo type)).2 = .ok .IntTy) ∧
    (∀ t : Ty, (Expn.chck defs symt expn).2 = .ok t → t ≠ .StrTy →
      (Expn.chck defs symt (.Inpt expn lo type)).2 =
        .error (.mk lo "Input prompt is not a string.")) ∧
    (∀ (expd : Rtns) (name : Name) (l1 l2 lo1 : Locn) (ty1 ty2 : Ty),
      symt.has_info name = false →
      (Ntro.chck expd defs symt name .IntTy (ex_inpt l1 l2 ty1 ty2) lo1).2 = .ok .Void ∧
      (Ntro.chck expd defs symt name .StrTy (ex_inpt l1 l2 ty1 ty2) lo1).2 =
        .error (.mk lo1
          "Type mismatch. Expected initialization of type str but instead has type int.")) := by
  refine ⟨?_, ?_, ?_⟩
  · intro h
    rcases he : Expn.chck defs symt expn with ⟨e1, e | t⟩
    · rw [he] at h; simp at h
    · rw [he] at h
      simp at h
      subst h
      simp [Expn.chck, he, is_str]
  · intro t h ht
    rcases he : Expn.chck defs symt expn with ⟨e1, e | t1⟩
    · rw [he] at h; simp at h
    · rw [he] at h
      simp at h
      subst h
      cases t1 <;> simp_all [Expn.chck, is_str]
  · intro expd name l1 l2 lo1 ty1 ty2 hn
    have hs : ("Type mismatch. Expected initialization of type "
        ++ (type_name .StrTy ++ " but instead has type ") ++ (type_name .IntTy ++ "."))
        = "Type mismatch. Expected initialization of type str but instead has type int." := by
      decide
    obtain ⟨symt1, ha, _⟩ := SymT.add_locl_new symt name .IntTy hn
    constructor
    · simp [Ntro.chck, ex_inpt, Expn.chck, is_str, Ty.op_ne, Ty.op_eq, is_int, ha]
    · simp [Ntro.chck, ex_inpt, Expn.chck, is_str, Ty.op_ne, Ty.op_eq, is_int, is_bool,
        is_None, hs]

/-- On the empty table `n : int = input("? ")` checks with summary `Void`,
`n : str = input("? ")` fails with the type mismatch, and `input(1)` fails
with "Input prompt is not a string". -/
theorem Inpt_chck_table_witness :
    ((Ntro.chck .Void [] SymT.empty "n" .IntTy
        (ex_inpt (Locn.at 1 17) (Locn.at 1 11) .NoneTy .NoneTy) (Locn.at 1 1)).2 = .ok .Void ∧
      (Ntro.chck .Void [] SymT.empty "n" .StrTy
        (ex_inpt (Locn.at 1 17) (Locn.at 1 11) .NoneTy .NoneTy) (Locn.at 1 1)).2 =
        .error (.mk (Locn.at 1 1)
          "Type mismatch. Expected initialization of type str but instead has type int.")) ∧
    (Expn.chck [] SymT.empty (.Inpt ex_ltrl_1 (Locn.at 1 1) .NoneTy)).2 =
      .error (.mk (Locn.at 1 1) "Input prompt is not a string.") :=
  ⟨(Inpt_chck_table [] SymT.empty ex_ltrl_1 (Locn.at 1 1) .NoneTy).2.2 .Void "n"
      (Locn.at 1 17) (Locn.at 1 11) (Locn.at 1 1) .NoneTy .NoneTy rfl,
   (Inpt_chck_table [] SymT.empty ex_ltrl_1 (Locn.at 1 1) .NoneTy).2.1 .IntTy rfl
      (by decide)⟩
/-- After a successful check the type slot of the node holds the type
returned, the tree is the same up to type slots, and the slot of every
sub-expression holds what the check of that sub-expression returns. -/
theorem Expn.chck_slots (defs : Defs) (symt : SymT) (e : Expn) :
    ∀ (e1 : Expn) (T : Ty), Expn.chck defs symt e = (e1, .ok T) →
      e1.type = T ∧ e1.unset = e.unset ∧
      List.Forall₂ (fun s s1 => (Expn.chck defs symt s).2 = .ok s1.type) e.subs e1.subs := by
  induction e with
  | Plus left rght lo type ihl ihr =>
    intro e1 T h
    have h0 := h
    rcases hl : Expn.chck defs symt left with ⟨l1, e | tl⟩
    · simp [Expn.chck, hl] at h
    · rcases hr : Expn.chck defs symt rght with ⟨r1, e | tr⟩
      · simp [Expn.chck, hl, hr] at h
      · obtain ⟨_, hul, hfl⟩ := ihl l1 tl hl
        obtain ⟨_, hur, hfr⟩ := ihr r1 tr hr
        by_cases hc : (is_int tl && is_int tr) = true
        · simp [Expn.chck, hl, hr, hc] at h
          obtain ⟨h1, h2⟩ := h
          subst h1 h2
          refine ⟨rfl, by simp [Expn.unset, hul, hur], ?_⟩
          simp only [Expn.subs]
          exact List.Forall₂.cons (by rw [h0]; rfl) (List.rel_append hfl hfr)
        · simp [Expn.chck, hl, hr, hc] at h
  | Less left rght lo type ihl ihr =>
    intro e1 T h
    have h0 := h
    rcases hl : Expn.chck defs symt left with ⟨l1, e | tl⟩
    · simp [Expn.chck, hl] at h
    · rcases hr : Expn.chck defs symt rght with ⟨r1, e | tr⟩
      · simp [Expn.chck, hl, hr] at h
      · obtain ⟨_, hul, hfl⟩ := ihl l1 tl hl
        obtain ⟨_, hur, hfr⟩ := ihr r1 tr hr
        by_cases hc : Ty.op_eq tl tr = true
        · by_cases hi : is_int tl = true
          · simp [Expn.chck, hl, hr, hc, hi] at h
            obtain ⟨h1, h2⟩ := h
            subst h1 h2
            refine ⟨rfl, by simp [Expn.unset, hul, hur], ?_⟩
            simp only [Expn.subs]
            exact List.Forall₂.cons (by rw [h0]; rfl) (List.rel_append hfl hfr)
          · simp [Expn.chck, hl, hr, hc, hi] at h
        · simp [Expn.chck, hl, hr, hc] at h
  | And left rght lo type ihl ihr =>
    intro e1 T h
    have h0 := h
    rcases hl : Expn.chck defs symt left with ⟨l1, e | tl⟩
    · simp [Expn.chck, hl] at h
    · rcases hr : Expn.chck defs symt rght with ⟨r1, e | tr⟩
      · simp [Expn.chck, hl, hr] at h
      · obtain ⟨_, hul, hfl⟩ := ihl l1 tl hl
        obtain ⟨_, hur, hfr⟩ := ihr r1 tr hr
        by_cases hc : (is_bool tl && is_bool tr) = true
        · simp [Expn.chck, hl, hr, hc] at h
          obtain ⟨h1, h2⟩ := h
          subst h1 h2
          refine ⟨rfl, by simp [Expn.unset, hul, hur], ?_⟩
          simp only [Expn.subs]
          exact List.Forall₂.cons (by rw [h0]; rfl) (List.rel_append hfl hfr)
        · simp [Expn.chck, hl, hr, hc] at h
  | Ltrl valu lo type =>
    intro e1 T h
    have h0 := h
    cases valu <;> simp [Expn.chck] at h <;> obtain ⟨h1, h2⟩ := h <;> subst h1 h2 <;>
      exact ⟨rfl, rfl, List.Forall₂.cons (by rw [h0]; rfl) List.Forall₂.nil⟩
  | Lkup name lo type =>
    intro e1 T h
    have h0 := h
    by_cases hn : symt.has_info name = true
    · simp [Expn.chck, hn] at h
      obtain ⟨h1, h2⟩ := h
      subst h1
      refine ⟨h2, rfl, ?_⟩
      simp only [Expn.subs]
      exact List.Forall₂.cons (by rw [h0]; simp [Expn.type, h2]) List.Forall₂.nil
    · simp [Expn.chck, hn] at h
  | Inpt expn lo type ih =>
    intro e1 T h
    have h0 := h
    rcases he : Expn.chck defs symt expn with ⟨x1, e | t⟩
    · simp [Expn.chck, he] at h
    · obtain ⟨_, hu, hf⟩ := ih x1 t he
      by_cases hc : is_str t = true
      · simp [Expn.chck, he, hc] at h
        obtain ⟨h1, h2⟩ := h
        subst h1 h2
        refine ⟨rfl, by simp [Expn.unset, hu], ?_⟩
        simp only [Expn.subs]
        exact List.Forall₂.cons (by rw [h0]; rfl) hf
      · simp [Expn.chck, he, hc] at h

/-- C15: type-slot totality. If `e.chck` succeeds returning the type `T`, then
afterwards the type slot of `e` holds `T`, the expression is the same tree up
to type slots, and the type slot of every sub-expression of `e` holds the type
that the sub-expression's own `chck` returns; a literal checks, whatever its
slot held, and its type is `IntTy`, `StrTy`, `BoolTy` or `NoneTy` according to
the variant its value holds. -/
theorem Expn_chck_type_slots (defs : Defs) (symt : SymT) (e e1 : Expn) (T : Ty)
    (h : Expn.chck defs symt e = (e1, .ok T)) :
    e1.type = T ∧ e1.unset = e.unset ∧
    List.Forall₂ (fun s s1 => (Expn.chck defs symt s).2 = .ok s1.type) e.subs e1.subs ∧
    (∀ (valu : Valu) (lo : Locn) (type : Ty),
      Expn.chck defs symt (.Ltrl valu lo type) = (.Ltrl valu lo valu.type, .ok valu.type)) ∧
    ((∀ i : Int, Valu.type (.int i) = .IntTy) ∧ (∀ str : String, Valu.type (.string str) = .StrTy) ∧
      (∀ b : Bool, Valu.type (.bool b) = .BoolTy) ∧ Valu.type .none = .NoneTy) := by
  obtain ⟨h1, h2, h3⟩ := Expn.chck_slots defs symt e e1 T h
  refine ⟨h1, h2, h3, ?_, fun _ => rfl, fun _ => rfl, fun _ => rfl, rfl⟩
  intro valu lo type
  cases valu <;> rfl

/-- The check of `1 + 2` returns `IntTy` and sets the three type slots to
`IntTy`. -/
theorem Expn_chck_type_slots_witness :
    ex_plus_1_2_chckd.type = .IntTy ∧ ex_plus_1_2_chckd.unset = ex_plus_1_2.unset ∧
    List.Forall₂ (fun s s1 => (Expn.chck [] SymT.empty s).2 = .ok s1.type)
      ex_plus_1_2.subs ex_plus_1_2_chckd.subs :=
  have h := Expn_chck_type_slots [] SymT.empty ex_plus_1_2 ex_plus_1_2_chckd .IntTy rfl
  ⟨h.1, h.2.1, h.2.2.1⟩
/-! ## Translation: every step only appends to the code -/

theorem Plus_trans_appends (left_trans rght_trans : TransFn) (left_type rght_type type : Ty)
    (hl : ∀ d, Appends (left_trans d)) (hr : ∀ d, Appends (rght_trans d)) (dest : Name) :
    Appends (Plus.trans left_trans rght_trans left_type rght_type type dest) := by
  intro symt code
  unfold Plus.trans
  by_cases h : is_int type = true
  · simp only [h, if_true]
    generalize (symt.add_temp left_type).1 = srce1
    generalize ((symt.add_temp left_type).2.add_temp rght_type).1 = srce2
    generalize ((symt.add_temp left_type).2.add_temp rght_type).2 = symt2
    rw [hl srce1 symt2 code]
    rcases left_trans srce1 symt2 [] with _ | ⟨symt3, code1⟩
    · simp
    · simp only [Option.map_some']
      rw [hr srce2 symt3 (code ++ code1), hr srce2 symt3 code1]
      rcases rght_trans srce2 symt3 [] with _ | ⟨symt4, code2⟩
      · simp
      · simp
  · simp [h]

theorem Less_trans_cndn_appends (left_trans rght_trans : TransFn) (left_type rght_type : Ty)
    (hl : ∀ d, Appends (left_trans d)) (hr : ∀ d, Appends (rght_trans d))
    (then_lbl else_lbl : Labl) :
    Appends (Less.trans_cndn left_trans rght_trans left_type rght_type then_lbl else_lbl) := by
  intro symt code
  unfold Less.trans_cndn
  by_cases h : (is_int left_type && is_int rght_type) = true
  · simp only [h, if_true]
    generalize (symt.add_temp left_type).1 = srce1
    generalize ((symt.add_temp left_type).2.add_temp rght_type).1 = srce2
    generalize ((symt.add_temp left_type).2.add_temp rght_type).2 = symt2
    rw [hl srce1 symt2 code]
    rcases left_trans srce1 symt2 [] with _ | ⟨symt3, code1⟩
    · simp
    · simp only [Option.map_some']
      rw [hr srce2 symt3 (code ++ code1), hr srce2 symt3 code1]
      rcases rght_trans srce2 symt3 [] with _ | ⟨symt4, code2⟩
      · simp
      · simp
  · simp [h]

theorem Less_trans_appends (self_cndn : CndnFn) (hs : ∀ t e, Appends (self_cndn t e))
    (dest : Name) : Appends (Less.trans self_cndn dest) := by
  intro symt code
  unfold Less.trans
  simp only []
  rw [hs _ _ _ code]
  rcases self_cndn _ _ _ [] with _ | ⟨symt4, code1⟩
  · simp
  · simp

theorem And_trans_cndn_appends (left_cndn rght_cndn : CndnFn)
    (hl : ∀ t e, Appends (left_cndn t e)) (hr : ∀ t e, Appends (rght_cndn t e))
    (then_lbl else_lbl : Labl) :
    Appends (And.trans_cndn left_cndn rght_cndn then_lbl else_lbl) := by
  intro symt code
  unfold And.trans_cndn
  simp only []
  rw [hl _ _ _ code]
  rcases left_cndn _ _ _ [] with _ | ⟨symt2, code1⟩
  · simp
  · simp only [Option.map_some']
    rw [hr _ _ symt2 (code ++ code1 ++ _), hr _ _ symt2 (code1 ++ _)]
    rcases rght_cndn then_lbl else_lbl symt2 [] with _ | ⟨symt3, code2⟩
    · simp
    · simp

theorem And_trans_appends (self_cndn : CndnFn) (hs : ∀ t e, Appends (self_cndn t e))
    (dest : Name) : Appends (And.trans self_cndn dest) := by
  intro symt code
  unfold And.trans
  simp only []
  rw [hs _ _ _ code]
  rcases self_cndn _ _ _ [] with _ | ⟨symt4, code1⟩
  · simp
  · simp

theorem Ltrl_trans_appends (valu : Valu) (dest : Name) : Appends (Ltrl.trans valu dest) := by
  intro symt code
  cases valu with
  | bool b => cases b <;> simp [Ltrl.trans]
  | int i => simp [Ltrl.trans]
  | string str => simp [Ltrl.trans]
  | none => simp [Ltrl.trans]

theorem Ltrl_trans_cndn_appends (valu : Valu) (then_lbl else_lbl : Labl) :
    Appends (Ltrl.trans_cndn valu then_lbl else_lbl) := by
  intro symt code
  cases valu with
  | bool b => cases b <;> simp [Ltrl.trans_cndn]
  | int i => simp [Ltrl.trans_cndn]
  | string str => simp [Ltrl.trans_cndn]
  | none => simp [Ltrl.trans_cndn]

theorem Inpt_trans_appends (expn_trans : TransFn) (he : ∀ d, Appends (expn_trans d))
    (dest : Name) : Appends (Inpt.trans expn_trans dest) := by
  intro symt code
  unfold Inpt.trans
  simp only []
  rw [he _ _ code]
  rcases expn_trans _ _ [] with _ | ⟨symt2, code1⟩
  · simp
  · simp

/-- Both translations of an expression only append to the code. -/
theorem Expn_trans_appends (e : Expn) :
    (∀ dest, Appends (e.trans dest)) ∧ (∀ t l, Appends (e.trans_cndn t l)) := by
  induction e with
  | Plus left rght lo type ihl ihr =>
    refine ⟨fun dest => ?_, fun t l => ?_⟩
    · simp only [Expn.trans]
      exact Plus_trans_appends _ _ _ _ _ ihl.1 ihr.1 dest
    · intro symt code; simp [Expn.trans_cndn, Expn.trans_cndn_base]
  | Less left rght lo type ihl ihr =>
    have hc := Less_trans_cndn_appends left.trans rght.trans left.type rght.type ihl.1 ihr.1
    refine ⟨fun dest => ?_, fun t l => ?_⟩
    · simp only [Expn.trans]
      exact Less_trans_appends _ hc dest
    · simp only [Expn.trans_cndn]
      exact hc t l
  | And left rght lo type ihl ihr =>
    have hc := And_trans_cndn_appends left.trans_cndn rght.trans_cndn ihl.2 ihr.2
    refine ⟨fun dest => ?_, fun t l => ?_⟩
    · simp only [Expn.trans]
      exact And_trans_appends _ hc dest
    · simp only [Expn.trans_cndn]
      exact hc t l
  | Ltrl valu lo type =>
    refine ⟨fun dest => ?_, fun t l => ?_⟩
    · simp only [Expn.trans]; exact Ltrl_trans_appends valu dest
    · simp only [Expn.trans_cndn]; exact Ltrl_trans_cndn_appends valu t l
  | Lkup name lo type =>
    refine ⟨fun dest => ?_, fun t l => ?_⟩
    · intro symt code; simp [Expn.trans, Lkup.trans]
    · intro symt code; simp [Expn.trans_cndn, Lkup.trans_cndn]
  | Inpt expn lo type ih =>
    refine ⟨fun dest => ?_, fun t l => ?_⟩
    · simp only [Expn.trans]
      exact Inpt_trans_appends _ ih.1 dest
    · intro symt code; simp [Expn.trans_cndn, Expn.trans_cndn_base]
theorem Stmt_trans_appends (glbls : StrgLbls) (stmt : Stmt) (exit : Labl) :
    Appends (stmt.trans glbls exit) := by
  intro symt code
  cases stmt with
  | Ntro name type expn lo =>
    simp only [Stmt.trans, Ntro.trans]
    exact (Expn_trans_appends expn).1 name symt code
  | Asgn name expn lo =>
    simp only [Stmt.trans, Asgn.trans]
    exact (Expn_trans_appends expn).1 name symt code
  | Prnt expn lo =>
    have hv : Appends (fun symt code => Prnt.trans_valu glbls symt code expn) := by
      intro symt code
      simp only [Prnt.trans_valu]
      cases expn.type with
      | IntTy =>
        simp only []
        rw [(Expn_trans_appends expn).1 _ _ code]
        rcases expn.trans _ _ [] with _ | ⟨symt2, code1⟩ <;> simp
      | StrTy =>
        simp only []
        rw [(Expn_trans_appends expn).1 _ _ code]
        rcases expn.trans _ _ [] with _ | ⟨symt2, code1⟩ <;> simp
      | BoolTy =>
        simp only []
        rw [(Expn_trans_appends expn).2 _ _ _ code]
        rcases expn.trans_cndn _ _ _ [] with _ | ⟨symt2, code1⟩ <;> simp
      | NoneTy =>
        simp only []
        rw [(Expn_trans_appends expn).1 _ _ code]
        rcases expn.trans _ _ [] with _ | ⟨symt2, code1⟩ <;> simp
    simp only [Stmt.trans, Prnt.trans]
    have hv1 : Prnt.trans_valu glbls symt code expn =
        (Prnt.trans_valu glbls symt [] expn).map (fun r => (r.1, code ++ r.2)) := hv symt code
    rw [hv1]
    rcases Prnt.trans_valu glbls symt [] expn with _ | ⟨symt1, code1⟩ <;> simp
  | Pass lo => simp [Stmt.trans, Pass.trans]
  | PRtn lo => simp [Stmt.trans, PRtn.trans]
  | FRtn expn lo =>
    simp only [Stmt.trans, FRtn.trans]
    rw [(Expn_trans_appends expn).1 _ _ code]
    rcases expn.trans _ _ [] with _ | ⟨symt2, code1⟩ <;> simp

theorem Blck.trans_loop_appends (glbls : StrgLbls) (exit : Labl) (stmts : List Stmt) :
    Appends (Blck.trans_loop glbls exit stmts) := by
  induction stmts with
  | nil => intro symt code; simp [Blck.trans_loop]
  | cons stmt rest ih =>
    intro symt code
    simp only [Blck.trans_loop]
    rw [Stmt_trans_appends glbls stmt exit symt code]
    rcases stmt.trans glbls exit symt [] with _ | ⟨symt1, code1⟩
    · simp
    · simp only [Option.map_some']
      rw [ih symt1 (code ++ code1), ih symt1 code1]
      rcases Blck.trans_loop glbls exit rest symt1 [] with _ | ⟨symt2, code2⟩ <;> simp

theorem Blck_trans_appends (glbls : StrgLbls) (blck : Blck) (exit : Labl) :
    Appends (blck.trans glbls exit) :=
  Blck.trans_loop_appends glbls exit blck.stmts

/-! ## Translation: the frame of a definition -/

/-- C16: for a definition named `f` whose code vector is empty, `Defn::trans`
produces exactly `[LBL d, ENTER] ++ body_code ++ [LBL x, LEAVE]`, where `d` is
the label `add_labl(f)` returns, `x` the label `add_labl(f + "_done")` returns
next, and `body_code` is what `Blck::trans` emits for the body with exit label
`x`; it produces no code exactly when the translation of the body throws.
`Prgm::trans` produces the same frame in `main_code` for the main block, with
the labels obtained for `"main"` and `"main_done"` from the main table. -/
theorem Defn_trans_frame (glbls : StrgLbls) (defn : Defn) (prgm : Prgm)
    (h : defn.code = []) :
    Defn.trans glbls defn =
      (defn.body.trans glbls defn.ext_lbl defn.body_symt []).map (fun r =>
        { defn with
          symt := r.1,
          code := [.LBL defn.def_lbl, .ENTER] ++ r.2 ++ [.LBL defn.ext_lbl, .LEAVE] }) ∧
    Prgm.trans prgm =
      (Prgm.trans_defs Prgm.trans_glbls.1 Prgm.trans_glbls.2 [] prgm.defs).bind (fun g =>
        (prgm.main.trans Prgm.trans_glbls.1 (prgm.ext_lbl g.1) (prgm.body_symt g.1) []).map
          (fun r =>
            ({ prgm with
               defs := g.2, main_symt := r.1,
               main_code := [.LBL (prgm.def_lbl g.1), .ENTER] ++ r.2
                 ++ [.LBL (prgm.ext_lbl g.1), .LEAVE],
               glbl_symt_ptr := some { g.1 with strgs := r.1.strgs } },
              Prgm.trans_glbls.1))) := by
  constructor
  · simp only [Defn.trans, Defn.ext_lbl, Defn.def_lbl, Defn.body_symt, h, List.nil_append]
    rw [Blck_trans_appends glbls defn.body _ _ [.LBL _, .ENTER]]
    rcases defn.body.trans glbls _ _ [] with _ | ⟨symt3, code1⟩ <;> simp
  · simp only [Prgm.trans, Prgm.ext_lbl, Prgm.def_lbl, Prgm.body_symt, Prgm.main_symt1,
      List.nil_append]
    rcases Prgm.trans_defs Prgm.trans_glbls.1 Prgm.trans_glbls.2 [] prgm.defs with
      _ | ⟨glbl1, defs1⟩
    · simp
    · simp only [Option.some_bind]
      rw [Blck_trans_appends _ prgm.main _ _ [.LBL _, .ENTER]]
      rcases prgm.main.trans _ _ _ [] with _ | ⟨symt4, code1⟩ <;> simp

/-- The definition `def f() -> int: return 0` translates to the frame
`LBL f; ENTER; SET $t0,0; RTN $t0; JMP f_done; LBL f_done; LEAVE`. -/
theorem Defn_trans_frame_witness :
    (Defn.trans Prgm.trans_glbls.1 ex_defn_f).map Defn.code =
      some [.LBL "f", .ENTER, .SET "$t0" 0, .RTN "$t0", .JMP "f_done",
        .LBL "f_done", .LEAVE] := by
  rw [(Defn_trans_frame Prgm.trans_glbls.1 ex_defn_f (ex_prgm []) rfl).1]
  decide
/-! ## Translation: short-circuit `and`, `print` -/

/-- C20: short-circuit lowering of `and`. For every `And(l, r)` and labels
`then`, `else`, `And::trans_cndn` mints one label `Lc` (the one `add_labl()`
returns on the table it is given) and appends exactly
`cond(l; Lc, else) ++ [LBL Lc] ++ cond(r; then, else)`, where `cond(x; a, b)`
is what `x.trans_cndn(a, b)` emits, for `l` on the table after the minting and
for `r` on the table `l` left; it throws exactly when one of the two does. So
the false exit of `l` is `else` itself and all code of `r` lies after
`LBL Lc`. In particular, when `l` is the literal `False` the first instruction
emitted is `JMP else`, followed by `LBL Lc`, and only then the code of `r`. -/
theorem And_trans_cndn_short_circuit (left rght : Expn) (lo : Locn) (type : Ty)
    (then_lbl else_lbl : Labl) (symt : SymT) (code : INST_vec) :
    Expn.trans_cndn (.And left rght lo type) then_lbl else_lbl symt code =
      (left.trans_cndn symt.add_labl.1 else_lbl symt.add_labl.2 []).bind (fun rl =>
        (rght.trans_cndn then_lbl else_lbl rl.1 []).map (fun rr =>
          (rr.1, code ++ rl.2 ++ [.LBL symt.add_labl.1] ++ rr.2))) ∧
    (∀ (lo1 : Locn) (type1 : Ty),
      Expn.trans_cndn (.And (.Ltrl (.bool false) lo1 type1) rght lo type)
          then_lbl else_lbl symt [] =
        (rght.trans_cndn then_lbl else_lbl symt.add_labl.2 []).map (fun rr =>
          (rr.1, [.JMP else_lbl, .LBL symt.add_labl.1] ++ rr.2))) := by
  constructor
  · simp only [Expn.trans_cndn, And.trans_cndn]
    rw [(Expn_trans_appends left).2 _ _ _ code]
    rcases left.trans_cndn _ _ _ [] with _ | ⟨symt2, code1⟩
    · simp
    · simp only [Option.map_some', Option.some_bind]
      rw [(Expn_trans_appends rght).2 _ _ symt2 (code ++ code1 ++ _)]
  · intro lo1 type1
    simp only [Expn.trans_cndn, And.trans_cndn, Ltrl.trans_cndn]
    simp only [Bool.false_eq_true, if_false, List.nil_append]
    exact (Expn_trans_appends rght).2 _ _ _ _

/-- The condition `False and b` with labels `Lt`, `Lf` on the empty table:
`JMP Lf; LBL $L0; BCZ gtz,b,Lt,Lf`. -/
theorem And_trans_cndn_short_circuit_witness :
    Expn.trans_cndn ex_and_false_b "Lt" "Lf" SymT.empty [] =
      some (SymT.empty.add_labl.2,
        [.JMP "Lf", .LBL "$L0", .BCZ "gtz" "b" "Lt" "Lf"]) :=
  ((And_trans_cndn_short_circuit (.Ltrl (.bool false) (Locn.at 1 4) .BoolTy)
      (.Lkup "b" (Locn.at 1 14) .BoolTy) (Locn.at 1 10) .BoolTy "Lt" "Lf" SymT.empty []).2
      (Locn.at 1 4) .BoolTy).trans (by decide)

/-- C19: for every `Prnt(e)`, whatever the type slot of `e`, the code
`Prnt::trans` appends ends with `STL u, EOLN_LBL; PTS u`, where `u` is the
`Str` temporary minted last, on the table everything else in the statement
left; the statement throws exactly when its type-specific part does. When `e`
has type `Int` the whole output is: the value-mode code of `e` into the `Int`
temporary `t` minted first, then `PTI t`, then `STL u, EOLN_LBL; PTS u`. The
table records `u` as a temporary of type `StrTy`. -/
theorem Prnt_trans_eoln (glbls : StrgLbls) (exit : Labl) (symt : SymT) (code : INST_vec)
    (expn : Expn) :
    Prnt.trans glbls exit symt code expn =
      (Prnt.trans_valu glbls symt [] expn).map (fun r =>
        ((r.1.add_temp .StrTy).2,
          code ++ r.2 ++ [.STL (r.1.add_temp .StrTy).1 glbls.EOLN_STRG_LBL,
            .PTS (r.1.add_temp .StrTy).1])) ∧
    (expn.type = .IntTy →
      Prnt.trans glbls exit symt code expn =
        (expn.trans (symt.add_temp .IntTy).1 (symt.add_temp .IntTy).2 []).map (fun r =>
          ((r.1.add_temp .StrTy).2,
            code ++ r.2 ++ [.PTI (symt.add_temp .IntTy).1,
              .STL (r.1.add_temp .StrTy).1 glbls.EOLN_STRG_LBL,
              .PTS (r.1.add_temp .StrTy).1]))) ∧
    (∀ s : SymT, (s.add_temp .StrTy).2.info =
      s.info ++ [((s.add_temp .StrTy).1, ⟨.Temp, .StrTy, s.info.length⟩)]) := by
  have hv : Prnt.trans_valu glbls symt code expn =
      (Prnt.trans_valu glbls symt [] expn).map (fun r => (r.1, code ++ r.2)) := by
    simp only [Prnt.trans_valu]
    cases expn.type with
    | IntTy =>
      simp only []
      rw [(Expn_trans_appends expn).1 _ _ code]
      rcases expn.trans _ _ [] with _ | ⟨symt2, code1⟩ <;> simp
    | StrTy =>
      simp only []
      rw [(Expn_trans_appends expn).1 _ _ code]
      rcases expn.trans _ _ [] with _ | ⟨symt2, code1⟩ <;> simp
    | BoolTy =>
      simp only []
      rw [(Expn_trans_appends expn).2 _ _ _ code]
      rcases expn.trans_cndn _ _ _ [] with _ | ⟨symt2, code1⟩ <;> simp
    | NoneTy =>
      simp only []
      rw [(Expn_trans_appends expn).1 _ _ code]
      rcases expn.trans _ _ [] with _ | ⟨symt2, code1⟩ <;> simp
  have h1 : Prnt.trans glbls exit symt code expn =
      (Prnt.trans_valu glbls symt [] expn).map (fun r =>
        ((r.1.add_temp .StrTy).2,
          code ++ r.2 ++ [.STL (r.1.add_temp .StrTy).1 glbls.EOLN_STRG_LBL,
            .PTS (r.1.add_temp .StrTy).1])) := by
    simp only [Prnt.trans]
    rw [hv]
    rcases Prnt.trans_valu glbls symt [] expn with _ | ⟨symt1, code1⟩ <;> simp
  refine ⟨h1, ?_, fun _ => rfl⟩
  intro ht
  rw [h1]
  simp only [Prnt.trans_valu, ht]
  rcases expn.trans _ _ [] with _ | ⟨symt2, code1⟩ <;> simp

/-- The statement `print(1 + 2)` on the empty table yields the six
instructions `SET a,1; SET b,2; ADD c,a,b; PTI c; STL u,EOLN_LBL; PTS u` with
`a`, `b`, `c`, `u` the distinct temporaries `$t1`, `$t2`, `$t0`, `$t3`. -/
theorem Prnt_trans_eoln_witness :
    (Prnt.trans Prgm.trans_glbls.1 "main_done" SymT.empty [] ex_plus_1_2_chckd).map Prod.snd =
      some [.SET "$t1" 1, .SET "$t2" 2, .ADD "$t0" "$t1" "$t2", .PTI "$t0",
        .STL "$t3" Prgm.trans_glbls.1.EOLN_STRG_LBL, .PTS "$t3"] ∧
    ["$t1", "$t2", "$t0", "$t3"].Nodup := by
  constructor
  · rw [(Prnt_trans_eoln Prgm.trans_glbls.1 "main_done" SymT.empty [] ex_plus_1_2_chckd).2.1 rfl]
    decide
  · decide
/-! ## Translation: returns jump to the exit label -/

theorem Plus_trans_NoRTN (left_trans rght_trans : TransFn) (left_type rght_type type : Ty)
    (hl : ∀ d, NoRTN (left_trans d)) (hr : ∀ d, NoRTN (rght_trans d)) (dest : Name) :
    NoRTN (Plus.trans left_trans rght_trans left_type rght_type type dest) := by
  intro symt code r h hc
  unfold Plus.trans at h
  by_cases ht : is_int type = true
  · simp only [ht, if_true] at h
    rcases h1 : left_trans (symt.add_temp left_type).1
        ((symt.add_temp left_type).2.add_temp rght_type).2 code with _ | ⟨symt3, code1⟩
    · simp [h1] at h
    · rcases h2 : rght_trans ((symt.add_temp left_type).2.add_temp rght_type).1 symt3 code1
        with _ | ⟨symt4, code2⟩
      · simp [h1, h2] at h
      · simp [h1, h2] at h
        subst h
        have := hr _ _ _ _ h2 (hl _ _ _ _ h1 hc)
        simp_all [INST.is_RTN]
  · simp [ht] at h
    subst h
    exact hc

theorem Less_trans_cndn_NoRTN (left_trans rght_trans : TransFn) (left_type rght_type : Ty)
    (hl : ∀ d, NoRTN (left_trans d)) (hr : ∀ d, NoRTN (rght_trans d))
    (then_lbl else_lbl : Labl) :
    NoRTN (Less.trans_cndn left_trans rght_trans left_type rght_type then_lbl else_lbl) := by
  intro symt code r h hc
  unfold Less.trans_cndn at h
  by_cases ht : (is_int left_type && is_int rght_type) = true
  · simp only [ht, if_true] at h
    rcases h1 : left_trans (symt.add_temp left_type).1
        ((symt.add_temp left_type).2.add_temp rght_type).2 code with _ | ⟨symt3, code1⟩
    · simp [h1] at h
    · rcases h2 : rght_trans ((symt.add_temp left_type).2.add_temp rght_type).1 symt3 code1
        with _ | ⟨symt4, code2⟩
      · simp [h1, h2] at h
      · simp [h1, h2] at h
        subst h
        have := hr _ _ _ _ h2 (hl _ _ _ _ h1 hc)
        simp_all [INST.is_RTN]
  · simp [ht] at h
    subst h
    exact hc

theorem Less_trans_NoRTN (self_cndn : CndnFn) (hs : ∀ t e, NoRTN (self_cndn t e))
    (dest : Name) : NoRTN (Less.trans self_cndn dest) := by
  intro symt code r h hc
  unfold Less.trans at h
  simp only [] at h
  rcases h1 : self_cndn symt.add_labl.1 symt.add_labl.2.add_labl.1
      symt.add_labl.2.add_labl.2.add_labl.2 code with _ | ⟨symt4, code1⟩
  · simp [h1] at h
  · simp [h1] at h
    subst h
    have := hs _ _ _ _ _ h1 hc
    simp_all [INST.is_RTN]

theorem And_trans_cndn_NoRTN (left_cndn rght_cndn : CndnFn)
    (hl : ∀ t e, NoRTN (left_cndn t e)) (hr : ∀ t e, NoRTN (rght_cndn t e))
    (then_lbl else_lbl : Labl) :
    NoRTN (And.trans_cndn left_cndn rght_cndn then_lbl else_lbl) := by
  intro symt code r h hc
  unfold And.trans_cndn at h
  simp only [] at h
  rcases h1 : left_cndn symt.add_labl.1 else_lbl symt.add_labl.2 code with _ | ⟨symt2, code1⟩
  · simp [h1] at h
  · simp only [h1] at h
    have h2 := hl _ _ _ _ _ h1 hc
    exact hr _ _ _ _ _ h (by simp_all [INST.is_RTN])

theorem And_trans_NoRTN (self_cndn : CndnFn) (hs : ∀ t e, NoRTN (self_cndn t e))
    (dest : Name) : NoRTN (And.trans self_cndn dest) := by
  intro symt code r h hc
  unfold And.trans at h
  simp only [] at h
  rcases h1 : self_cndn symt.add_labl.1 symt.add_labl.2.add_labl.1
      symt.add_labl.2.add_labl.2.add_labl.2 code with _ | ⟨symt4, code1⟩
  · simp [h1] at h
  · simp [h1] at h
    subst h
    have := hs _ _ _ _ _ h1 hc
    simp_all [INST.is_RTN]

theorem Inpt_trans_NoRTN (expn_trans : TransFn) (he : ∀ d, NoRTN (expn_trans d))
    (dest : Name) : NoRTN (Inpt.trans expn_trans dest) := by
  intro symt code r h hc
  unfold Inpt.trans at h
  simp only [] at h
  rcases h1 : expn_trans (symt.add_temp .StrTy).1 (symt.add_temp .StrTy).2 code
    with _ | ⟨symt2, code1⟩
  · simp [h1] at h
  · simp [h1] at h
    subst h
    have := he _ _ _ _ h1 hc
    simp_all [INST.is_RTN]

/-- The translations of an expression put no `RTN` into the code. -/
theorem Expn_trans_NoRTN (e : Expn) :
    (∀ dest, NoRTN (e.trans dest)) ∧ (∀ t l, NoRTN (e.trans_cndn t l)) := by
  induction e with
  | Plus left rght lo type ihl ihr =>
    refine ⟨fun dest => ?_, fun t l => ?_⟩
    · simp only [Expn.trans]
      exact Plus_trans_NoRTN _ _ _ _ _ ihl.1 ihr.1 dest
    · intro symt code r h hc
      simp [Expn.trans_cndn, Expn.trans_cndn_base] at h
      subst h; exact hc
  | Less left rght lo type ihl ihr =>
    have hc := Less_trans_cndn_NoRTN left.trans rght.trans left.type rght.type ihl.1 ihr.1
    refine ⟨fun dest => ?_, fun t l => ?_⟩
    · simp only [Expn.trans]
      exact Less_trans_NoRTN _ hc dest
    · simp only [Expn.trans_cndn]
      exact hc t l
  | And left rght lo type ihl ihr =>
    have hc := And_trans_cndn_NoRTN left.trans_cndn rght.trans_cndn ihl.2 ihr.2
    refine ⟨fun dest => ?_, fun t l => ?_⟩
    · simp only [Expn.trans]
      exact And_trans_NoRTN _ hc dest
    · simp only [Expn.trans_cndn]
      exact hc t l
  | Ltrl valu lo type =>
    refine ⟨fun dest => ?_, fun t l => ?_⟩
    · intro symt code r h hc
      cases valu with
      | bool b => cases b <;> simp [Expn.trans, Ltrl.trans] at h <;> subst h <;>
          simp_all [INST.is_RTN]
      | int i => simp [Expn.trans, Ltrl.trans] at h; subst h; simp_all [INST.is_RTN]
      | string str => simp [Expn.trans, Ltrl.trans] at h; subst h; simp_all [INST.is_RTN]
      | none => simp [Expn.trans, Ltrl.trans] at h; subst h; simp_all [INST.is_RTN]
    · intro symt code r h hc
      cases valu with
      | bool b => cases b <;> simp [Expn.trans_cndn, Ltrl.trans_cndn] at h <;> subst h <;>
          simp_all [INST.is_RTN]
      | int i => simp [Expn.trans_cndn, Ltrl.trans_cndn] at h
      | string str => simp [Expn.trans_cndn, Ltrl.trans_cndn] at h
      | none => simp [Expn.trans_cndn, Ltrl.trans_cndn] at h
  | Lkup name lo type =>
    refine ⟨fun dest => ?_, fun t l => ?_⟩
    · intro symt code r h hc
      simp [Expn.trans, Lkup.trans] at h; subst h; simp_all [INST.is_RTN]
    · intro symt code r h hc
      simp [Expn.trans_cndn, Lkup.trans_cndn] at h; subst h; simp_all [INST.is_RTN]
  | Inpt expn lo type ih =>
    refine ⟨fun dest => ?_, fun t l => ?_⟩
    · simp only [Expn.trans]
      exact Inpt_trans_NoRTN _ ih.1 dest
    · intro symt code r h hc
      simp [Expn.trans_cndn, Expn.trans_cndn_base] at h
      subst h; exact hc
theorem rtns_jump_to_of_no_RTN (exit : Labl) (code : INST_vec)
    (h : code.all (fun i => !i.is_RTN) = true) : rtns_jump_to exit code = true := by
  induction code with
  | nil => rfl
  | cons i rest ih =>
    simp only [List.all_cons, Bool.and_eq_true] at h
    cases i <;> simp_all [rtns_jump_to, INST.is_RTN]

theorem rtns_jump_to_append (exit : Labl) (a b : INST_vec)
    (ha : rtns_jump_to exit a = true) (hb : rtns_jump_to exit b = true) :
    rtns_jump_to exit (a ++ b) = true := by
  induction a with
  | nil => simpa using hb
  | cons i rest ih =>
    cases i with
    | RTN srce =>
      cases rest with
      | nil => simp [rtns_jump_to] at ha
      | cons j rest1 =>
        cases j <;> simp [rtns_jump_to] at ha
        rename_i labl
        have h1 := ih ha.2
        simp only [List.cons_append] at h1 ⊢
        simp only [rtns_jump_to] at h1
        simp [rtns_jump_to, ha.1, h1]
    | _ =>
      simp only [rtns_jump_to] at ha
      simp only [List.cons_append, rtns_jump_to]
      exact ih ha

/-- In the code a statement emits, every `RTN` is immediately followed by
`JMP exit`. -/
theorem Stmt.trans_rtns_jump (glbls : StrgLbls) (stmt : Stmt) (exit : Labl) (symt : SymT)
    (r : SymT × INST_vec) (h : stmt.trans glbls exit symt [] = some r) :
    rtns_jump_to exit r.2 = true := by
  have hnil : ([] : INST_vec).all (fun i => !i.is_RTN) = true := rfl
  cases stmt with
  | Ntro name type expn lo =>
    simp only [Stmt.trans, Ntro.trans] at h
    exact rtns_jump_to_of_no_RTN _ _ ((Expn_trans_NoRTN expn).1 _ _ _ _ h hnil)
  | Asgn name expn lo =>
    simp only [Stmt.trans, Asgn.trans] at h
    exact rtns_jump_to_of_no_RTN _ _ ((Expn_trans_NoRTN expn).1 _ _ _ _ h hnil)
  | Prnt expn lo =>
    apply rtns_jump_to_of_no_RTN
    simp only [Stmt.trans, Prnt.trans] at h
    rcases hv : Prnt.trans_valu glbls symt [] expn with _ | ⟨symt1, code1⟩
    · simp [hv] at h
    · simp [hv] at h
      subst h
      have hc : code1.all (fun i => !i.is_RTN) = true := by
        simp only [Prnt.trans_valu] at hv
        cases ht : expn.type with
        | IntTy =>
          simp only [ht] at hv
          rcases he : expn.trans (symt.add_temp .IntTy).1 (symt.add_temp .IntTy).2 [] with
            _ | ⟨symt2, code2⟩
          · simp [he] at hv
          · simp [he] at hv
            have := (Expn_trans_NoRTN expn).1 _ _ _ _ he hnil
            obtain ⟨_, hv2⟩ := hv
            subst hv2
            simp_all [INST.is_RTN]
        | StrTy =>
          simp only [ht] at hv
          rcases he : expn.trans (symt.add_temp .StrTy).1 (symt.add_temp .StrTy).2 [] with
            _ | ⟨symt2, code2⟩
          · simp [he] at hv
          · simp [he] at hv
            have := (Expn_trans_NoRTN expn).1 _ _ _ _ he hnil
            obtain ⟨_, hv2⟩ := hv
            subst hv2
            simp_all [INST.is_RTN]
        | BoolTy =>
          simp only [ht] at hv
          rcases he : expn.trans_cndn symt.add_labl.1 symt.add_labl.2.add_labl.1
              (symt.add_labl.2.add_labl.2.add_labl.2.add_temp .BoolTy).2 [] with
            _ | ⟨symt2, code2⟩
          · simp [he] at hv
          · simp [he] at hv
            have := (Expn_trans_NoRTN expn).2 _ _ _ _ _ he hnil
            obtain ⟨_, hv2⟩ := hv
            subst hv2
            simp_all [INST.is_RTN]
        | NoneTy =>
          simp only [ht] at hv
          rcases he : expn.trans (symt.add_temp .NoneTy).1
              ((symt.add_temp .NoneTy).2.add_temp .StrTy).2 [] with _ | ⟨symt2, code2⟩
          · simp [he] at hv
          · simp [he] at hv
            have := (Expn_trans_NoRTN expn).1 _ _ _ _ he hnil
            obtain ⟨_, hv2⟩ := hv
            subst hv2
            simp_all [INST.is_RTN]
      simp_all [INST.is_RTN]
  | Pass lo =>
    simp [Stmt.trans, Pass.trans] at h
    subst h; rfl
  | PRtn lo =>
    simp [Stmt.trans, PRtn.trans] at h
    subst h
    simp [rtns_jump_to]
  | FRtn expn lo =>
    simp only [Stmt.trans, FRtn.trans] at h
    rcases he : expn.trans (symt.add_temp expn.type).1 (symt.add_temp expn.type).2 [] with
      _ | ⟨symt2, code2⟩
    · simp [he] at h
    · simp [he] at h
      subst h
      exact rtns_jump_to_append _ _ _
        (rtns_jump_to_of_no_RTN _ _ ((Expn_trans_NoRTN expn).1 _ _ _ _ he hnil))
        (by simp [rtns_jump_to])

theorem Blck.trans_loop_rtns_jump (glbls : StrgLbls) (exit : Labl) (stmts : List Stmt) :
    ∀ (symt : SymT) (r : SymT × INST_vec),
      Blck.trans_loop glbls exit stmts symt [] = some r → rtns_jump_to exit r.2 = true := by
  induction stmts with
  | nil =>
    intro symt r h
    simp [Blck.trans_loop] at h
    subst h; rfl
  | cons stmt rest ih =>
    intro symt r h
    simp only [Blck.trans_loop] at h
    rcases hs : stmt.trans glbls exit symt [] with _ | ⟨symt1, code1⟩
    · simp [hs] at h
    · simp only [hs] at h
      rw [Blck.trans_loop_appends glbls exit rest symt1 code1] at h
      rcases hr : Blck.trans_loop glbls exit rest symt1 [] with _ | ⟨symt2, code2⟩
      · simp [hr] at h
      · simp [hr] at h
        subst h
        exact rtns_jump_to_append _ _ _ (Stmt.trans_rtns_jump glbls stmt exit symt _ hs)
          (ih symt1 _ hr)

/-- C17, counterexample: the exit label is not the only label targeted by a
`JMP` emitted for a return statement. The definition
`def f() -> bool: return 1 < 2` checks, its body is the one return statement,
and the code `Defn::trans` produces for it contains `JMP $L3`, emitted by the
value code of the returned comparison, where the exit label is `f_done`. -/
theorem FRtn_trans_JMP_not_exit :
    Defn.chck [] ex_defn_h0 = (ex_defn_h, .ok ()) ∧
    (Defn.trans Prgm.trans_glbls.1 ex_defn_h).map (fun d => d.code) =
      some [.LBL "f", .ENTER, .SET "$t4" 1, .SET "$t5" 2, .BCN "lt" "$t4" "$t5" "$L1" "$L2",
        .LBL "$L1", .SET "$t0" 1, .JMP "$L3", .LBL "$L2", .SET "$t0" 0, .LBL "$L3",
        .RTN "$t0", .JMP "f_done", .LBL "f_done", .LEAVE] ∧
    ex_defn_h.ext_lbl = "f_done" ∧
    (Stmt.trans Prgm.trans_glbls.1 ex_return_less "f_done" ex_defn_h.body_symt []).map
      (fun r => decide (INST.JMP "$L3" ∈ r.2)) = some true ∧
    "$L3" ≠ "f_done" :=
  ⟨rfl, by decide, by decide, by decide, by decide⟩

/-- C17, amended: in the code `Blck::trans` emits for any block and exit label, and in
the code `Defn::trans` produces for a definition, every `RTN` instruction is
immediately followed by a `JMP` to the exit label (for a definition: the label
obtained for `name + "_done"`). The two return statements emit, after the
value code of the returned expression, exactly `RTN t; JMP exit` (`FRtn`) and
exactly `SET t,0; RTN t; JMP exit` (`PRtn`), so the jump a return statement
itself pushes after its `RTN` targets the exit label and no other; the jumps
inside the value code of the returned expression are not constrained. -/
theorem RTN_followed_by_JMP_exit (glbls : StrgLbls) (exit : Labl) (symt : SymT)
    (code : INST_vec) :
    (∀ (blck : Blck) (r : SymT × INST_vec),
      blck.trans glbls exit symt [] = some r → rtns_jump_to exit r.2 = true) ∧
    (∀ defn defn1 : Defn, defn.code = [] → Defn.trans glbls defn = some defn1 →
      rtns_jump_to defn.ext_lbl defn1.code = true) ∧
    (∀ expn : Expn, FRtn.trans exit symt code expn =
      (expn.trans (symt.add_temp expn.type).1 (symt.add_temp expn.type).2 []).map (fun r =>
        (r.1, code ++ r.2 ++ [.RTN (symt.add_temp expn.type).1, .JMP exit]))) ∧
    PRtn.trans exit symt code =
      some ((symt.add_temp .NoneTy).2,
        code ++ [.SET (symt.add_temp .NoneTy).1 0, .RTN (symt.add_temp .NoneTy).1,
          .JMP exit]) := by
  refine ⟨?_, ?_, ?_, rfl⟩
  · intro blck r h
    exact Blck.trans_loop_rtns_jump glbls exit blck.stmts symt r h
  · intro defn defn1 hc h
    simp only [Defn.trans, hc, List.nil_append] at h
    rw [Blck_trans_appends glbls defn.body _ _ [.LBL _, .ENTER]] at h
    rcases hb : defn.body.trans glbls defn.ext_lbl defn.body_symt [] with _ | ⟨symt3, code1⟩
    · simp [Defn.ext_lbl, Defn.body_symt] at hb
      simp [hb] at h
    · have hj := Blck.trans_loop_rtns_jump glbls _ defn.body.stmts _ _ hb
      simp [Defn.ext_lbl, Defn.body_symt] at hb
      simp [hb] at h
      subst h
      simp only []
      have h1 := rtns_jump_to_append defn.ext_lbl code1 [.LBL defn.ext_lbl, .LEAVE] hj rfl
      have h2 := rtns_jump_to_append defn.ext_lbl [.LBL defn.def_lbl, .ENTER] _ rfl h1
      simpa [Defn.ext_lbl, Defn.def_lbl] using h2
  · intro expn
    simp only [FRtn.trans]
    rw [(Expn_trans_appends expn).1 _ _ code]
    rcases expn.trans _ _ [] with _ | ⟨symt2, code1⟩ <;> simp

/-- In the code of `def f() -> int: return 0` the `RTN` is followed by
`JMP f_done`; it is not followed by a jump to any other label. -/
theorem RTN_followed_by_JMP_exit_witness :
    (∀ defn1 : Defn, Defn.trans Prgm.trans_glbls.1 ex_defn_f = some defn1 →
      rtns_jump_to "f_done" defn1.code = true) ∧
    (Defn.trans Prgm.trans_glbls.1 ex_defn_f).map (fun d => rtns_jump_to "f" d.code)
      = some false :=
  ⟨fun defn1 h =>
      (RTN_followed_by_JMP_exit Prgm.trans_glbls.1 "f_done" SymT.empty []).2.1
        ex_defn_f defn1 rfl h,
   by decide⟩
/-! ## Translation of checked code returns -/

theorem Plus_trans_returns (left_trans rght_trans : TransFn) (left_type rght_type type : Ty)
    (hl : ∀ d, Returns (left_trans d)) (hr : ∀ d, Returns (rght_trans d)) (dest : Name) :
    Returns (Plus.trans left_trans rght_trans left_type rght_type type dest) := by
  intro symt code
  unfold Plus.trans
  by_cases ht : is_int type = true
  · simp only [ht, if_true]
    obtain ⟨⟨symt3, code1⟩, h1⟩ := hl (symt.add_temp left_type).1
      ((symt.add_temp left_type).2.add_temp rght_type).2 code
    obtain ⟨⟨symt4, code2⟩, h2⟩ := hr ((symt.add_temp left_type).2.add_temp rght_type).1
      symt3 code1
    simp only [h1, h2]
    exact ⟨_, rfl⟩
  · simp only [ht]
    exact ⟨_, rfl⟩

theorem Less_trans_cndn_returns (left_trans rght_trans : TransFn) (left_type rght_type : Ty)
    (hl : ∀ d, Returns (left_trans d)) (hr : ∀ d, Returns (rght_trans d))
    (then_lbl else_lbl : Labl) :
    Returns (Less.trans_cndn left_trans rght_trans left_type rght_type then_lbl else_lbl) := by
  intro symt code
  unfold Less.trans_cndn
  by_cases ht : (is_int left_type && is_int rght_type) = true
  · simp only [ht, if_true]
    obtain ⟨⟨symt3, code1⟩, h1⟩ := hl (symt.add_temp left_type).1
      ((symt.add_temp left_type).2.add_temp rght_type).2 code
    obtain ⟨⟨symt4, code2⟩, h2⟩ := hr ((symt.add_temp left_type).2.add_temp rght_type).1
      symt3 code1
    simp only [h1, h2]
    exact ⟨_, rfl⟩
  · simp only [ht]
    exact ⟨_, rfl⟩

theorem Less_trans_returns (self_cndn : CndnFn) (hs : ∀ t e, Returns (self_cndn t e))
    (dest : Name) : Returns (Less.trans self_cndn dest) := by
  intro symt code
  unfold Less.trans
  obtain ⟨⟨symt4, code1⟩, h1⟩ := hs symt.add_labl.1 symt.add_labl.2.add_labl.1
    symt.add_labl.2.add_labl.2.add_labl.2 code
  simp only [h1]
  exact ⟨_, rfl⟩

theorem And_trans_cndn_returns (left_cndn rght_cndn : CndnFn)
    (hl : ∀ t e, Returns (left_cndn t e)) (hr : ∀ t e, Returns (rght_cndn t e))
    (then_lbl else_lbl : Labl) :
    Returns (And.trans_cndn left_cndn rght_cndn then_lbl else_lbl) := by
  intro symt code
  unfold And.trans_cndn
  obtain ⟨⟨symt2, code1⟩, h1⟩ := hl symt.add_labl.1 else_lbl symt.add_labl.2 code
  obtain ⟨r, h2⟩ := hr then_lbl else_lbl symt2 (code1 ++ [.LBL symt.add_labl.1])
  simp only [h1, h2]
  exact ⟨_, rfl⟩

theorem And_trans_returns (self_cndn : CndnFn) (hs : ∀ t e, Returns (self_cndn t e))
    (dest : Name) : Returns (And.trans self_cndn dest) := by
  intro symt code
  unfold And.trans
  obtain ⟨⟨symt4, code1⟩, h1⟩ := hs symt.add_labl.1 symt.add_labl.2.add_labl.1
    symt.add_labl.2.add_labl.2.add_labl.2 code
  simp only [h1]
  exact ⟨_, rfl⟩

theorem Ltrl_trans_returns (valu : Valu) (dest : Name) : Returns (Ltrl.trans valu dest) := by
  intro symt code
  cases valu with
  | bool b => cases b <;> exact ⟨_, rfl⟩
  | int i => exact ⟨_, rfl⟩
  | string str => exact ⟨_, rfl⟩
  | none => exact ⟨_, rfl⟩

theorem Inpt_trans_returns (expn_trans : TransFn) (he : ∀ d, Returns (expn_trans d))
    (dest : Name) : Returns (Inpt.trans expn_trans dest) := by
  intro symt code
  unfold Inpt.trans
  obtain ⟨⟨symt2, code1⟩, h1⟩ := he (symt.add_temp .StrTy).1 (symt.add_temp .StrTy).2 code
  simp only [h1]
  exact ⟨_, rfl⟩

/-- After a successful check the value-mode translation of the expression
returns, and so does its condition-mode translation when the type is
`BoolTy`: `std::get<bool>` is only reached on boolean literals. -/
theorem Expn_chck_trans_returns (defs : Defs) (symt : SymT) (e : Expn) :
    ∀ (e1 : Expn) (T : Ty), Expn.chck defs symt e = (e1, .ok T) →
      (∀ dest, Returns (e1.trans dest)) ∧
      (T = .BoolTy → ∀ t l, Returns (e1.trans_cndn t l)) := by
  induction e with
  | Plus left rght lo type ihl ihr =>
    intro e1 T h
    rcases hl : Expn.chck defs symt left with ⟨l1, e | tl⟩
    · simp [Expn.chck, hl] at h
    · rcases hr : Expn.chck defs symt rght with ⟨r1, e | tr⟩
      · simp [Expn.chck, hl, hr] at h
      · by_cases hc : (is_int tl && is_int tr) = true
        · simp [Expn.chck, hl, hr, hc] at h
          obtain ⟨h1, h2⟩ := h
          subst h1 h2
          refine ⟨fun dest => ?_, fun hb => by simp at hb⟩
          simp only [Expn.trans]
          exact Plus_trans_returns _ _ _ _ _ (ihl l1 tl hl).1 (ihr r1 tr hr).1 dest
        · simp [Expn.chck, hl, hr, hc] at h
  | Less left rght lo type ihl ihr =>
    intro e1 T h
    rcases hl : Expn.chck defs symt left with ⟨l1, e | tl⟩
    · simp [Expn.chck, hl] at h
    · rcases hr : Expn.chck defs symt rght with ⟨r1, e | tr⟩
      · simp [Expn.chck, hl, hr] at h
      · by_cases hc : Ty.op_eq tl tr = true
        · by_cases hi : is_int tl = true
          · simp [Expn.chck, hl, hr, hc, hi] at h
            obtain ⟨h1, h2⟩ := h
            subst h1 h2
            have hcn := Less_trans_cndn_returns l1.trans r1.trans l1.type r1.type
              (ihl l1 tl hl).1 (ihr r1 tr hr).1
            refine ⟨fun dest => ?_, fun _ t l => ?_⟩
            · simp only [Expn.trans]
              exact Less_trans_returns _ hcn dest
            · simp only [Expn.trans_cndn]
              exact hcn t l
          · simp [Expn.chck, hl, hr, hc, hi] at h
        · simp [Expn.chck, hl, hr, hc] at h
  | And left rght lo type ihl ihr =>
    intro e1 T h
    rcases hl : Expn.chck defs symt left with ⟨l1, e | tl⟩
    · simp [Expn.chck, hl] at h
    · rcases hr : Expn.chck defs symt rght with ⟨r1, e | tr⟩
      · simp [Expn.chck, hl, hr] at h
      · by_cases hc : (is_bool tl && is_bool tr) = true
        · simp [Expn.chck, hl, hr, hc] at h
          obtain ⟨h1, h2⟩ := h
          subst h1 h2
          simp only [Bool.and_eq_true, is_bool_iff] at hc
          have hcn := And_trans_cndn_returns l1.trans_cndn r1.trans_cndn
            ((ihl l1 tl hl).2 hc.1) ((ihr r1 tr hr).2 hc.2)
          refine ⟨fun dest => ?_, fun _ t l => ?_⟩
          · simp only [Expn.trans]
            exact And_trans_returns _ hcn dest
          · simp only [Expn.trans_cndn]
            exact hcn t l
        · simp [Expn.chck, hl, hr, hc] at h
  | Ltrl valu lo type =>
    intro e1 T h
    cases valu <;> simp [Expn.chck] at h <;> obtain ⟨h1, h2⟩ := h <;> subst h1 h2 <;>
      refine ⟨fun dest => by simp only [Expn.trans]; exact Ltrl_trans_returns _ dest, ?_⟩
    · intro hb; simp at hb
    · intro _ t l symt1 code
      simp only [Expn.trans_cndn, Ltrl.trans_cndn]
      split <;> exact ⟨_, rfl⟩
    · intro hb; simp at hb
    · intro hb; simp at hb
  | Lkup name lo type =>
    intro e1 T h
    by_cases hn : symt.has_info name = true
    · simp [Expn.chck, hn] at h
      obtain ⟨h1, h2⟩ := h
      subst h1
      exact ⟨fun dest symt1 code => ⟨_, rfl⟩, fun _ t l symt1 code => ⟨_, rfl⟩⟩
    · simp [Expn.chck, hn] at h
  | Inpt expn lo type ih =>
    intro e1 T h
    rcases he : Expn.chck defs symt expn with ⟨x1, e | t⟩
    · simp [Expn.chck, he] at h
    · by_cases hc : is_str t = true
      · simp [Expn.chck, he, hc] at h
        obtain ⟨h1, h2⟩ := h
        subst h1 h2
        refine ⟨fun dest => ?_, fun hb => by simp at hb⟩
        simp only [Expn.trans]
        exact Inpt_trans_returns _ (ih x1 t he).1 dest
      · simp [Expn.chck, he, hc] at h
/-- The translation of a statement that has checked returns. -/
theorem Stmt_chck_trans_returns (glbls : StrgLbls) (expd : Rtns) (defs : Defs) (symt : SymT)
    (stmt stmt1 : Stmt) (symt1 : SymT) (rtns : Rtns)
    (h : Stmt.chck expd defs symt stmt = ((stmt1, symt1), .ok rtns)) :
    ∀ exit, Returns (stmt1.trans glbls exit) := by
  intro exit
  cases stmt with
  | Ntro name type expn lo =>
    simp only [Stmt.chck, Ntro.chck] at h
    rcases he : Expn.chck defs symt expn with ⟨e1, e | t⟩
    · simp [he] at h
    · simp only [he] at h
      by_cases hc : Ty.op_ne type t = true
      · simp [hc] at h
      · simp only [hc] at h
        rcases ha : symt.add_locl name type with e | symt2
        · simp [ha] at h
        · simp [ha] at h
          obtain ⟨⟨h1, _⟩, _⟩ := h
          subst h1
          intro s c
          simp only [Stmt.trans, Ntro.trans]
          exact (Expn_chck_trans_returns defs symt expn e1 t he).1 name s c
  | Asgn name expn lo =>
    simp only [Stmt.chck, Asgn.chck] at h
    by_cases hn : symt.has_info name = true
    · simp only [hn, dite_true] at h
      rcases he : Expn.chck defs symt expn with ⟨e1, e | t⟩
      · simp [he] at h
      · simp only [he] at h
        split at h
        · simp at h
        · simp at h
          obtain ⟨⟨h1, _⟩, _⟩ := h
          subst h1
          intro s c
          simp only [Stmt.trans, Asgn.trans]
          exact (Expn_chck_trans_returns defs symt expn e1 t he).1 name s c
    · simp [hn] at h
  | Prnt expn lo =>
    simp only [Stmt.chck, Prnt.chck] at h
    rcases he : Expn.chck defs symt expn with ⟨e1, e | t⟩
    · simp [he] at h
    · simp [he] at h
      obtain ⟨⟨h1, _⟩, _⟩ := h
      subst h1
      obtain ⟨hv, hcn⟩ := Expn_chck_trans_returns defs symt expn e1 t he
      have hty := (Expn.chck_slots defs symt expn e1 t he).1
      intro s c
      simp only [Stmt.trans, Prnt.trans]
      have hvalu : ∃ r, Prnt.trans_valu glbls s c e1 = some r := by
        simp only [Prnt.trans_valu]
        cases hs : e1.type with
        | IntTy =>
          obtain ⟨⟨s2, c2⟩, h2⟩ := hv (s.add_temp .IntTy).1 (s.add_temp .IntTy).2 c
          simp only [h2]
          exact ⟨_, rfl⟩
        | StrTy =>
          obtain ⟨⟨s2, c2⟩, h2⟩ := hv (s.add_temp .StrTy).1 (s.add_temp .StrTy).2 c
          simp only [h2]
          exact ⟨_, rfl⟩
        | BoolTy =>
          obtain ⟨⟨s2, c2⟩, h2⟩ := hcn (by rw [← hty, hs]) s.add_labl.1
            s.add_labl.2.add_labl.1 (s.add_labl.2.add_labl.2.add_labl.2.add_temp .BoolTy).2 c
          simp only [h2]
          exact ⟨_, rfl⟩
        | NoneTy =>
          obtain ⟨⟨s2, c2⟩, h2⟩ := hv (s.add_temp .NoneTy).1
            ((s.add_temp .NoneTy).2.add_temp .StrTy).2 c
          simp only [h2]
          exact ⟨_, rfl⟩
      obtain ⟨⟨s1, c1⟩, h1⟩ := hvalu
      simp only [h1]
      exact ⟨_, rfl⟩
  | Pass lo =>
    simp [Stmt.chck, Pass.chck] at h
    obtain ⟨⟨h1, _⟩, _⟩ := h
    subst h1
    intro s c
    exact ⟨_, rfl⟩
  | PRtn lo =>
    simp only [Stmt.chck, PRtn.chck] at h
    split at h
    · simp at h
    · split at h
      · simp at h
      · simp at h
        obtain ⟨⟨h1, _⟩, _⟩ := h
        subst h1
        intro s c
        exact ⟨_, rfl⟩
  | FRtn expn lo =>
    simp only [Stmt.chck, FRtn.chck] at h
    rcases he : Expn.chck defs symt expn with ⟨e1, e | t⟩
    · simp [he] at h
    · simp only [he] at h
      split at h
      · simp at h
      · split at h
        · simp at h
        · simp at h
          obtain ⟨⟨h1, _⟩, _⟩ := h
          subst h1
          intro s c
          simp only [Stmt.trans, FRtn.trans]
          obtain ⟨⟨s2, c2⟩, h2⟩ := (Expn_chck_trans_returns defs symt expn e1 t he).1
            (s.add_temp e1.type).1 (s.add_temp e1.type).2 c
          simp only [h2]
          exact ⟨_, rfl⟩

/-- The translation of the statements of a block that has checked returns. -/
theorem Blck.chck_loop_trans_returns (glbls : StrgLbls) (expd : Rtns) (defs : Defs)
    (stmts : List Stmt) :
    ∀ (a : Rtns) (symt : SymT) (stmts1 : List Stmt) (symt1 : SymT) (rtns : Rtns),
      Blck.chck_loop expd defs a symt stmts = ((stmts1, symt1), .ok rtns) →
      ∀ exit, Returns (Blck.trans_loop glbls exit stmts1) := by
  induction stmts with
  | nil =>
    intro a symt stmts1 symt1 rtns h exit s c
    simp [Blck.chck_loop] at h
    obtain ⟨⟨h1, _⟩, _⟩ := h
    subst h1
    exact ⟨_, rfl⟩
  | cons stmt rest ih =>
    intro a symt stmts1 symt1 rtns h exit s c
    rcases hs : Stmt.chck expd defs symt stmt with ⟨⟨stmt1, symtA⟩, e | stmt_rtns⟩
    · simp [Blck.chck_loop, hs] at h
    · rcases hq : rtns_seq a stmt_rtns stmt.locn with e | aA
      · simp [Blck.chck_loop, hs, hq] at h
      · simp [Blck.chck_loop, hs, hq] at h
        obtain ⟨⟨h1, h2⟩, h3⟩ := h
        subst h1
        obtain ⟨⟨s1, c1⟩, ht⟩ := Stmt_chck_trans_returns glbls expd defs symt stmt stmt1 symtA
          stmt_rtns hs exit s c
        obtain ⟨r, hr⟩ := ih aA symtA (Blck.chck_loop expd defs aA symtA rest).1.1 symt1 rtns
          (by rw [← h2, ← h3]) exit s1 c1
        exact ⟨r, by simp only [Blck.trans_loop, ht, hr]⟩
/-! ## Translation: the labels defined in the code -/

theorem SymT.add_temp_count (symt : SymT) (type : Ty) :
    (symt.add_temp type).2.count = symt.count + 1 := rfl

theorem SymT.add_labl_count (symt : SymT) : symt.add_labl.2.count = symt.count + 1 := rfl

theorem SymT.add_labl_fst (symt : SymT) : symt.add_labl.1 = SymT.labl_name symt.count := rfl

theorem SymT.add_strg_count (symt : SymT) (strg : String) :
    (symt.add_strg strg).2.count = symt.count := by
  unfold SymT.add_strg
  split <;> rfl

theorem Plus_trans_labels (left_trans rght_trans : TransFn) (left_type rght_type type : Ty)
    (hl : ∀ d, LabelsFrom (left_trans d)) (hr : ∀ d, LabelsFrom (rght_trans d))
    (dest : Name) :
    LabelsFrom (Plus.trans left_trans rght_trans left_type rght_type type dest) := by
  intro symt code r h
  unfold Plus.trans at h
  by_cases ht : is_int type = true
  · simp only [ht, if_true] at h
    rcases h1 : left_trans (symt.add_temp left_type).1
        ((symt.add_temp left_type).2.add_temp rght_type).2 code with _ | ⟨symt3, code1⟩
    · simp [h1] at h
    · rcases h2 : rght_trans ((symt.add_temp left_type).2.add_temp rght_type).1 symt3 code1
        with _ | ⟨symt4, code2⟩
      · simp [h1, h2] at h
      · simp [h1, h2] at h
        subst h
        obtain ⟨hc1, hl1⟩ := hl _ _ _ _ h1
        obtain ⟨hc2, hl2⟩ := hr _ _ _ _ h2
        simp only [SymT.add_temp_count] at hc1 hc2
        refine ⟨by simp only []; omega, ?_⟩
        intro l hm
        simp only [List.mem_append, List.mem_singleton, reduceCtorEq, or_false] at hm
        rcases hl2 l hm with hm1 | ⟨k, hk, hk2⟩
        · rcases hl1 l hm1 with hm0 | ⟨k, hk, hk2⟩
          · exact Or.inl hm0
          · exact Or.inr ⟨k, by
            (try simp only [SymT.add_temp_count, SymT.add_labl_count] at hk)
            omega, hk2⟩
        · exact Or.inr ⟨k, by omega, hk2⟩
  · simp [ht] at h
    subst h
    exact ⟨Nat.le_refl _, fun l hm => Or.inl hm⟩

theorem Less_trans_cndn_labels (left_trans rght_trans : TransFn) (left_type rght_type : Ty)
    (hl : ∀ d, LabelsFrom (left_trans d)) (hr : ∀ d, LabelsFrom (rght_trans d))
    (then_lbl else_lbl : Labl) :
    LabelsFrom (Less.trans_cndn left_trans rght_trans left_type rght_type
      then_lbl else_lbl) := by
  intro symt code r h
  unfold Less.trans_cndn at h
  by_cases ht : (is_int left_type && is_int rght_type) = true
  · simp only [ht, if_true] at h
    rcases h1 : left_trans (symt.add_temp left_type).1
        ((symt.add_temp left_type).2.add_temp rght_type).2 code with _ | ⟨symt3, code1⟩
    · simp [h1] at h
    · rcases h2 : rght_trans ((symt.add_temp left_type).2.add_temp rght_type).1 symt3 code1
        with _ | ⟨symt4, code2⟩
      · simp [h1, h2] at h
      · simp [h1, h2] at h
        subst h
        obtain ⟨hc1, hl1⟩ := hl _ _ _ _ h1
        obtain ⟨hc2, hl2⟩ := hr _ _ _ _ h2
        simp only [SymT.add_temp_count] at hc1 hc2
        refine ⟨by simp only []; omega, ?_⟩
        intro l hm
        simp only [List.mem_append, List.mem_singleton, reduceCtorEq, or_false] at hm
        rcases hl2 l hm with hm1 | ⟨k, hk, hk2⟩
        · rcases hl1 l hm1 with hm0 | ⟨k, hk, hk2⟩
          · exact Or.inl hm0
          · exact Or.inr ⟨k, by
            (try simp only [SymT.add_temp_count, SymT.add_labl_count] at hk)
            omega, hk2⟩
        · exact Or.inr ⟨k, by omega, hk2⟩
  · simp [ht] at h
    subst h
    exact ⟨Nat.le_refl _, fun l hm => Or.inl hm⟩

/-- The shared body of `Less::trans` and `And::trans`. -/
theorem Less_trans_labels (self_cndn : CndnFn) (hs : ∀ t e, LabelsFrom (self_cndn t e))
    (dest : Name) : LabelsFrom (Less.trans self_cndn dest) := by
  intro symt code r h
  unfold Less.trans at h
  simp only [] at h
  rcases h1 : self_cndn symt.add_labl.1 symt.add_labl.2.add_labl.1
      symt.add_labl.2.add_labl.2.add_labl.2 code with _ | ⟨symt4, code1⟩
  · simp [h1] at h
  · simp [h1] at h
    subst h
    obtain ⟨hc1, hl1⟩ := hs _ _ _ _ _ h1
    simp only [SymT.add_labl_count] at hc1
    refine ⟨by simp only []; omega, ?_⟩
    intro l hm
    simp only [List.mem_append, List.mem_cons, INST.LBL.injEq, reduceCtorEq, false_or,
      List.mem_singleton, List.not_mem_nil, or_false] at hm
    rcases hm with hm | hm | hm | hm
    · rcases hl1 l hm with hm0 | ⟨k, hk, hk2⟩
      · exact Or.inl hm0
      · exact Or.inr ⟨k, by
            (try simp only [SymT.add_temp_count, SymT.add_labl_count] at hk)
            omega, hk2⟩
    · exact Or.inr ⟨symt.count, Nat.le_refl _, by rw [hm, SymT.add_labl_fst]⟩
    · exact Or.inr ⟨symt.count + 1, by omega,
        by rw [hm, SymT.add_labl_fst, SymT.add_labl_count]⟩
    · exact Or.inr ⟨symt.count + 1 + 1, by omega,
        by rw [hm, SymT.add_labl_fst, SymT.add_labl_count, SymT.add_labl_count]⟩

theorem And_trans_labels (self_cndn : CndnFn) (hs : ∀ t e, LabelsFrom (self_cndn t e))
    (dest : Name) : LabelsFrom (And.trans self_cndn dest) :=
  Less_trans_labels self_cndn hs dest

theorem And_trans_cndn_labels (left_cndn rght_cndn : CndnFn)
    (hl : ∀ t e, LabelsFrom (left_cndn t e)) (hr : ∀ t e, LabelsFrom (rght_cndn t e))
    (then_lbl else_lbl : Labl) :
    LabelsFrom (And.trans_cndn left_cndn rght_cndn then_lbl else_lbl) := by
  intro symt code r h
  unfold And.trans_cndn at h
  simp only [] at h
  rcases h1 : left_cndn symt.add_labl.1 else_lbl symt.add_labl.2 code with _ | ⟨symt2, code1⟩
  · simp [h1] at h
  · simp only [h1] at h
    obtain ⟨hc1, hl1⟩ := hl _ _ _ _ _ h1
    obtain ⟨hc2, hl2⟩ := hr _ _ _ _ _ h
    simp only [SymT.add_labl_count] at hc1
    refine ⟨by omega, ?_⟩
    intro l hm
    rcases hl2 l hm with hm1 | ⟨k, hk, hk2⟩
    · simp only [List.mem_append, List.mem_singleton, INST.LBL.injEq] at hm1
      rcases hm1 with hm1 | hm1
      · rcases hl1 l hm1 with hm0 | ⟨k, hk, hk2⟩
        · exact Or.inl hm0
        · exact Or.inr ⟨k, by
            (try simp only [SymT.add_temp_count, SymT.add_labl_count] at hk)
            omega, hk2⟩
      · exact Or.inr ⟨symt.count, Nat.le_refl _, by rw [hm1, SymT.add_labl_fst]⟩
    · exact Or.inr ⟨k, by omega, hk2⟩

theorem Inpt_trans_labels (expn_trans : TransFn) (he : ∀ d, LabelsFrom (expn_trans d))
    (dest : Name) : LabelsFrom (Inpt.trans expn_trans dest) := by
  intro symt code r h
  unfold Inpt.trans at h
  simp only [] at h
  rcases h1 : expn_trans (symt.add_temp .StrTy).1 (symt.add_temp .StrTy).2 code
    with _ | ⟨symt2, code1⟩
  · simp [h1] at h
  · simp [h1] at h
    subst h
    obtain ⟨hc1, hl1⟩ := he _ _ _ _ h1
    simp only [SymT.add_temp_count] at hc1
    refine ⟨by simp only []; omega, ?_⟩
    intro l hm
    simp only [List.mem_append, List.mem_cons, reduceCtorEq, false_or,
      List.not_mem_nil, or_false] at hm
    rcases hl1 l hm with hm0 | ⟨k, hk, hk2⟩
    · exact Or.inl hm0
    · exact Or.inr ⟨k, by
            (try simp only [SymT.add_temp_count, SymT.add_labl_count] at hk)
            omega, hk2⟩

/-- A step that leaves the counter as it is and appends instructions none of
which is an `LBL`. -/
theorem LabelsFrom_of_push (f : SymT → INST_vec → Option (SymT × INST_vec))
    (h : ∀ symt code r, f symt code = some r →
      r.1.count = symt.count ∧ ∃ is : INST_vec, r.2 = code ++ is ∧ ∀ l, INST.LBL l ∉ is) :
    LabelsFrom f := by
  intro symt code r hr
  obtain ⟨hc, is, hi, hn⟩ := h symt code r hr
  refine ⟨by omega, ?_⟩
  intro l hm
  rw [hi, List.mem_append] at hm
  rcases hm with hm | hm
  · exact Or.inl hm
  · exact absurd hm (hn l)

/-- The labels defined in the code of an expression are minted from counter
values not below the one the translation started with. -/
theorem Expn_trans_labels (e : Expn) :
    (∀ dest, LabelsFrom (e.trans dest)) ∧ (∀ t l, LabelsFrom (e.trans_cndn t l)) := by
  induction e with
  | Plus left rght lo type ihl ihr =>
    refine ⟨fun dest => ?_, fun t l => ?_⟩
    · simp only [Expn.trans]
      exact Plus_trans_labels _ _ _ _ _ ihl.1 ihr.1 dest
    · apply LabelsFrom_of_push
      intro symt code r h
      simp [Expn.trans_cndn, Expn.trans_cndn_base] at h
      subst h
      exact ⟨rfl, [], by simp, by simp⟩
  | Less left rght lo type ihl ihr =>
    have hc := Less_trans_cndn_labels left.trans rght.trans left.type rght.type ihl.1 ihr.1
    refine ⟨fun dest => ?_, fun t l => ?_⟩
    · simp only [Expn.trans]
      exact Less_trans_labels _ hc dest
    · simp only [Expn.trans_cndn]
      exact hc t l
  | And left rght lo type ihl ihr =>
    have hc := And_trans_cndn_labels left.trans_cndn rght.trans_cndn ihl.2 ihr.2
    refine ⟨fun dest => ?_, fun t l => ?_⟩
    · simp only [Expn.trans]
      exact And_trans_labels _ hc dest
    · simp only [Expn.trans_cndn]
      exact hc t l
  | Ltrl valu lo type =>
    refine ⟨fun dest => ?_, fun t l => ?_⟩
    · apply LabelsFrom_of_push
      intro symt code r h
      cases valu with
      | bool b =>
        cases b <;> simp [Expn.trans, Ltrl.trans] at h <;> subst h <;>
          exact ⟨rfl, [_], rfl, by simp⟩
      | int i =>
        simp [Expn.trans, Ltrl.trans] at h; subst h
        exact ⟨rfl, [_], rfl, by simp⟩
      | string str =>
        simp [Expn.trans, Ltrl.trans] at h; subst h
        exact ⟨SymT.add_strg_count symt str, [_], rfl, by simp⟩
      | none =>
        simp [Expn.trans, Ltrl.trans] at h; subst h
        exact ⟨rfl, [_], rfl, by simp⟩
    · apply LabelsFrom_of_push
      intro symt code r h
      cases valu with
      | bool b =>
        cases b <;> simp [Expn.trans_cndn, Ltrl.trans_cndn] at h <;> subst h <;>
          exact ⟨rfl, [_], rfl, by simp⟩
      | int i => simp [Expn.trans_cndn, Ltrl.trans_cndn] at h
      | string str => simp [Expn.trans_cndn, Ltrl.trans_cndn] at h
      | none => simp [Expn.trans_cndn, Ltrl.trans_cndn] at h
  | Lkup name lo type =>
    refine ⟨fun dest => ?_, fun t l => ?_⟩
    · apply LabelsFrom_of_push
      intro symt code r h
      simp [Expn.trans, Lkup.trans] at h; subst h
      exact ⟨rfl, [_], rfl, by simp⟩
    · apply LabelsFrom_of_push
      intro symt code r h
      simp [Expn.trans_cndn, Lkup.trans_cndn] at h; subst h
      exact ⟨rfl, [_], rfl, by simp⟩
  | Inpt expn lo type ih =>
    refine ⟨fun dest => ?_, fun t l => ?_⟩
    · simp only [Expn.trans]
      exact Inpt_trans_labels _ ih.1 dest
    · apply LabelsFrom_of_push
      intro symt code r h
      simp [Expn.trans_cndn, Expn.trans_cndn_base] at h
      subst h
      exact ⟨rfl, [], by simp, by simp⟩
theorem Prnt.trans_valu_labels (glbls : StrgLbls) (expn : Expn) :
    LabelsFrom (fun symt code => Prnt.trans_valu glbls symt code expn) := by
  intro symt code r h
  simp only [Prnt.trans_valu] at h
  cases ht : expn.type with
  | IntTy =>
    simp only [ht] at h
    rcases h1 : expn.trans (symt.add_temp .IntTy).1 (symt.add_temp .IntTy).2 code with
      _ | ⟨symt2, code1⟩
    · simp [h1] at h
    · simp [h1] at h
      subst h
      obtain ⟨hc1, hl1⟩ := (Expn_trans_labels expn).1 _ _ _ _ h1
      simp only [SymT.add_temp_count] at hc1
      refine ⟨by simp only []; omega, ?_⟩
      intro l hm
      simp only [List.mem_append, List.mem_singleton, reduceCtorEq, or_false] at hm
      rcases hl1 l hm with hm0 | ⟨k, hk, hk2⟩
      · exact Or.inl hm0
      · exact Or.inr ⟨k, by simp only [SymT.add_temp_count] at hk; omega, hk2⟩
  | StrTy =>
    simp only [ht] at h
    rcases h1 : expn.trans (symt.add_temp .StrTy).1 (symt.add_temp .StrTy).2 code with
      _ | ⟨symt2, code1⟩
    · simp [h1] at h
    · simp [h1] at h
      subst h
      obtain ⟨hc1, hl1⟩ := (Expn_trans_labels expn).1 _ _ _ _ h1
      simp only [SymT.add_temp_count] at hc1
      refine ⟨by simp only []; omega, ?_⟩
      intro l hm
      simp only [List.mem_append, List.mem_singleton, reduceCtorEq, or_false] at hm
      rcases hl1 l hm with hm0 | ⟨k, hk, hk2⟩
      · exact Or.inl hm0
      · exact Or.inr ⟨k, by simp only [SymT.add_temp_count] at hk; omega, hk2⟩
  | BoolTy =>
    simp only [ht] at h
    rcases h1 : expn.trans_cndn symt.add_labl.1 symt.add_labl.2.add_labl.1
        (symt.add_labl.2.add_labl.2.add_labl.2.add_temp .BoolTy).2 code with
      _ | ⟨symt2, code1⟩
    · simp [h1] at h
    · simp [h1] at h
      subst h
      obtain ⟨hc1, hl1⟩ := (Expn_trans_labels expn).2 _ _ _ _ _ h1
      simp only [SymT.add_temp_count, SymT.add_labl_count] at hc1
      refine ⟨by simp only []; omega, ?_⟩
      intro l hm
      simp only [List.mem_append, List.mem_cons, INST.LBL.injEq, reduceCtorEq, false_or,
        List.mem_singleton, List.not_mem_nil, or_false] at hm
      rcases hm with hm | hm | hm | hm
      · rcases hl1 l hm with hm0 | ⟨k, hk, hk2⟩
        · exact Or.inl hm0
        · exact Or.inr ⟨k, by
            simp only [SymT.add_temp_count, SymT.add_labl_count] at hk
            omega, hk2⟩
      · exact Or.inr ⟨symt.count, Nat.le_refl _, by rw [hm, SymT.add_labl_fst]⟩
      · exact Or.inr ⟨symt.count + 1, by omega,
          by rw [hm, SymT.add_labl_fst, SymT.add_labl_count]⟩
      · exact Or.inr ⟨symt.count + 1 + 1, by omega,
          by rw [hm, SymT.add_labl_fst, SymT.add_labl_count, SymT.add_labl_count]⟩
  | NoneTy =>
    simp only [ht] at h
    rcases h1 : expn.trans (symt.add_temp .NoneTy).1
        ((symt.add_temp .NoneTy).2.add_temp .StrTy).2 code with _ | ⟨symt2, code1⟩
    · simp [h1] at h
    · simp [h1] at h
      subst h
      obtain ⟨hc1, hl1⟩ := (Expn_trans_labels expn).1 _ _ _ _ h1
      simp only [SymT.add_temp_count] at hc1
      refine ⟨by simp only []; omega, ?_⟩
      intro l hm
      simp only [List.mem_append, List.mem_cons, reduceCtorEq, false_or,
        List.not_mem_nil, or_false] at hm
      rcases hl1 l hm with hm0 | ⟨k, hk, hk2⟩
      · exact Or.inl hm0
      · exact Or.inr ⟨k, by simp only [SymT.add_temp_count] at hk; omega, hk2⟩

/-- The labels defined in the code of a statement are minted from counter
values not below the one the translation started with. -/
theorem Stmt_trans_labels (glbls : StrgLbls) (stmt : Stmt) (exit : Labl) :
    LabelsFrom (stmt.trans glbls exit) := by
  cases stmt with
  | Ntro name type expn lo =>
    intro symt code r h
    simp only [Stmt.trans, Ntro.trans] at h
    exact (Expn_trans_labels expn).1 name symt code r h
  | Asgn name expn lo =>
    intro symt code r h
    simp only [Stmt.trans, Asgn.trans] at h
    exact (Expn_trans_labels expn).1 name symt code r h
  | Prnt expn lo =>
    intro symt code r h
    simp only [Stmt.trans, Prnt.trans] at h
    rcases hv : Prnt.trans_valu glbls symt code expn with _ | ⟨symt1, code1⟩
    · simp [hv] at h
    · simp [hv] at h
      subst h
      obtain ⟨hc1, hl1⟩ := Prnt.trans_valu_labels glbls expn symt code _ hv
      simp only [] at hc1 hl1
      refine ⟨by simp only [SymT.add_temp_count]; omega, ?_⟩
      intro l hm
      simp only [List.mem_append, List.mem_cons, reduceCtorEq, false_or,
        List.not_mem_nil, or_false] at hm
      exact hl1 l hm
  | Pass lo =>
    apply LabelsFrom_of_push
    intro symt code r h
    simp [Stmt.trans, Pass.trans] at h; subst h
    exact ⟨rfl, [_], rfl, by simp⟩
  | PRtn lo =>
    intro symt code r h
    simp [Stmt.trans, PRtn.trans] at h; subst h
    refine ⟨by simp only [SymT.add_temp_count]; omega, ?_⟩
    intro l hm
    simp only [List.mem_append, List.mem_cons, reduceCtorEq, false_or,
      List.not_mem_nil, or_false] at hm
    exact Or.inl hm
  | FRtn expn lo =>
    intro symt code r h
    simp only [Stmt.trans, FRtn.trans] at h
    rcases h1 : expn.trans (symt.add_temp expn.type).1 (symt.add_temp expn.type).2 code with
      _ | ⟨symt2, code1⟩
    · simp [h1] at h
    · simp [h1] at h
      subst h
      obtain ⟨hc1, hl1⟩ := (Expn_trans_labels expn).1 _ _ _ _ h1
      simp only [SymT.add_temp_count] at hc1
      refine ⟨by simp only []; omega, ?_⟩
      intro l hm
      simp only [List.mem_append, List.mem_cons, reduceCtorEq, false_or,
        List.not_mem_nil, or_false] at hm
      rcases hl1 l hm with hm0 | ⟨k, hk, hk2⟩
      · exact Or.inl hm0
      · exact Or.inr ⟨k, by simp only [SymT.add_temp_count] at hk; omega, hk2⟩

theorem Blck.trans_loop_labels (glbls : StrgLbls) (exit : Labl) (stmts : List Stmt) :
    LabelsFrom (Blck.trans_loop glbls exit stmts) := by
  induction stmts with
  | nil =>
    intro symt code r h
    simp [Blck.trans_loop] at h
    subst h
    exact ⟨Nat.le_refl _, fun l hm => Or.inl hm⟩
  | cons stmt rest ih =>
    intro symt code r h
    simp only [Blck.trans_loop] at h
    rcases hs : stmt.trans glbls exit symt code with _ | ⟨symt1, code1⟩
    · simp [hs] at h
    · simp only [hs] at h
      obtain ⟨hc1, hl1⟩ := Stmt_trans_labels glbls stmt exit symt code _ hs
      obtain ⟨hc2, hl2⟩ := ih symt1 code1 r h
      simp only [] at hc1 hl1
      refine ⟨by omega, ?_⟩
      intro l hm
      rcases hl2 l hm with hm1 | ⟨k, hk, hk2⟩
      · exact hl1 l hm1
      · exact Or.inr ⟨k, by omega, hk2⟩

theorem String.ne_append_done (name : String) : name ≠ name ++ "_done" := by
  intro h
  have h1 := congrArg String.length h
  simp at h1
  exact absurd h1 (by decide)
/-! ## Translation: the exit label of a definition -/

/-- The body of a definition that has checked is a block whose statements
have checked. -/
theorem Defn.chck_body (defs : Defs) (defn0 defn : Defn)
    (h : Defn.chck defs defn0 = (defn, .ok ())) :
    ∃ rtns, Blck.chck_loop (.Def defn0.rety) defs .Void defn0.symt defn0.body.stmts
      = ((defn.body.stmts, defn.symt), .ok rtns) ∧
      defn.name = defn0.name ∧ defn.code = defn0.code := by
  simp only [Defn.chck, Blck.chck] at h
  rcases hl : Blck.chck_loop (.Def defn0.rety) defs .Void defn0.symt defn0.body.stmts with
    ⟨⟨stmts1, symt1⟩, e | rtns⟩
  · simp [hl] at h
  · simp only [hl] at h
    split at h
    · simp at h
    · split at h
      · simp at h
      · simp at h
        subst h
        exact ⟨rtns, rfl, rfl, rfl⟩

/-- C18: exit uniqueness. For a definition that has checked, `Defn::trans`
returns, and the code it appends is `[LBL d, ENTER] ++ body_code ++
[LBL x, LEAVE]` with `x` the label minted for `name + "_done"`: it contains
exactly one `LBL x`, the second-to-last instruction, and no label defined in
the code of the body is the exit label `x` or the entry label `d`. This is
given a table that mints fresh labels: the labels `add_labl()` returns from
the body's table on are neither `x` nor `d`. -/
theorem Defn_trans_exit_unique (glbls : StrgLbls) (defs : Defs) (defn0 defn : Defn)
    (hchk : Defn.chck defs defn0 = (defn, .ok ()))
    (hfresh : ∀ k : Nat, defn.body_symt.count ≤ k →
      SymT.labl_name k ≠ defn.ext_lbl ∧ SymT.labl_name k ≠ defn.def_lbl) :
    ∃ (symt3 : SymT) (body_code : INST_vec),
      defn.body.trans glbls defn.ext_lbl defn.body_symt [] = some (symt3, body_code) ∧
      Defn.trans glbls defn =
        some { defn with
               symt := symt3,
               code := defn.code ++ ([INST.LBL defn.def_lbl, INST.ENTER] ++ body_code
                 ++ [INST.LBL defn.ext_lbl, INST.LEAVE]) } ∧
      ([INST.LBL defn.def_lbl, INST.ENTER] ++ body_code
        ++ [INST.LBL defn.ext_lbl, INST.LEAVE]).count (INST.LBL defn.ext_lbl) = 1 ∧
      INST.LBL defn.ext_lbl ∉ [INST.LBL defn.def_lbl, INST.ENTER] ++ body_code ∧
      (∀ l : Labl, INST.LBL l ∈ body_code → l ≠ defn.ext_lbl ∧ l ≠ defn.def_lbl) := by
  obtain ⟨rtns, hl, _, _⟩ := Defn.chck_body defs defn0 defn hchk
  obtain ⟨⟨symt3, body_code⟩, hb⟩ :=
    Blck.chck_loop_trans_returns glbls _ defs _ _ _ _ _ _ hl defn.ext_lbl defn.body_symt []
  have hb1 : defn.body.trans glbls defn.ext_lbl defn.body_symt [] = some (symt3, body_code) :=
    hb
  have hlab : ∀ l : Labl, INST.LBL l ∈ body_code → l ≠ defn.ext_lbl ∧ l ≠ defn.def_lbl := by
    intro l hm
    rcases (Blck.trans_loop_labels glbls defn.ext_lbl defn.body.stmts _ _ _ hb).2 l hm with
      hm0 | ⟨k, hk, hk2⟩
    · simp at hm0
    · rw [hk2]
      exact hfresh k hk
  have hdx : defn.def_lbl ≠ defn.ext_lbl := by
    simp only [Defn.def_lbl, Defn.ext_lbl, SymT.add_labl_hint]
    exact String.ne_append_done defn.name
  have hnot : INST.LBL defn.ext_lbl ∉ body_code := fun hm => (hlab _ hm).1 rfl
  refine ⟨symt3, body_code, hb1, ?_, ?_, ?_, hlab⟩
  · simp only [Defn.trans]
    have ha := Blck_trans_appends glbls defn.body defn.ext_lbl defn.body_symt
      (defn.code ++ [.LBL defn.def_lbl, .ENTER])
    simp only [Defn.ext_lbl, Defn.body_symt, Defn.def_lbl] at ha hb1
    rw [ha, hb1]
    simp [Defn.ext_lbl, Defn.def_lbl]
  · simp only [List.count_append, List.count_cons, List.count_nil]
    simp [hdx, List.count_eq_zero.2 hnot]
  · simp only [List.mem_append, List.mem_cons, INST.LBL.injEq, reduceCtorEq,
      List.not_mem_nil, or_false, not_or]
    exact ⟨fun h => hdx h.symm, hnot⟩

/-- The checked definition `def f() -> int: print(1 < 2); return 0`: its code
has one `LBL f_done`, second to last, and the labels `$L0`, `$L1`, `$L2`
defined in the body differ from `f_done` and `f`. -/
theorem Defn_trans_exit_unique_witness :
    ∃ (symt3 : SymT) (body_code : INST_vec),
      ex_defn_g.body.trans Prgm.trans_glbls.1 ex_defn_g.ext_lbl ex_defn_g.body_symt []
        = some (symt3, body_code) ∧
      Defn.trans Prgm.trans_glbls.1 ex_defn_g =
        some { ex_defn_g with
               symt := symt3,
               code := ex_defn_g.code ++ ([INST.LBL ex_defn_g.def_lbl, INST.ENTER]
                 ++ body_code ++ [INST.LBL ex_defn_g.ext_lbl, INST.LEAVE]) } ∧
      ([INST.LBL ex_defn_g.def_lbl, INST.ENTER] ++ body_code
        ++ [INST.LBL ex_defn_g.ext_lbl, INST.LEAVE]).count (INST.LBL ex_defn_g.ext_lbl) = 1 ∧
      INST.LBL ex_defn_g.ext_lbl ∉ [INST.LBL ex_defn_g.def_lbl, INST.ENTER] ++ body_code ∧
      (∀ l : Labl, INST.LBL l ∈ body_code → l ≠ ex_defn_g.ext_lbl ∧ l ≠ ex_defn_g.def_lbl) :=
  Defn_trans_exit_unique Prgm.trans_glbls.1 [] ex_defn_g0 ex_defn_g rfl
    (fun k _ => by
      constructor <;> intro h <;> have h1 := congrArg String.data h <;>
        simp [SymT.labl_name, Defn.ext_lbl, Defn.def_lbl, SymT.add_labl_hint, ex_defn_g,
          ex_defn_int] at h1)
/-! ## The return-behaviour algebra: algebraic laws -/

/-- C28: `rtns_seq` is associative up to success and result. For all summaries
`a`, `b`, `c` and whatever the locations, `seq(seq(a, b), c)` and
`seq(a, seq(b, c))` either both throw or both return the same summary. `Void`
is a left identity; it is a right identity for `Void` and `VoidOr(t)` but not
for `Def(t)`, since `seq(Def(t), Void)` throws. -/
theorem rtns_seq_assoc (a b c : Rtns) (t : Ty) (lo1 lo2 lo3 lo4 : Locn) :
    ((rtns_seq a b lo1).bind (fun x => rtns_seq x c lo2)).toOption =
      ((rtns_seq b c lo3).bind (fun y => rtns_seq a y lo4)).toOption ∧
    rtns_seq .Void a lo1 = .ok a ∧
    failed (rtns_seq (.Def t) .Void lo1) = true ∧
    rtns_seq (.Def t) .Void lo1 ≠ .ok (.Def t) ∧
    (a.holds_Def = false → rtns_seq a .Void lo1 = .ok a) := by
  refine ⟨?_, rfl, rfl, by simp [rtns_seq_Def_left], ?_⟩
  · rcases a with _ | u | u <;> rcases b with _ | v | v <;> rcases c with _ | w | w <;>
      simp [rtns_seq, Rtns.holds_Void, Rtns.holds_VoidOr, type_of, Except.bind,
        Except.toOption, Ty.op_eq_eq_decide] <;>
      (try split_ifs) <;> simp_all [Except.toOption]
  · intro h
    cases a <;> simp_all [rtns_seq, Rtns.holds_Void, Rtns.holds_VoidOr, Rtns.holds_Def]

/-- The law at `VoidOr(int)`, `Void`, `Def(int)`: both groupings give
`Def(int)`; and `seq(VoidOr(int), Void) = VoidOr(int)`. -/
theorem rtns_seq_assoc_witness :
    ((rtns_seq (.VoidOr .IntTy) .Void (Locn.at 1 1)).bind
        (fun x => rtns_seq x (.Def .IntTy) (Locn.at 2 1))).toOption = some (.Def .IntTy) ∧
    rtns_seq (.VoidOr .IntTy) .Void (Locn.at 1 1) = .ok (.VoidOr .IntTy) :=
  ⟨((rtns_seq_assoc (.VoidOr .IntTy) .Void (.Def .IntTy) .IntTy (Locn.at 1 1) (Locn.at 2 1)
      (Locn.at 2 1) (Locn.at 1 1)).1).trans rfl,
   (rtns_seq_assoc (.VoidOr .IntTy) .Void .Void .IntTy (Locn.at 1 1) (Locn.at 2 1)
      (Locn.at 2 1) (Locn.at 1 1)).2.2.2.2 rfl⟩

/-- C29: `rtns_sum` is commutative and idempotent. For all summaries `a`, `b`,
`sum(a, b)` and `sum(b, a)` are the same outcome: both throw (the same error)
or both return the same summary; `sum(a, a) = a`; and
`sum(a, Void) = sum(Void, a) = void_of(a)`, with `void_of` idempotent. -/
theorem rtns_sum_comm_idem (a b : Rtns) (lo : Locn) :
    rtns_sum a b lo = rtns_sum b a lo ∧
    failed (rtns_sum a b lo) = failed (rtns_sum b a lo) ∧
    rtns_sum a a lo = .ok a ∧
    rtns_sum a .Void lo = .ok (void_of a) ∧
    rtns_sum .Void a lo = .ok (void_of a) ∧
    void_of (void_of a) = void_of a := by
  have hc : rtns_sum a b lo = rtns_sum b a lo := by
    rcases a with _ | u | u <;> rcases b with _ | v | v <;>
      simp [rtns_sum, Rtns.holds_Void, Rtns.holds_VoidOr, type_of, void_of,
        Ty.op_eq_eq_decide] <;>
      (by_cases h : u = v
       · subst h; simp
       · have h2 : ¬ v = u := fun h1 => h h1.symm
         simp [h, h2])
  refine ⟨hc, by rw [hc], ?_, ?_, rfl, ?_⟩
  · cases a <;>
      simp [rtns_sum, Rtns.holds_Void, Rtns.holds_VoidOr, type_of, void_of, Ty.op_eq_self]
  · cases a <;> rfl
  · cases a <;> rfl

/-! ## Translation: literals, comparisons, conjunctions -/

/-- C21: value encoding of literals. For every literal and destination `d`,
`Ltrl::trans` appends exactly one instruction: `SET d, i` for an integer `i`;
`SET d, 1` for `True` and `SET d, 0` for `False`; `SET d, 0` for `None`; and
`STL d, L` for a string `s`, where `L` is the label `add_strg(s)` returns. No
temporary or label is minted: the counter and the entries of the table are
left as they are. -/
theorem Ltrl_trans_encoding (lo : Locn) (type : Ty) (dest : Name) (symt : SymT)
    (code : INST_vec) :
    (∀ i : Int, Expn.trans (.Ltrl (.int i) lo type) dest symt code =
      some (symt, code ++ [.SET dest i])) ∧
    Expn.trans (.Ltrl (.bool true) lo type) dest symt code =
      some (symt, code ++ [.SET dest 1]) ∧
    Expn.trans (.Ltrl (.bool false) lo type) dest symt code =
      some (symt, code ++ [.SET dest 0]) ∧
    Expn.trans (.Ltrl .none lo type) dest symt code = some (symt, code ++ [.SET dest 0]) ∧
    (∀ str : String, Expn.trans (.Ltrl (.string str) lo type) dest symt code =
      some ((symt.add_strg str).2, code ++ [.STL dest (symt.add_strg str).1])) ∧
    (∀ str : String, (symt.add_strg str).2.count = symt.count ∧
      (symt.add_strg str).2.info = symt.info) := by
  refine ⟨fun _ => rfl, rfl, rfl, rfl, fun _ => rfl, fun str => ⟨SymT.add_strg_count _ _, ?_⟩⟩
  unfold SymT.add_strg
  split <;> rfl

/-- C22: value-mode lowering of boolean operators. For every `Less` or `And`
expression `e` and destination `d`, `e.trans` mints three labels `Lt`, `Lf`,
`Ld`, in that order and before the condition code runs, and appends exactly
`cond(e; Lt, Lf) ++ [LBL Lt, SET d,1, JMP Ld, LBL Lf, SET d,0, LBL Ld]`, where
`cond(e; Lt, Lf)` is what `e.trans_cndn(Lt, Lf)` emits on the table after the
three mintings; it throws exactly when the condition code does. -/
theorem Less_And_trans_value (left rght : Expn) (lo : Locn) (type : Ty) (dest : Name)
    (symt : SymT) (code : INST_vec) :
    Expn.trans (.Less left rght lo type) dest symt code =
      (Expn.trans_cndn (.Less left rght lo type) symt.add_labl.1 symt.add_labl.2.add_labl.1
          symt.add_labl.2.add_labl.2.add_labl.2 []).map (fun r =>
        (r.1, code ++ r.2 ++ [.LBL symt.add_labl.1, .SET dest 1,
          .JMP symt.add_labl.2.add_labl.2.add_labl.1, .LBL symt.add_labl.2.add_labl.1,
          .SET dest 0, .LBL symt.add_labl.2.add_labl.2.add_labl.1])) ∧
    Expn.trans (.And left rght lo type) dest symt code =
      (Expn.trans_cndn (.And left rght lo type) symt.add_labl.1 symt.add_labl.2.add_labl.1
          symt.add_labl.2.add_labl.2.add_labl.2 []).map (fun r =>
        (r.1, code ++ r.2 ++ [.LBL symt.add_labl.1, .SET dest 1,
          .JMP symt.add_labl.2.add_labl.2.add_labl.1, .LBL symt.add_labl.2.add_labl.1,
          .SET dest 0, .LBL symt.add_labl.2.add_labl.2.add_labl.1])) := by
  constructor
  · have ha := (Expn_trans_appends (.Less left rght lo type)).2 symt.add_labl.1
      symt.add_labl.2.add_labl.1 symt.add_labl.2.add_labl.2.add_labl.2 code
    simp only [Expn.trans, Less.trans]
    simp only [Expn.trans_cndn] at ha ⊢
    rw [ha]
    rcases Less.trans_cndn _ _ _ _ _ _ _ [] with _ | ⟨symt4, code1⟩ <;> simp
  · have ha := (Expn_trans_appends (.And left rght lo type)).2 symt.add_labl.1
      symt.add_labl.2.add_labl.1 symt.add_labl.2.add_labl.2.add_labl.2 code
    simp only [Expn.trans, And.trans]
    simp only [Expn.trans_cndn] at ha ⊢
    rw [ha]
    rcases And.trans_cndn _ _ _ _ _ [] with _ | ⟨symt4, code1⟩ <;> simp

/-- C23: condition-mode lowering of `<`. For every `Less(a, b)` whose operands
both have the type slot `IntTy`, `Less::trans_cndn` mints two temporaries `s1`
then `s2` before translating either operand, appends the value-mode code of
`a` into `s1`, then the value-mode code of `b` into `s2`, then the one
instruction `BCN lt, s1, s2, then, else`; it throws exactly when the
translation of an operand does. -/
theorem Less_trans_cndn_BCN (left rght : Expn) (lo : Locn) (type : Ty)
    (then_lbl else_lbl : Labl) (symt : SymT) (code : INST_vec)
    (hl : left.type = .IntTy) (hr : rght.type = .IntTy) :
    Expn.trans_cndn (.Less left rght lo type) then_lbl else_lbl symt code =
      (left.trans (symt.add_temp .IntTy).1 ((symt.add_temp .IntTy).2.add_temp .IntTy).2
          []).bind (fun ra =>
        (rght.trans ((symt.add_temp .IntTy).2.add_temp .IntTy).1 ra.1 []).map (fun rb =>
          (rb.1, code ++ ra.2 ++ rb.2
            ++ [.BCN "lt" (symt.add_temp .IntTy).1 ((symt.add_temp .IntTy).2.add_temp .IntTy).1
              then_lbl else_lbl]))) := by
  simp only [Expn.trans_cndn, Less.trans_cndn, hl, hr, is_int, Bool.and_self, if_true]
  rw [(Expn_trans_appends left).1 _ _ code]
  rcases left.trans _ _ [] with _ | ⟨symt3, code1⟩
  · simp
  · simp only [Option.map_some', Option.some_bind]
    rw [(Expn_trans_appends rght).1 _ _ (code ++ code1)]
    rcases rght.trans _ _ [] with _ | ⟨symt4, code2⟩ <;> simp

/-- The condition `a < 10` with labels `Lt`, `Lf` on the empty table:
`MOV $t0,a; SET $t1,10; BCN lt,$t0,$t1,Lt,Lf`. -/
theorem Less_trans_cndn_BCN_witness :
    (Expn.trans_cndn ex_less_a_10 "Lt" "Lf" SymT.empty []).map Prod.snd =
      some [.MOV "$t0" "a", .SET "$t1" 10, .BCN "lt" "$t0" "$t1" "Lt" "Lf"] := by
  rw [show ex_less_a_10 = .Less (.Lkup "a" (Locn.at 1 7) .IntTy)
      (.Ltrl (.int 10) (Locn.at 1 9) .IntTy) (Locn.at 1 8) .BoolTy from rfl,
    Less_trans_cndn_BCN (.Lkup "a" (Locn.at 1 7) .IntTy) (.Ltrl (.int 10) (Locn.at 1 9) .IntTy)
      (Locn.at 1 8) .BoolTy "Lt" "Lf" SymT.empty [] rfl rfl]
  decide
/-- C24, counterexample: for integer variables `a` and `b`, the code of the
checked statement `print(a < 10 and b < 20)` does not begin with a `BCN` on
`a` and `10`: its first instruction is `MOV $t5,a`, and it has sixteen
instructions, not twelve. -/
theorem Prnt_and_not_BCN_first :
    Stmt.chck .Void [] ex_symt_a_b ex_print_and0 = ((ex_print_and, ex_symt_a_b), .ok .Void) ∧
    (Prnt.trans Prgm.trans_glbls.1 "main_done" ex_symt_a_b [] ex_and_a_b).map
      (fun r => r.2.head?) = some (some (.MOV "$t5" "a")) ∧
    (Prnt.trans Prgm.trans_glbls.1 "main_done" ex_symt_a_b [] ex_and_a_b).map
      (fun r => r.2.length) = some 16 ∧
    ¬ ∃ (x y Lc Lf : String) (rest : INST_vec),
      (Prnt.trans Prgm.trans_glbls.1 "main_done" ex_symt_a_b [] ex_and_a_b).map Prod.snd
        = some (.BCN "lt" x y Lc Lf :: rest) := by
  refine ⟨rfl, by decide, by decide, ?_⟩
  rintro ⟨x, y, Lc, Lf, rest, h⟩
  have h1 : (Prnt.trans Prgm.trans_glbls.1 "main_done" ex_symt_a_b [] ex_and_a_b).map
      (fun r => r.2.head?) = some (some (.MOV "$t5" "a")) := by decide
  rcases hp : Prnt.trans Prgm.trans_glbls.1 "main_done" ex_symt_a_b [] ex_and_a_b with
    _ | ⟨symt1, code1⟩
  · rw [hp] at h; simp at h
  · rw [hp] at h h1
    simp at h h1
    rw [h] at h1
    simp at h1

/-- C24, amended: for integer variables `a` and `b`, translating the checked
statement `print(a < 10 and b < 20)` appends, on any table with counter `n`,
`MOV s1,a; SET s2,10; BCN lt,s1,s2,Lc,Lf; LBL Lc; MOV s3,b; SET s4,20;
BCN lt,s3,s4,Lt,Lf; LBL Lt; STL tmp,TRUE_LBL; JMP Ld; LBL Lf;
STL tmp,FALSE_LBL; LBL Ld; PTS tmp`, followed by the end-of-line print
`STL u,EOLN_LBL; PTS u`: the operands of each comparison are first brought
into minted temporaries. Here `Lt`, `Lf`, `Ld`, `tmp`, `Lc`, `s1`, `s2`, `s3`,
`s4`, `u` are minted in this order, at the counter values `n`, ..., `n + 9`. -/
theorem Prnt_and_code (glbls : StrgLbls) (exit : Labl) (symt : SymT) (code : INST_vec) :
    (Prnt.trans glbls exit symt code ex_and_a_b).map Prod.snd =
      some (code ++
        [.MOV (SymT.temp_name (symt.count + 5)) "a",
         .SET (SymT.temp_name (symt.count + 6)) 10,
         .BCN "lt" (SymT.temp_name (symt.count + 5)) (SymT.temp_name (symt.count + 6))
           (SymT.labl_name (symt.count + 4)) (SymT.labl_name (symt.count + 1)),
         .LBL (SymT.labl_name (symt.count + 4)),
         .MOV (SymT.temp_name (symt.count + 7)) "b",
         .SET (SymT.temp_name (symt.count + 8)) 20,
         .BCN "lt" (SymT.temp_name (symt.count + 7)) (SymT.temp_name (symt.count + 8))
           (SymT.labl_name symt.count) (SymT.labl_name (symt.count + 1)),
         .LBL (SymT.labl_name symt.count),
         .STL (SymT.temp_name (symt.count + 3)) glbls.TRUE_STRG_LBL,
         .JMP (SymT.labl_name (symt.count + 2)),
         .LBL (SymT.labl_name (symt.count + 1)),
         .STL (SymT.temp_name (symt.count + 3)) glbls.FLSE_STRG_LBL,
         .LBL (SymT.labl_name (symt.count + 2)),
         .PTS (SymT.temp_name (symt.count + 3)),
         .STL (SymT.temp_name (symt.count + 9)) glbls.EOLN_STRG_LBL,
         .PTS (SymT.temp_name (symt.count + 9))]) := by
  simp [Prnt.trans, Prnt.trans_valu, ex_and_a_b, ex_less_a_10, ex_less_b_20, Expn.type,
    Expn.trans_cndn, And.trans_cndn, Less.trans_cndn, Expn.trans, Lkup.trans, Ltrl.trans,
    is_int, SymT.add_labl, SymT.add_temp]
/-- The code of `print(a < 10 and b < 20)` on the table of the integer
variables `a` and `b`, with the global string labels of `Prgm::trans`. -/
theorem Prnt_and_code_witness :
    (Prnt.trans Prgm.trans_glbls.1 "main_done" ex_symt_a_b [] ex_and_a_b).map Prod.snd =
      some [.MOV "$t5" "a", .SET "$t6" 10, .BCN "lt" "$t5" "$t6" "$L4" "$L1", .LBL "$L4",
        .MOV "$t7" "b", .SET "$t8" 20, .BCN "lt" "$t7" "$t8" "$L0" "$L1", .LBL "$L0",
        .STL "$t3" "$S1", .JMP "$L2", .LBL "$L1", .STL "$t3" "$S2", .LBL "$L2", .PTS "$t3",
        .STL "$t9" "$S0", .PTS "$t9"] :=
  (Prnt_and_code Prgm.trans_glbls.1 "main_done" ex_symt_a_b []).trans (by decide)

/-! ## Definitions end in their only return -/

/-- A statement other than a return that checks yields `Void`. -/
theorem Stmt.chck_not_rtn (expd : Rtns) (defs : Defs) (symt : SymT) (stmt : Stmt)
    (st : Stmt × SymT) (rtns : Rtns) (hr : stmt.is_rtn = false)
    (h : Stmt.chck expd defs symt stmt = (st, .ok rtns)) : rtns = .Void := by
  cases stmt <;> simp [Stmt.is_rtn] at hr <;>
    simp only [Stmt.chck, Ntro.chck, Asgn.chck, Prnt.chck, Pass.chck] at h <;>
    (repeat' split at h) <;> simp_all

/-- The loop of `Blck::chck` under an obligation `Def(t)`: when it completes,
either no statement is a return and the summary is `Void`, or the last
statement is the only return and the summary is `Def`. -/
theorem Blck.chck_loop_last_rtn (t0 : Ty) (defs : Defs) (stmts : List Stmt) :
    ∀ (symt : SymT) (x : List Stmt × SymT) (rtns : Rtns),
      Blck.chck_loop (.Def t0) defs .Void symt stmts = (x, .ok rtns) →
      (rtns = .Void ∧ ∀ s ∈ stmts, s.is_rtn = false) ∨
      (rtns.holds_Def = true ∧ ∃ pre last, stmts = pre ++ [last] ∧ last.is_rtn = true ∧
        ∀ s ∈ pre, s.is_rtn = false) := by
  induction stmts with
  | nil =>
    intro symt x rtns h
    simp [Blck.chck_loop] at h
    exact Or.inl ⟨h.2.symm, by simp⟩
  | cons stmt rest ih =>
    intro symt x rtns h
    rcases hs : Stmt.chck (.Def t0) defs symt stmt with ⟨⟨stmt1, symt1⟩, e | stmt_rtns⟩
    · simp [Blck.chck_loop, hs] at h
    · by_cases hr : stmt.is_rtn = true
      · have hd := Stmt.chck_is_rtn (.Def t0) defs symt stmt _ _ rfl hr hs
        cases stmt_rtns with
        | Void => simp [Rtns.holds_Def] at hd
        | VoidOr u => simp [Rtns.holds_Def] at hd
        | Def u =>
          cases rest with
          | nil =>
            have hq : rtns_seq .Void (.Def u) stmt.locn = .ok (.Def u) := rfl
            simp [Blck.chck_loop, hs, hq] at h
            exact Or.inr ⟨by rw [← h.2]; rfl, [], stmt, rfl, hr, by simp⟩
          | cons n post =>
            have hf := Blck.chck_loop_after_Def (.Def t0) defs .Void symt symt1 stmt n stmt1 post
              u hs
            rw [h] at hf
            simp [failed] at hf
      · have hr1 : stmt.is_rtn = false := by simpa using hr
        have hv := Stmt.chck_not_rtn (.Def t0) defs symt stmt _ _ hr1 hs
        subst hv
        have hq : rtns_seq .Void .Void stmt.locn = .ok .Void := rfl
        simp [Blck.chck_loop, hs, hq] at h
        rcases ih symt1 (Blck.chck_loop (.Def t0) defs .Void symt1 rest).1 rtns
          (by rw [← h.2]) with ⟨h1, h2⟩ | ⟨h1, pre, last, h2, h3, h4⟩
        · exact Or.inl ⟨h1, by simpa [hr1] using h2⟩
        · refine Or.inr ⟨h1, stmt :: pre, last, by simp [h2], h3, ?_⟩
          intro s hs1
          rcases List.mem_cons.mp hs1 with h5 | h5
          · rw [h5]; exact hr1
          · exact h4 s h5

/-- C25, counterexample: the procedure `def p() -> None: x = 1`, where `x`
was never introduced, has no return statement in its body and is rejected,
but with the error "Variable 'x' never introduced." of its statement, not
with "Definition body never returns.". -/
theorem Defn_chck_no_return_other_error :
    (∀ s ∈ ex_defn_asgn.body.stmts, s.is_rtn = false) ∧
    (Defn.chck [] ex_defn_asgn).2 =
      .error (.mk (Locn.at 1 1) "Variable 'x' never introduced.") ∧
    (Defn.chck [] ex_defn_asgn).2 ≠
      .error (.mk ex_defn_asgn.body.locn "Definition body never returns.") := by
  have h : (Defn.chck [] ex_defn_asgn).2 =
      .error (.mk (Locn.at 1 1) "Variable 'x' never introduced.") := rfl
  refine ⟨by decide, h, ?_⟩
  rw [h]
  simp

/-- C25, amended: for every definition, whatever its declared return type, if
`Defn::chck` succeeds then the body is not empty, its last statement is a
return statement (`FRtn` or `PRtn`) and no earlier statement of the body is a
return. Hence `Defn::chck` rejects every definition whose body has no return
statement, and when the statements of such a body check without error the
error is "Definition body never returns." at the body; this is the error for
the body `pass`, whatever the declared type, the table and the definitions. -/
theorem Defn_chck_last_return (defs : Defs) (defn0 defn : Defn) (lo : Locn) :
    (Defn.chck defs defn0 = (defn, .ok ()) →
      defn0.body.stmts ≠ [] ∧
      ∃ pre last, defn0.body.stmts = pre ++ [last] ∧ last.is_rtn = true ∧
        ∀ s ∈ pre, s.is_rtn = false) ∧
    ((∀ s ∈ defn0.body.stmts, s.is_rtn = false) →
      failed (Defn.chck defs defn0).2 = true ∧
      (failed (Blck.chck (.Def defn0.rety) defs defn0.symt defn0.body).2 = false →
        (Defn.chck defs defn0).2 =
          .error (.mk defn0.body.locn "Definition body never returns."))) ∧
    (defn0.body.stmts = [.Pass lo] →
      (Defn.chck defs defn0).2 =
        .error (.mk defn0.body.locn "Definition body never returns.")) := by
  refine ⟨?_, ?_, ?_⟩
  · intro h
    simp only [Defn.chck, Blck.chck] at h
    rcases hl : Blck.chck_loop (.Def defn0.rety) defs .Void defn0.symt defn0.body.stmts with
      ⟨⟨stmts1, symt1⟩, e | rtns⟩
    · simp [hl] at h
    · simp only [hl] at h
      rcases Blck.chck_loop_last_rtn defn0.rety defs defn0.body.stmts defn0.symt _ _ hl with
        ⟨h1, _⟩ | ⟨_, pre, last, h2, h3, h4⟩
      · subst h1
        simp [Rtns.holds_Void] at h
      · exact ⟨by simp [h2], pre, last, h2, h3, h4⟩
  · intro hn
    simp only [Defn.chck, Blck.chck]
    rcases hl : Blck.chck_loop (.Def defn0.rety) defs .Void defn0.symt defn0.body.stmts with
      ⟨⟨stmts1, symt1⟩, e | rtns⟩
    · simp [failed]
    · rcases Blck.chck_loop_last_rtn defn0.rety defs defn0.body.stmts defn0.symt _ _ hl with
        ⟨h1, _⟩ | ⟨_, pre, last, h2, h3, _⟩
      · subst h1
        simp [Rtns.holds_Void, failed]
      · have := hn last (by simp [h2])
        rw [h3] at this
        simp at this
  · intro hp
    simp [Defn.chck, Blck.chck, hp, Blck.chck_loop, Stmt.chck, Pass.chck, rtns_seq,
      Rtns.holds_Void]

/-- The procedure `def p() -> None: pass; return` checks, and its body ends in
its only return; the procedure `def p() -> None: pass` is rejected with
"Definition body never returns.". -/
theorem Defn_chck_last_return_witness :
    Defn.chck [] ex_defn_pass_rtn = (ex_defn_pass_rtn, .ok ()) ∧
    (ex_defn_pass_rtn.body.stmts ≠ [] ∧
      ∃ pre last, ex_defn_pass_rtn.body.stmts = pre ++ [last] ∧ last.is_rtn = true ∧
        ∀ s ∈ pre, s.is_rtn = false) ∧
    (∀ s ∈ ex_defn_pass.body.stmts, s.is_rtn = false) ∧
    (Defn.chck [] ex_defn_pass).2 =
      .error (.mk (Locn.at 1 1) "Definition body never returns.") :=
  ⟨rfl,
   (Defn_chck_last_return [] ex_defn_pass_rtn ex_defn_pass_rtn (Locn.at 1 1)).1 rfl,
   by decide,
   ((Defn_chck_last_return [] ex_defn_pass ex_defn_pass (Locn.at 1 1)).2.1 (by decide)).2 rfl⟩
/-! ## Condition-mode translation of checked expressions ends in a branch -/

/-- A step that returns and only appends yields the code it was given followed
by what it emits. -/
theorem Returns_appends_some (f : SymT → INST_vec → Option (SymT × INST_vec))
    (hr : Returns f) (ha : Appends f) (symt : SymT) (code : INST_vec) :
    ∃ symt1 c, f symt code = some (symt1, code ++ c) := by
  obtain ⟨r, h⟩ := hr symt []
  exact ⟨r.1, r.2, by rw [ha symt code, h]; rfl⟩

/-- An expression that checks with type `BoolTy` is a condition, and its
condition-mode translation returns code that ends in a branch. -/
theorem Expn_chck_cndn_ends (defs : Defs) (symt : SymT) (e : Expn) :
    ∀ (e1 : Expn) (T : Ty), Expn.chck defs symt e = (e1, .ok T) → T = .BoolTy →
      e1.is_cndn = true ∧
      ∀ (t l : Labl) (symt1 : SymT) (code : INST_vec), ∃ symt2 pre last,
        e1.trans_cndn t l symt1 code = some (symt2, code ++ pre ++ [last]) ∧
        last.branches_to t l = true := by
  induction e with
  | Plus left rght lo type ihl ihr =>
    intro e1 T h hT
    rcases hl : Expn.chck defs symt left with ⟨l1, e | tl⟩
    · simp [Expn.chck, hl] at h
    · rcases hr : Expn.chck defs symt rght with ⟨r1, e | tr⟩
      · simp [Expn.chck, hl, hr] at h
      · by_cases hc : (is_int tl && is_int tr) = true
        · simp [Expn.chck, hl, hr, hc] at h
          rw [← h.2] at hT
          simp at hT
        · simp [Expn.chck, hl, hr, hc] at h
  | Less left rght lo type ihl ihr =>
    intro e1 T h hT
    rcases hl : Expn.chck defs symt left with ⟨l1, e | tl⟩
    · simp [Expn.chck, hl] at h
    · rcases hr : Expn.chck defs symt rght with ⟨r1, e | tr⟩
      · simp [Expn.chck, hl, hr] at h
      · by_cases hc : Ty.op_eq tl tr = true
        · by_cases hi : is_int tl = true
          · simp [Expn.chck, hl, hr, hc, hi] at h
            obtain ⟨h1, h2⟩ := h
            subst h1
            have htl : tl = .IntTy := (is_int_iff tl).mp hi
            have htr : tr = .IntTy := by rw [← (Ty.op_eq_iff tl tr).mp hc]; exact htl
            have hlt : l1.type = .IntTy := by
              rw [(Expn.chck_slots defs symt left l1 tl hl).1]; exact htl
            have hrt : r1.type = .IntTy := by
              rw [(Expn.chck_slots defs symt rght r1 tr hr).1]; exact htr
            refine ⟨rfl, ?_⟩
            intro t l symt1 code
            obtain ⟨s3, c1, hc1⟩ := Returns_appends_some _
              ((Expn_chck_trans_returns defs symt left l1 tl hl).1 (symt1.add_temp .IntTy).1)
              ((Expn_trans_appends l1).1 (symt1.add_temp .IntTy).1)
              ((symt1.add_temp .IntTy).2.add_temp .IntTy).2 code
            obtain ⟨s4, c2, hc2⟩ := Returns_appends_some _
              ((Expn_chck_trans_returns defs symt rght r1 tr hr).1
                ((symt1.add_temp .IntTy).2.add_temp .IntTy).1)
              ((Expn_trans_appends r1).1 ((symt1.add_temp .IntTy).2.add_temp .IntTy).1)
              s3 (code ++ c1)
            refine ⟨s4, c1 ++ c2, .BCN "lt" (symt1.add_temp .IntTy).1
              ((symt1.add_temp .IntTy).2.add_temp .IntTy).1 t l, ?_, by simp [INST.branches_to]⟩
            simp [Expn.trans_cndn, Less.trans_cndn, hlt, hrt, is_int, hc1, hc2]
          · simp [Expn.chck, hl, hr, hc, hi] at h
        · simp [Expn.chck, hl, hr, hc] at h
  | And left rght lo type ihl ihr =>
    intro e1 T h hT
    rcases hl : Expn.chck defs symt left with ⟨l1, e | tl⟩
    · simp [Expn.chck, hl] at h
    · rcases hr : Expn.chck defs symt rght with ⟨r1, e | tr⟩
      · simp [Expn.chck, hl, hr] at h
      · by_cases hc : (is_bool tl && is_bool tr) = true
        · simp [Expn.chck, hl, hr, hc] at h
          obtain ⟨h1, h2⟩ := h
          subst h1
          simp only [Bool.and_eq_true, is_bool_iff] at hc
          obtain ⟨hl1, hl2⟩ := ihl l1 tl hl hc.1
          obtain ⟨hr1, hr2⟩ := ihr r1 tr hr hc.2
          refine ⟨by simp [Expn.is_cndn, hl1, hr1], ?_⟩
          intro t l symt1 code
          obtain ⟨s2, pre1, last1, hc1, _⟩ := hl2 symt1.add_labl.1 l symt1.add_labl.2 code
          obtain ⟨s3, pre2, last2, hc2, hb2⟩ := hr2 t l s2
            (code ++ pre1 ++ [last1] ++ [.LBL symt1.add_labl.1])
          refine ⟨s3, pre1 ++ [last1] ++ [.LBL symt1.add_labl.1] ++ pre2, last2, ?_, hb2⟩
          simp only [Expn.trans_cndn, And.trans_cndn, hc1, hc2]
          simp
        · simp [Expn.chck, hl, hr, hc] at h
  | Ltrl valu lo type =>
    intro e1 T h hT
    cases valu with
    | int i => simp [Expn.chck] at h; rw [← h.2] at hT; simp at hT
    | string sv => simp [Expn.chck] at h; rw [← h.2] at hT; simp at hT
    | none => simp [Expn.chck] at h; rw [← h.2] at hT; simp at hT
    | bool b =>
      simp [Expn.chck] at h
      obtain ⟨h1, _⟩ := h
      subst h1
      refine ⟨rfl, ?_⟩
      intro t l symt1 code
      cases b
      · exact ⟨symt1, [], .JMP l, by simp [Expn.trans_cndn, Ltrl.trans_cndn],
          by simp [INST.branches_to]⟩
      · exact ⟨symt1, [], .JMP t, by simp [Expn.trans_cndn, Ltrl.trans_cndn],
          by simp [INST.branches_to]⟩
  | Lkup name lo type =>
    intro e1 T h hT
    by_cases hn : symt.has_info name = true
    · simp [Expn.chck, hn] at h
      obtain ⟨h1, _⟩ := h
      subst h1
      refine ⟨rfl, ?_⟩
      intro t l symt1 code
      exact ⟨symt1, [], .BCZ "gtz" name t l, by simp [Expn.trans_cndn, Lkup.trans_cndn],
        by simp [INST.branches_to]⟩
    · simp [Expn.chck, hn] at h
  | Inpt expn lo type ih =>
    intro e1 T h hT
    rcases he : Expn.chck defs symt expn with ⟨x1, e | t⟩
    · simp [Expn.chck, he] at h
    · by_cases hc : is_str t = true
      · simp [Expn.chck, he, hc] at h
        rw [← h.2] at hT
        simp at hT
      · simp [Expn.chck, he, hc] at h

/-- C26: after a successful check, condition-mode translation is safe and ends
in a branch. For every expression whose `chck` succeeded with `BoolTy`, the
checked expression is a boolean literal, a `Lkup`, a `Less` or an `And` of
such expressions; for all labels `then_lbl` and `else_lbl`, every table and
every code, its `trans_cndn` returns (`std::get<bool>` does not fail), it does
not act as the no-op base `Expn::trans_cndn`, and the code it appends is not
empty and ends in a `JMP`, `BCZ` or `BCN` all of whose targets are `then_lbl`
or `else_lbl`. -/
theorem Expn_chck_trans_cndn_branch (defs : Defs) (symt : SymT) (e e1 : Expn)
    (h : Expn.chck defs symt e = (e1, .ok .BoolTy)) :
    e1.is_cndn = true ∧
    ∀ (then_lbl else_lbl : Labl) (symt1 : SymT) (code : INST_vec),
      e1.trans_cndn then_lbl else_lbl symt1 code ≠
        Expn.trans_cndn_base then_lbl else_lbl symt1 code ∧
      ∃ symt2 pre last,
        e1.trans_cndn then_lbl else_lbl symt1 code = some (symt2, code ++ pre ++ [last]) ∧
        last.branches_to then_lbl else_lbl = true := by
  obtain ⟨h1, h2⟩ := Expn_chck_cndn_ends defs symt e e1 .BoolTy h rfl
  refine ⟨h1, fun t l symt1 code => ⟨?_, h2 t l symt1 code⟩⟩
  obtain ⟨s2, pre, last, hc, _⟩ := h2 t l symt1 code
  rw [hc]
  intro hb
  simp only [Expn.trans_cndn_base, Option.some.injEq, Prod.mk.injEq] at hb
  have := congrArg List.length hb.2
  simp at this

/-- The expression `a < 10 and b < 20` over integer variables `a` and `b`
checks with `BoolTy`, so its condition-mode translation ends in a branch to
one of the two labels given. -/
theorem Expn_chck_trans_cndn_branch_witness :
    Expn.chck [] ex_symt_a_b ex_and_a_b0 = (ex_and_a_b, .ok .BoolTy) ∧
    ex_and_a_b.is_cndn = true ∧
    ∀ (then_lbl else_lbl : Labl) (symt1 : SymT) (code : INST_vec),
      ex_and_a_b.trans_cndn then_lbl else_lbl symt1 code ≠
        Expn.trans_cndn_base then_lbl else_lbl symt1 code ∧
      ∃ symt2 pre last,
        ex_and_a_b.trans_cndn then_lbl else_lbl symt1 code =
          some (symt2, code ++ pre ++ [last]) ∧
        last.branches_to then_lbl else_lbl = true :=
  ⟨rfl, Expn_chck_trans_cndn_branch [] ex_symt_a_b ex_and_a_b0 ex_and_a_b rfl⟩
/-! ## Label closure of the emitted code -/

theorem targets_closed_iff (extra : List Labl) (out : INST_vec) :
    targets_closed extra out = true ↔ Resolves extra out out := by
  simp [targets_closed, Resolves, List.all_eq_true]

theorem Resolves_mono {X Y : List Labl} {a c d : INST_vec} (h : Resolves X a c)
    (hX : ∀ l ∈ X, l ∈ Y ∨ INST.LBL l ∈ d) (hc : ∀ l, INST.LBL l ∈ c → INST.LBL l ∈ d) :
    Resolves Y a d := by
  intro i hi l hl
  rcases h i hi l hl with h1 | h1
  · exact hX l h1
  · exact Or.inr (hc l h1)

theorem Resolves_append {X : List Labl} {a b c : INST_vec} (ha : Resolves X a c)
    (hb : Resolves X b c) : Resolves X (a ++ b) c := by
  intro i hi l hl
  rcases List.mem_append.mp hi with h | h
  · exact ha i h l hl
  · exact hb i h l hl

theorem Closes_mono {X Y : List Labl} {f : SymT → INST_vec → Option (SymT × INST_vec)}
    (h : Closes X f) (hX : ∀ l ∈ X, l ∈ Y) : Closes Y f := by
  intro symt code r hr
  obtain ⟨out, h1, h2⟩ := h symt code r hr
  exact ⟨out, h1, Resolves_mono h2 (fun l hl => Or.inl (hX l hl)) (fun _ h => h)⟩

theorem Plus_trans_closes (left_trans rght_trans : TransFn) (left_type rght_type type : Ty)
    (hl : ∀ d, Closes [] (left_trans d)) (hr : ∀ d, Closes [] (rght_trans d)) (dest : Name) :
    Closes [] (Plus.trans left_trans rght_trans left_type rght_type type dest) := by
  intro symt code r h
  unfold Plus.trans at h
  split at h
  · simp only [] at h
    rcases h1 : left_trans (symt.add_temp left_type).1
      ((symt.add_temp left_type).2.add_temp rght_type).2 code with _ | ⟨s3, c1⟩
    · simp [h1] at h
    · rcases h2 : rght_trans ((symt.add_temp left_type).2.add_temp rght_type).1 s3 c1 with
        _ | ⟨s4, c2⟩
      · simp [h1, h2] at h
      · simp [h1, h2] at h
        obtain ⟨o1, e1, r1⟩ := hl _ _ _ _ h1
        obtain ⟨o2, e2, r2⟩ := hr _ _ _ _ h2
        simp only at e1 e2
        subst e1 e2
        refine ⟨o1 ++ o2 ++ [.ADD dest (symt.add_temp left_type).1
          ((symt.add_temp left_type).2.add_temp rght_type).1], by rw [← h]; simp, ?_⟩
        refine Resolves_append (Resolves_append ?_ ?_) ?_
        · exact Resolves_mono r1 (by simp) (fun l hm => by simp [hm])
        · exact Resolves_mono r2 (by simp) (fun l hm => by simp [hm])
        · intro i hi l hl1
          simp at hi
          subst hi
          simp [INST.targets] at hl1
  · simp at h
    exact ⟨[], by rw [← h]; simp, by simp [Resolves]⟩

theorem Less_trans_cndn_closes (left_trans rght_trans : TransFn) (left_type rght_type : Ty)
    (hl : ∀ d, Closes [] (left_trans d)) (hr : ∀ d, Closes [] (rght_trans d))
    (then_lbl else_lbl : Labl) :
    Closes [then_lbl, else_lbl]
      (Less.trans_cndn left_trans rght_trans left_type rght_type then_lbl else_lbl) := by
  intro symt code r h
  unfold Less.trans_cndn at h
  split at h
  · simp only [] at h
    rcases h1 : left_trans (symt.add_temp left_type).1
      ((symt.add_temp left_type).2.add_temp rght_type).2 code with _ | ⟨s3, c1⟩
    · simp [h1] at h
    · rcases h2 : rght_trans ((symt.add_temp left_type).2.add_temp rght_type).1 s3 c1 with
        _ | ⟨s4, c2⟩
      · simp [h1, h2] at h
      · simp [h1, h2] at h
        obtain ⟨o1, e1, r1⟩ := hl _ _ _ _ h1
        obtain ⟨o2, e2, r2⟩ := hr _ _ _ _ h2
        simp only at e1 e2
        subst e1 e2
        refine ⟨o1 ++ o2 ++ [.BCN "lt" (symt.add_temp left_type).1
          ((symt.add_temp left_type).2.add_temp rght_type).1 then_lbl else_lbl],
          by rw [← h]; simp, ?_⟩
        refine Resolves_append (Resolves_append ?_ ?_) ?_
        · exact Resolves_mono r1 (by simp) (fun l hm => by simp [hm])
        · exact Resolves_mono r2 (by simp) (fun l hm => by simp [hm])
        · intro i hi l hl1
          simp at hi
          subst hi
          simp [INST.targets] at hl1
          rcases hl1 with rfl | rfl <;> simp
  · simp at h
    exact ⟨[], by rw [← h]; simp, by simp [Resolves]⟩

theorem Less_trans_closes (self_cndn : CndnFn) (hs : ∀ t e, Closes [t, e] (self_cndn t e))
    (dest : Name) : Closes [] (Less.trans self_cndn dest) := by
  intro symt code r h
  unfold Less.trans at h
  simp only [] at h
  rcases h1 : self_cndn symt.add_labl.1 symt.add_labl.2.add_labl.1
    symt.add_labl.2.add_labl.2.add_labl.2 code with _ | ⟨s4, c1⟩
  · simp [h1] at h
  · simp [h1] at h
    obtain ⟨o1, e1, r1⟩ := hs _ _ _ _ _ h1
    simp only at e1
    subst e1
    refine ⟨o1 ++ [.LBL symt.add_labl.1, .SET dest 1,
      .JMP symt.add_labl.2.add_labl.2.add_labl.1, .LBL symt.add_labl.2.add_labl.1,
      .SET dest 0, .LBL symt.add_labl.2.add_labl.2.add_labl.1], by rw [← h]; simp, ?_⟩
    refine Resolves_append ?_ ?_
    · refine Resolves_mono r1 ?_ (fun l hm => by simp [hm])
      intro l hl1
      simp at hl1
      rcases hl1 with rfl | rfl <;> simp
    · intro i hi l hl1
      simp at hi
      rcases hi with rfl | rfl | rfl | rfl | rfl | rfl <;> simp [INST.targets] at hl1
      subst hl1
      simp

theorem And_trans_closes (self_cndn : CndnFn) (hs : ∀ t e, Closes [t, e] (self_cndn t e))
    (dest : Name) : Closes [] (And.trans self_cndn dest) :=
  Less_trans_closes self_cndn hs dest

theorem And_trans_cndn_closes (left_cndn rght_cndn : CndnFn)
    (hl : ∀ t e, Closes [t, e] (left_cndn t e)) (hr : ∀ t e, Closes [t, e] (rght_cndn t e))
    (then_lbl else_lbl : Labl) :
    Closes [then_lbl, else_lbl] (And.trans_cndn left_cndn rght_cndn then_lbl else_lbl) := by
  intro symt code r h
  unfold And.trans_cndn at h
  simp only [] at h
  rcases h1 : left_cndn symt.add_labl.1 else_lbl symt.add_labl.2 code with _ | ⟨s2, c1⟩
  · simp [h1] at h
  · simp only [h1] at h
    obtain ⟨o1, e1, r1⟩ := hl _ _ _ _ _ h1
    obtain ⟨o2, e2, r2⟩ := hr _ _ _ _ _ h
    simp only at e1
    subst e1
    refine ⟨o1 ++ [.LBL symt.add_labl.1] ++ o2, by rw [e2]; simp, ?_⟩
    refine Resolves_append (Resolves_append ?_ ?_) ?_
    · refine Resolves_mono r1 ?_ (fun l hm => by simp [hm])
      intro l hl1
      simp at hl1
      rcases hl1 with rfl | rfl <;> simp
    · intro i hi l hl1
      simp at hi
      subst hi
      simp [INST.targets] at hl1
    · exact Resolves_mono r2 (fun l hl1 => Or.inl hl1) (fun l hm => by simp [hm])

theorem Ltrl_trans_closes (valu : Valu) (dest : Name) : Closes [] (Ltrl.trans valu dest) := by
  intro symt code r h
  cases valu with
  | int i =>
    simp [Ltrl.trans] at h
    exact ⟨[.SET dest i], by rw [← h], by simp [Resolves, INST.targets]⟩
  | string sv =>
    simp [Ltrl.trans] at h
    exact ⟨[.STL dest (symt.add_strg sv).1], by rw [← h], by simp [Resolves, INST.targets]⟩
  | bool b =>
    cases b <;> simp [Ltrl.trans] at h
    · exact ⟨[.SET dest 0], by rw [← h], by simp [Resolves, INST.targets]⟩
    · exact ⟨[.SET dest 1], by rw [← h], by simp [Resolves, INST.targets]⟩
  | none =>
    simp [Ltrl.trans] at h
    exact ⟨[.SET dest 0], by rw [← h], by simp [Resolves, INST.targets]⟩

theorem Ltrl_trans_cndn_closes (valu : Valu) (then_lbl else_lbl : Labl) :
    Closes [then_lbl, else_lbl] (Ltrl.trans_cndn valu then_lbl else_lbl) := by
  intro symt code r h
  cases valu with
  | int i => simp [Ltrl.trans_cndn] at h
  | string sv => simp [Ltrl.trans_cndn] at h
  | none => simp [Ltrl.trans_cndn] at h
  | bool b =>
    cases b <;> simp [Ltrl.trans_cndn] at h
    · exact ⟨[.JMP else_lbl], by rw [← h], by simp [Resolves, INST.targets]⟩
    · exact ⟨[.JMP then_lbl], by rw [← h], by simp [Resolves, INST.targets]⟩

theorem Inpt_trans_closes (expn_trans : TransFn) (he : ∀ d, Closes [] (expn_trans d))
    (dest : Name) : Closes [] (Inpt.trans expn_trans dest) := by
  intro symt code r h
  unfold Inpt.trans at h
  simp only [] at h
  rcases h1 : expn_trans (symt.add_temp .StrTy).1 (symt.add_temp .StrTy).2 code with
    _ | ⟨s2, c1⟩
  · simp [h1] at h
  · simp [h1] at h
    obtain ⟨o1, e1, r1⟩ := he _ _ _ _ h1
    simp only at e1
    subst e1
    refine ⟨o1 ++ [.PTS (symt.add_temp .StrTy).1, .GTI dest], by rw [← h]; simp, ?_⟩
    refine Resolves_append ?_ ?_
    · exact Resolves_mono r1 (by simp) (fun l hm => by simp [hm])
    · intro i hi l hl1
      simp at hi
      rcases hi with rfl | rfl <;> simp [INST.targets] at hl1

/-- The jump targets in the output of a value-mode translation are all
defined in that output; those in the output of a condition-mode translation
are the two labels given or labels defined in that output. -/
theorem Expn_trans_closes (e : Expn) :
    (∀ dest, Closes [] (e.trans dest)) ∧ (∀ t l, Closes [t, l] (e.trans_cndn t l)) := by
  induction e with
  | Plus left rght lo type ihl ihr =>
    refine ⟨fun dest => ?_, fun t l => ?_⟩
    · simp only [Expn.trans]
      exact Plus_trans_closes _ _ _ _ _ ihl.1 ihr.1 dest
    · intro symt code r h
      simp [Expn.trans_cndn, Expn.trans_cndn_base] at h
      exact ⟨[], by rw [← h]; simp, by simp [Resolves]⟩
  | Less left rght lo type ihl ihr =>
    have hc := Less_trans_cndn_closes left.trans rght.trans left.type rght.type ihl.1 ihr.1
    refine ⟨fun dest => ?_, fun t l => ?_⟩
    · simp only [Expn.trans]
      exact Less_trans_closes _ hc dest
    · simp only [Expn.trans_cndn]
      exact hc t l
  | And left rght lo type ihl ihr =>
    have hc := And_trans_cndn_closes left.trans_cndn rght.trans_cndn ihl.2 ihr.2
    refine ⟨fun dest => ?_, fun t l => ?_⟩
    · simp only [Expn.trans]
      exact And_trans_closes _ hc dest
    · simp only [Expn.trans_cndn]
      exact hc t l
  | Ltrl valu lo type =>
    refine ⟨fun dest => ?_, fun t l => ?_⟩
    · simp only [Expn.trans]
      exact Ltrl_trans_closes valu dest
    · simp only [Expn.trans_cndn]
      exact Ltrl_trans_cndn_closes valu t l
  | Lkup name lo type =>
    refine ⟨fun dest => ?_, fun t l => ?_⟩
    · intro symt code r h
      simp [Expn.trans, Lkup.trans] at h
      exact ⟨[.MOV dest name], by rw [← h], by simp [Resolves, INST.targets]⟩
    · intro symt code r h
      simp [Expn.trans_cndn, Lkup.trans_cndn] at h
      exact ⟨[.BCZ "gtz" name t l], by rw [← h], by simp [Resolves, INST.targets]⟩
  | Inpt expn lo type ih =>
    refine ⟨fun dest => ?_, fun t l => ?_⟩
    · simp only [Expn.trans]
      exact Inpt_trans_closes _ ih.1 dest
    · intro symt code r h
      simp [Expn.trans_cndn, Expn.trans_cndn_base] at h
      exact ⟨[], by rw [← h]; simp, by simp [Resolves]⟩
theorem Prnt_trans_valu_closes (glbls : StrgLbls) (expn : Expn) :
    Closes [] (fun symt code => Prnt.trans_valu glbls symt code expn) := by
  intro symt code r h
  simp only [Prnt.trans_valu] at h
  split at h
  · rcases h1 : expn.trans (symt.add_temp .IntTy).1 (symt.add_temp .IntTy).2 code with
      _ | ⟨s2, c1⟩
    · simp [h1] at h
    · simp [h1] at h
      obtain ⟨o1, e1, r1⟩ := (Expn_trans_closes expn).1 _ _ _ _ h1
      simp only at e1
      subst e1
      refine ⟨o1 ++ [.PTI (symt.add_temp .IntTy).1], by rw [← h]; simp, ?_⟩
      refine Resolves_append ?_ ?_
      · exact Resolves_mono r1 (by simp) (fun l hm => by simp [hm])
      · intro i hi l hl1
        simp at hi
        subst hi
        simp [INST.targets] at hl1
  · rcases h1 : expn.trans (symt.add_temp .StrTy).1 (symt.add_temp .StrTy).2 code with
      _ | ⟨s2, c1⟩
    · simp [h1] at h
    · simp [h1] at h
      obtain ⟨o1, e1, r1⟩ := (Expn_trans_closes expn).1 _ _ _ _ h1
      simp only at e1
      subst e1
      refine ⟨o1 ++ [.PTS (symt.add_temp .StrTy).1], by rw [← h]; simp, ?_⟩
      refine Resolves_append ?_ ?_
      · exact Resolves_mono r1 (by simp) (fun l hm => by simp [hm])
      · intro i hi l hl1
        simp at hi
        subst hi
        simp [INST.targets] at hl1
  · rcases h1 : expn.trans_cndn symt.add_labl.1 symt.add_labl.2.add_labl.1
      (symt.add_labl.2.add_labl.2.add_labl.2.add_temp .BoolTy).2 code with _ | ⟨s5, c1⟩
    · simp [h1] at h
    · simp [h1] at h
      obtain ⟨o1, e1, r1⟩ := (Expn_trans_closes expn).2 _ _ _ _ _ h1
      simp only at e1
      subst e1
      refine ⟨o1 ++ [.LBL symt.add_labl.1,
        .STL (symt.add_labl.2.add_labl.2.add_labl.2.add_temp .BoolTy).1 glbls.TRUE_STRG_LBL,
        .JMP symt.add_labl.2.add_labl.2.add_labl.1, .LBL symt.add_labl.2.add_labl.1,
        .STL (symt.add_labl.2.add_labl.2.add_labl.2.add_temp .BoolTy).1 glbls.FLSE_STRG_LBL,
        .LBL symt.add_labl.2.add_labl.2.add_labl.1,
        .PTS (symt.add_labl.2.add_labl.2.add_labl.2.add_temp .BoolTy).1],
        by rw [← h]; simp, ?_⟩
      refine Resolves_append ?_ ?_
      · refine Resolves_mono r1 ?_ (fun l hm => by simp [hm])
        intro l hl1
        simp at hl1
        rcases hl1 with rfl | rfl <;> simp
      · intro i hi l hl1
        simp at hi
        rcases hi with rfl | rfl | rfl | rfl | rfl | rfl | rfl <;> simp [INST.targets] at hl1
        subst hl1
        simp
  · rcases h1 : expn.trans (symt.add_temp .NoneTy).1
      ((symt.add_temp .NoneTy).2.add_temp .StrTy).2 code with _ | ⟨s3, c1⟩
    · simp [h1] at h
    · simp [h1] at h
      obtain ⟨o1, e1, r1⟩ := (Expn_trans_closes expn).1 _ _ _ _ h1
      simp only at e1
      subst e1
      refine ⟨o1 ++ [.STL ((symt.add_temp .NoneTy).2.add_temp .StrTy).1 glbls.NONE_STRG_LBL,
        .PTS ((symt.add_temp .NoneTy).2.add_temp .StrTy).1], by rw [← h]; simp, ?_⟩
      refine Resolves_append ?_ ?_
      · exact Resolves_mono r1 (by simp) (fun l hm => by simp [hm])
      · intro i hi l hl1
        simp at hi
        rcases hi with rfl | rfl <;> simp [INST.targets] at hl1

/-- The jump targets in the output of the translation of a statement are the
exit label or labels defined in that output. -/
theorem Stmt_trans_closes (glbls : StrgLbls) (stmt : Stmt) (exit : Labl) :
    Closes [exit] (stmt.trans glbls exit) := by
  cases stmt with
  | Ntro name type expn lo =>
    intro symt code r h
    simp only [Stmt.trans, Ntro.trans] at h
    exact Closes_mono ((Expn_trans_closes expn).1 name) (by simp) symt code r h
  | Asgn name expn lo =>
    intro symt code r h
    simp only [Stmt.trans, Asgn.trans] at h
    exact Closes_mono ((Expn_trans_closes expn).1 name) (by simp) symt code r h
  | Prnt expn lo =>
    intro symt code r h
    simp only [Stmt.trans, Prnt.trans] at h
    rcases h1 : Prnt.trans_valu glbls symt code expn with _ | ⟨s1, c1⟩
    · simp [h1] at h
    · simp [h1] at h
      obtain ⟨o1, e1, r1⟩ := Prnt_trans_valu_closes glbls expn _ _ _ h1
      simp only at e1
      subst e1
      refine ⟨o1 ++ [.STL (s1.add_temp .StrTy).1 glbls.EOLN_STRG_LBL,
        .PTS (s1.add_temp .StrTy).1], by rw [← h]; simp, ?_⟩
      refine Resolves_append ?_ ?_
      · exact Resolves_mono r1 (by simp) (fun l hm => by simp [hm])
      · intro i hi l hl1
        simp at hi
        rcases hi with rfl | rfl <;> simp [INST.targets] at hl1
  | Pass lo =>
    intro symt code r h
    simp [Stmt.trans, Pass.trans] at h
    exact ⟨[.NOP], by rw [← h], by simp [Resolves, INST.targets]⟩
  | PRtn lo =>
    intro symt code r h
    simp [Stmt.trans, PRtn.trans] at h
    exact ⟨[.SET (symt.add_temp .NoneTy).1 0, .RTN (symt.add_temp .NoneTy).1, .JMP exit],
      by rw [← h], by simp [Resolves, INST.targets]⟩
  | FRtn expn lo =>
    intro symt code r h
    simp only [Stmt.trans, FRtn.trans] at h
    rcases h1 : expn.trans (symt.add_temp expn.type).1 (symt.add_temp expn.type).2 code with
      _ | ⟨s2, c1⟩
    · simp [h1] at h
    · simp [h1] at h
      obtain ⟨o1, e1, r1⟩ := (Expn_trans_closes expn).1 _ _ _ _ h1
      simp only at e1
      subst e1
      refine ⟨o1 ++ [.RTN (symt.add_temp expn.type).1, .JMP exit], by rw [← h]; simp, ?_⟩
      refine Resolves_append ?_ ?_
      · exact Resolves_mono r1 (by simp) (fun l hm => by simp [hm])
      · intro i hi l hl1
        simp at hi
        rcases hi with rfl | rfl <;> simp [INST.targets] at hl1
        subst hl1
        simp

/-- The jump targets in the output of the translation of a list of statements
are the exit label or labels defined in that output. -/
theorem Blck_trans_loop_closes (glbls : StrgLbls) (exit : Labl) (stmts : List Stmt) :
    Closes [exit] (Blck.trans_loop glbls exit stmts) := by
  induction stmts with
  | nil =>
    intro symt code r h
    simp [Blck.trans_loop] at h
    exact ⟨[], by rw [← h]; simp, by simp [Resolves]⟩
  | cons stmt rest ih =>
    intro symt code r h
    simp only [Blck.trans_loop] at h
    rcases h1 : stmt.trans glbls exit symt code with _ | ⟨s1, c1⟩
    · simp [h1] at h
    · simp only [h1] at h
      obtain ⟨o1, e1, r1⟩ := Stmt_trans_closes glbls stmt exit _ _ _ h1
      obtain ⟨o2, e2, r2⟩ := ih _ _ _ h
      simp only at e1
      subst e1
      refine ⟨o1 ++ o2, by rw [e2]; simp, Resolves_append ?_ ?_⟩
      · exact Resolves_mono r1 (fun l hl1 => Or.inl hl1) (fun l hm => by simp [hm])
      · exact Resolves_mono r2 (fun l hl1 => Or.inl hl1) (fun l hm => by simp [hm])

/-- C27: label closure of the emitted code. For every definition that has
checked, `Defn::trans` returns and every label that is a target of a `JMP`,
`BCN` or `BCZ` in the code it appends is defined by an `LBL` instruction of
that code. More precisely, whenever the translation returns: the targets in
the output of `e.trans_cndn(then_lbl, else_lbl)` are `then_lbl`, `else_lbl` or
labels defined in that output; the targets in the output of a value-mode
`e.trans` are all defined in that output; and the targets in the output of
`Blck::trans` are the exit label or labels defined in that output. -/
theorem Defn_trans_labels_closed (glbls : StrgLbls) (defs : Defs) (defn0 defn : Defn)
    (hchk : Defn.chck defs defn0 = (defn, .ok ())) :
    (∃ (defn1 : Defn) (out : INST_vec), Defn.trans glbls defn = some defn1 ∧
      defn1.code = defn.code ++ out ∧ targets_closed [] out = true) ∧
    (∀ (e : Expn) (then_lbl else_lbl : Labl) (symt : SymT) (code : INST_vec)
      (r : SymT × INST_vec), e.trans_cndn then_lbl else_lbl symt code = some r →
      ∃ out, r.2 = code ++ out ∧ targets_closed [then_lbl, else_lbl] out = true) ∧
    (∀ (e : Expn) (dest : Name) (symt : SymT) (code : INST_vec) (r : SymT × INST_vec),
      e.trans dest symt code = some r →
      ∃ out, r.2 = code ++ out ∧ targets_closed [] out = true) ∧
    (∀ (blck : Blck) (exit : Labl) (symt : SymT) (code : INST_vec) (r : SymT × INST_vec),
      Blck.trans glbls blck exit symt code = some r →
      ∃ out, r.2 = code ++ out ∧ targets_closed [exit] out = true) := by
  refine ⟨?_, ?_, ?_, ?_⟩
  · obtain ⟨rtns, hl, _, _⟩ := Defn.chck_body defs defn0 defn hchk
    obtain ⟨⟨symt3, code1⟩, hb⟩ :=
      Blck.chck_loop_trans_returns glbls _ defs _ _ _ _ _ _ hl defn.ext_lbl defn.body_symt
        (defn.code ++ [.LBL defn.def_lbl, .ENTER])
    obtain ⟨o1, e1, r1⟩ := Blck_trans_loop_closes glbls defn.ext_lbl defn.body.stmts _ _ _ hb
    simp only at e1
    subst e1
    have hb1 : defn.body.trans glbls defn.ext_lbl defn.body_symt
        (defn.code ++ [.LBL defn.def_lbl, .ENTER])
        = some (symt3, defn.code ++ [.LBL defn.def_lbl, .ENTER] ++ o1) := hb
    simp only [Defn.ext_lbl, Defn.body_symt, Defn.def_lbl] at hb1
    refine ⟨{ defn with
              symt := symt3,
              code := defn.code ++ [.LBL defn.def_lbl, .ENTER] ++ o1
                ++ [.LBL defn.ext_lbl, .LEAVE] },
      [.LBL defn.def_lbl, .ENTER] ++ o1 ++ [.LBL defn.ext_lbl, .LEAVE], ?_, ?_, ?_⟩
    · simp only [Defn.trans, hb1, Defn.ext_lbl, Defn.def_lbl]
    · simp
    · rw [targets_closed_iff]
      refine Resolves_append (Resolves_append ?_ ?_) ?_
      · intro i hi l hl1
        simp at hi
        rcases hi with rfl | rfl <;> simp [INST.targets] at hl1
      · refine Resolves_mono r1 ?_ (fun l hm => by simp [hm])
        intro l hl1
        simp at hl1
        subst hl1
        simp
      · intro i hi l hl1
        simp at hi
        rcases hi with rfl | rfl <;> simp [INST.targets] at hl1
  · intro e t l symt code r h
    obtain ⟨out, h1, h2⟩ := (Expn_trans_closes e).2 t l symt code r h
    exact ⟨out, h1, (targets_closed_iff _ _).mpr h2⟩
  · intro e dest symt code r h
    obtain ⟨out, h1, h2⟩ := (Expn_trans_closes e).1 dest symt code r h
    exact ⟨out, h1, (targets_closed_iff _ _).mpr h2⟩
  · intro blck exit symt code r h
    obtain ⟨out, h1, h2⟩ := Blck_trans_loop_closes glbls exit blck.stmts symt code r h
    exact ⟨out, h1, (targets_closed_iff _ _).mpr h2⟩

/-- The checked definition `def f() -> int: print(1 < 2); return 0`: the code
`Defn::trans` appends has all its jump targets defined in it. -/
theorem Defn_trans_labels_closed_witness :
    Defn.chck [] ex_defn_g0 = (ex_defn_g, .ok ()) ∧
    ∃ (defn1 : Defn) (out : INST_vec), Defn.trans Prgm.trans_glbls.1 ex_defn_g = some defn1 ∧
      defn1.code = ex_defn_g.code ++ out ∧ targets_closed [] out = true :=
  ⟨rfl, (Defn_trans_labels_closed Prgm.trans_glbls.1 [] ex_defn_g0 ex_defn_g rfl).1⟩

end Dwislpy
